import Mathlib

/-!
# wagl: DNS service discovery for container clusters

A shallow embedding of the record projection (package rrgen), the record
store (package rrstore), the answer formatter (package rrtype), the query
handlers (package server), the validation of the options and the staleness
supervisor (package main), the refresh of the store (packages clusterdns and
refresh) and the conversion of containers to tasks (package swarm),
followed by theorems about them.

Conventions of the embedding.

* A Go string is a Lean `String`, a sequence of runes; library routines on
  strings are written over the list of characters. Texts that are not valid
  UTF-8 have no counterpart.
* A Go map is the list of its entries, keys unique, new keys appended at
  the end. Only lookups observe it.
* A Go slice is a `List`; where the program mutates a slice it shares with
  the store, the new store is returned next to the result.
* `uint16` and `int` values are `Nat` and `Int`.
* A run-time panic (index out of range) is `none`.
* Log lines are not modelled.
-/

/-! ## Go maps -/

section GoMaps

variable {κ ν : Type} [DecidableEq κ]

/-- Lookup `m[k]` with the comma-ok result. -/
def mapGet : List (κ × ν) → κ → Option ν
  | [], _ => none
  | (k', v) :: m, k => if k' = k then some v else mapGet m k

/-- Assignment `m[k] = v`: replaces the entry of an existing key, appends a new one. -/
def mapSet : List (κ × ν) → κ → ν → List (κ × ν)
  | [], k, v => [(k, v)]
  | (k', v') :: m, k, v => if k' = k then (k', v) :: m else (k', v') :: mapSet m k v

end GoMaps

/-! ## Library routines: strings, strconv, net, dns -/

namespace unicode

/-- A range of `unicode.CaseRanges`, reduced to what lower-casing reads: the first and
the last rune of the range, the stride between its upper or title case runes, and the
lower case of the first rune; the lower case of a later one lies as far from it as the
rune lies from the first. -/
abbrev CaseRange := Nat × Nat × Nat × Nat

/-- The table `unicode.CaseRanges` above ASCII, for the runes whose lower case is
another rune: the simple lower-case mappings of the Unicode character database, as of
its version 14.0, 1407 runes in 181 ranges. -/
def CaseRanges : List CaseRange :=
  [(0x00C0, 0x00D6, 1, 0x00E0), (0x00D8, 0x00DE, 1, 0x00F8), (0x0100, 0x012E, 2, 0x0101),
   (0x0130, 0x0130, 1, 0x0069), (0x0132, 0x0136, 2, 0x0133), (0x0139, 0x0147, 2, 0x013A),
   (0x014A, 0x0176, 2, 0x014B), (0x0178, 0x0178, 1, 0x00FF), (0x0179, 0x017D, 2, 0x017A),
   (0x0181, 0x0181, 1, 0x0253), (0x0182, 0x0184, 2, 0x0183), (0x0186, 0x0186, 1, 0x0254),
   (0x0187, 0x0187, 1, 0x0188), (0x0189, 0x018A, 1, 0x0256), (0x018B, 0x018B, 1, 0x018C),
   (0x018E, 0x018E, 1, 0x01DD), (0x018F, 0x018F, 1, 0x0259), (0x0190, 0x0190, 1, 0x025B),
   (0x0191, 0x0191, 1, 0x0192), (0x0193, 0x0193, 1, 0x0260), (0x0194, 0x0194, 1, 0x0263),
   (0x0196, 0x0196, 1, 0x0269), (0x0197, 0x0197, 1, 0x0268), (0x0198, 0x0198, 1, 0x0199),
   (0x019C, 0x019C, 1, 0x026F), (0x019D, 0x019D, 1, 0x0272), (0x019F, 0x019F, 1, 0x0275),
   (0x01A0, 0x01A4, 2, 0x01A1), (0x01A6, 0x01A6, 1, 0x0280), (0x01A7, 0x01A7, 1, 0x01A8),
   (0x01A9, 0x01A9, 1, 0x0283), (0x01AC, 0x01AC, 1, 0x01AD), (0x01AE, 0x01AE, 1, 0x0288),
   (0x01AF, 0x01AF, 1, 0x01B0), (0x01B1, 0x01B2, 1, 0x028A), (0x01B3, 0x01B5, 2, 0x01B4),
   (0x01B7, 0x01B7, 1, 0x0292), (0x01B8, 0x01B8, 1, 0x01B9), (0x01BC, 0x01BC, 1, 0x01BD),
   (0x01C4, 0x01C4, 1, 0x01C6), (0x01C5, 0x01C5, 1, 0x01C6), (0x01C7, 0x01C7, 1, 0x01C9),
   (0x01C8, 0x01C8, 1, 0x01C9), (0x01CA, 0x01CA, 1, 0x01CC), (0x01CB, 0x01DB, 2, 0x01CC),
   (0x01DE, 0x01EE, 2, 0x01DF), (0x01F1, 0x01F1, 1, 0x01F3), (0x01F2, 0x01F4, 2, 0x01F3),
   (0x01F6, 0x01F6, 1, 0x0195), (0x01F7, 0x01F7, 1, 0x01BF), (0x01F8, 0x021E, 2, 0x01F9),
   (0x0220, 0x0220, 1, 0x019E), (0x0222, 0x0232, 2, 0x0223), (0x023A, 0x023A, 1, 0x2C65),
   (0x023B, 0x023B, 1, 0x023C), (0x023D, 0x023D, 1, 0x019A), (0x023E, 0x023E, 1, 0x2C66),
   (0x0241, 0x0241, 1, 0x0242), (0x0243, 0x0243, 1, 0x0180), (0x0244, 0x0244, 1, 0x0289),
   (0x0245, 0x0245, 1, 0x028C), (0x0246, 0x024E, 2, 0x0247), (0x0370, 0x0372, 2, 0x0371),
   (0x0376, 0x0376, 1, 0x0377), (0x037F, 0x037F, 1, 0x03F3), (0x0386, 0x0386, 1, 0x03AC),
   (0x0388, 0x038A, 1, 0x03AD), (0x038C, 0x038C, 1, 0x03CC), (0x038E, 0x038F, 1, 0x03CD),
   (0x0391, 0x03A1, 1, 0x03B1), (0x03A3, 0x03AB, 1, 0x03C3), (0x03CF, 0x03CF, 1, 0x03D7),
   (0x03D8, 0x03EE, 2, 0x03D9), (0x03F4, 0x03F4, 1, 0x03B8), (0x03F7, 0x03F7, 1, 0x03F8),
   (0x03F9, 0x03F9, 1, 0x03F2), (0x03FA, 0x03FA, 1, 0x03FB), (0x03FD, 0x03FF, 1, 0x037B),
   (0x0400, 0x040F, 1, 0x0450), (0x0410, 0x042F, 1, 0x0430), (0x0460, 0x0480, 2, 0x0461),
   (0x048A, 0x04BE, 2, 0x048B), (0x04C0, 0x04C0, 1, 0x04CF), (0x04C1, 0x04CD, 2, 0x04C2),
   (0x04D0, 0x052E, 2, 0x04D1), (0x0531, 0x0556, 1, 0x0561), (0x10A0, 0x10C5, 1, 0x2D00),
   (0x10C7, 0x10C7, 1, 0x2D27), (0x10CD, 0x10CD, 1, 0x2D2D), (0x13A0, 0x13EF, 1, 0xAB70),
   (0x13F0, 0x13F5, 1, 0x13F8), (0x1C90, 0x1CBA, 1, 0x10D0), (0x1CBD, 0x1CBF, 1, 0x10FD),
   (0x1E00, 0x1E94, 2, 0x1E01), (0x1E9E, 0x1E9E, 1, 0x00DF), (0x1EA0, 0x1EFE, 2, 0x1EA1),
   (0x1F08, 0x1F0F, 1, 0x1F00), (0x1F18, 0x1F1D, 1, 0x1F10), (0x1F28, 0x1F2F, 1, 0x1F20),
   (0x1F38, 0x1F3F, 1, 0x1F30), (0x1F48, 0x1F4D, 1, 0x1F40), (0x1F59, 0x1F5F, 2, 0x1F51),
   (0x1F68, 0x1F6F, 1, 0x1F60), (0x1F88, 0x1F8F, 1, 0x1F80), (0x1F98, 0x1F9F, 1, 0x1F90),
   (0x1FA8, 0x1FAF, 1, 0x1FA0), (0x1FB8, 0x1FB9, 1, 0x1FB0), (0x1FBA, 0x1FBB, 1, 0x1F70),
   (0x1FBC, 0x1FBC, 1, 0x1FB3), (0x1FC8, 0x1FCB, 1, 0x1F72), (0x1FCC, 0x1FCC, 1, 0x1FC3),
   (0x1FD8, 0x1FD9, 1, 0x1FD0), (0x1FDA, 0x1FDB, 1, 0x1F76), (0x1FE8, 0x1FE9, 1, 0x1FE0),
   (0x1FEA, 0x1FEB, 1, 0x1F7A), (0x1FEC, 0x1FEC, 1, 0x1FE5), (0x1FF8, 0x1FF9, 1, 0x1F78),
   (0x1FFA, 0x1FFB, 1, 0x1F7C), (0x1FFC, 0x1FFC, 1, 0x1FF3), (0x2126, 0x2126, 1, 0x03C9),
   (0x212A, 0x212A, 1, 0x006B), (0x212B, 0x212B, 1, 0x00E5), (0x2132, 0x2132, 1, 0x214E),
   (0x2160, 0x216F, 1, 0x2170), (0x2183, 0x2183, 1, 0x2184), (0x24B6, 0x24CF, 1, 0x24D0),
   (0x2C00, 0x2C2F, 1, 0x2C30), (0x2C60, 0x2C60, 1, 0x2C61), (0x2C62, 0x2C62, 1, 0x026B),
   (0x2C63, 0x2C63, 1, 0x1D7D), (0x2C64, 0x2C64, 1, 0x027D), (0x2C67, 0x2C6B, 2, 0x2C68),
   (0x2C6D, 0x2C6D, 1, 0x0251), (0x2C6E, 0x2C6E, 1, 0x0271), (0x2C6F, 0x2C6F, 1, 0x0250),
   (0x2C70, 0x2C70, 1, 0x0252), (0x2C72, 0x2C72, 1, 0x2C73), (0x2C75, 0x2C75, 1, 0x2C76),
   (0x2C7E, 0x2C7F, 1, 0x023F), (0x2C80, 0x2CE2, 2, 0x2C81), (0x2CEB, 0x2CED, 2, 0x2CEC),
   (0x2CF2, 0x2CF2, 1, 0x2CF3), (0xA640, 0xA66C, 2, 0xA641), (0xA680, 0xA69A, 2, 0xA681),
   (0xA722, 0xA72E, 2, 0xA723), (0xA732, 0xA76E, 2, 0xA733), (0xA779, 0xA77B, 2, 0xA77A),
   (0xA77D, 0xA77D, 1, 0x1D79), (0xA77E, 0xA786, 2, 0xA77F), (0xA78B, 0xA78B, 1, 0xA78C),
   (0xA78D, 0xA78D, 1, 0x0265), (0xA790, 0xA792, 2, 0xA791), (0xA796, 0xA7A8, 2, 0xA797),
   (0xA7AA, 0xA7AA, 1, 0x0266), (0xA7AB, 0xA7AB, 1, 0x025C), (0xA7AC, 0xA7AC, 1, 0x0261),
   (0xA7AD, 0xA7AD, 1, 0x026C), (0xA7AE, 0xA7AE, 1, 0x026A), (0xA7B0, 0xA7B0, 1, 0x029E),
   (0xA7B1, 0xA7B1, 1, 0x0287), (0xA7B2, 0xA7B2, 1, 0x029D), (0xA7B3, 0xA7B3, 1, 0xAB53),
   (0xA7B4, 0xA7C2, 2, 0xA7B5), (0xA7C4, 0xA7C4, 1, 0xA794), (0xA7C5, 0xA7C5, 1, 0x0282),
   (0xA7C6, 0xA7C6, 1, 0x1D8E), (0xA7C7, 0xA7C9, 2, 0xA7C8), (0xA7D0, 0xA7D0, 1, 0xA7D1),
   (0xA7D6, 0xA7D8, 2, 0xA7D7), (0xA7F5, 0xA7F5, 1, 0xA7F6), (0xFF21, 0xFF3A, 1, 0xFF41),
   (0x10400, 0x10427, 1, 0x10428), (0x104B0, 0x104D3, 1, 0x104D8), (0x10570, 0x1057A, 1, 0x10597),
   (0x1057C, 0x1058A, 1, 0x105A3), (0x1058C, 0x10592, 1, 0x105B3), (0x10594, 0x10595, 1, 0x105BB),
   (0x10C80, 0x10CB2, 1, 0x10CC0), (0x118A0, 0x118BF, 1, 0x118C0), (0x16E40, 0x16E5F, 1, 0x16E60),
   (0x1E900, 0x1E921, 1, 0x1E922)]

/-- Whether a range holds a rune as one of its upper or title case runes. -/
def inRange (e : CaseRange) (n : Nat) : Bool :=
  decide (e.1 ≤ n) && decide (n ≤ e.2.1) && decide ((n - e.1) % e.2.2.1 = 0)

/-- The lower case of a rune above ASCII, from the table. -/
def toLowerCase (n : Nat) : Nat :=
  match CaseRanges.find? fun e => inRange e n with
  | some e => e.2.2.2 + (n - e.1)
  | none => n

/-- The function `unicode.ToLower` maps the rune to lower case. -/
def ToLower (r : Char) : Char :=
  if r.toNat ≤ 0x7F then
    if 'A'.toNat ≤ r.toNat ∧ r.toNat ≤ 'Z'.toNat then Char.ofNat (r.toNat + ('a'.toNat - 'A'.toNat))
    else r
  else Char.ofNat (toLowerCase r.toNat)

end unicode

namespace strings

/-- White space in the sense of `unicode.IsSpace`. -/
def isSpace (c : Char) : Bool :=
  let n := c.toNat
  n = 0x20 || (0x09 ≤ n && n ≤ 0x0d) || n = 0x85 || n = 0xa0 || n = 0x1680 ||
  (0x2000 ≤ n && n ≤ 0x200a) || n = 0x2028 || n = 0x2029 || n = 0x202f ||
  n = 0x205f || n = 0x3000

/-- The function `strings.TrimSpace`: drops leading and trailing white space. -/
def TrimSpace (s : String) : String :=
  String.mk (((s.data.dropWhile isSpace).reverse.dropWhile isSpace).reverse)

/-- The function `strings.ToLower` returns the string with all Unicode letters mapped to
their lower case, rune by rune. -/
def ToLower (s : String) : String :=
  String.mk (s.data.map unicode.ToLower)

end strings

namespace strconv

/-- Decimal text of an `int`, the verb `%d`. -/
def Itoa (n : Int) : String :=
  match n with
  | Int.ofNat k => String.mk (Nat.toDigits 10 k)
  | Int.negSucc k => String.mk ('-' :: Nat.toDigits 10 (k + 1))

/-- The loop of `ParseUint(s, 10, 16)` over the characters still to read. -/
def parseUintLoop (s0 : String) : List Char → Nat → Except String Nat
  | [], n => .ok n
  | c :: cs, n =>
    if c.isDigit then
      let n1 := n * 10 + (c.toNat - '0'.toNat)
      if n1 > 65535 then
        .error ("strconv.ParseUint: parsing " ++ s0 ++ ": value out of range")
      else parseUintLoop s0 cs n1
    else .error ("strconv.ParseUint: parsing " ++ s0 ++ ": invalid syntax")

/-- The call `strconv.ParseUint(s, 10, 16)`. -/
def ParseUint16 (s : String) : Except String Nat :=
  if s.data = [] then .error ("strconv.ParseUint: parsing " ++ s ++ ": invalid syntax")
  else parseUintLoop s s.data 0

end strconv

namespace dns

def TypeA : Nat := 1
def TypeSRV : Nat := 33
def ClassINET : Nat := 1

def RcodeSuccess : Nat := 0
def RcodeServerFailure : Nat := 2
def RcodeNameError : Nat := 3
def RcodeNotImplemented : Nat := 4

/-- Modelled from the spec: `dns.Fqdn` of the DNS codec, which is not part of the
sources; the spec has `fqdn(x)` ensure a trailing dot. -/
def Fqdn (s : String) : String :=
  if s.data.getLast? = some '.' then s else s ++ "."

end dns

namespace net

/-- An address as `net.IP` holds it: a sequence of bytes, 4 or 16 of them when valid. -/
abbrev IP := List Nat

/-- The constructor `net.IPv4(a, b, c, d)`: the 16-byte form of an IPv4 address. -/
def IPv4 (a b c d : Nat) : IP :=
  [0, 0, 0, 0, 0, 0, 0, 0, 0, 0, 0xff, 0xff, a, b, c, d]

/-- The method `IP.To4`. -/
def To4 (ip : IP) : Option IP :=
  if ip.length = 4 then some ip
  else if ip.length = 16 ∧ ip.take 10 = List.replicate 10 0 ∧ (ip.drop 10).take 2 = [0xff, 0xff]
  then some (ip.drop 12)
  else none

/-- The 16-bit groups of a 16-byte address. -/
def words : List Nat → List Nat
  | hi :: lo :: rest => (hi * 256 + lo) :: words rest
  | _ => []

/-- Length of the run of zero groups at the head of a list. -/
def zeroRun : List Nat → Nat
  | 0 :: ws => zeroRun ws + 1
  | _ => 0

/-- The scan for the longest run of zero groups: `i` is the index of the head of `ws`,
`best` the leftmost longest run found so far as (start, length). -/
def longestZeroRun : Nat → List Nat → Nat → Nat × Nat → Nat × Nat
  | 0, _, _, best => best
  | _, [], _, best => best
  | fuel + 1, w :: ws, i, best =>
    let n := zeroRun (w :: ws)
    if n > best.2 then longestZeroRun fuel ((w :: ws).drop (n + 1)) (i + n + 1) (i, n)
    else longestZeroRun fuel ws (i + 1) best

def hexGroup (w : Nat) : String := String.mk (Nat.toDigits 16 w)

def joinColon : List String → String
  | [] => ""
  | [x] => x
  | x :: xs => x ++ ":" ++ joinColon xs

/-- The method `IP.String`: dotted decimal for IPv4, groups of hex digits for IPv6
with the leftmost longest run of two or more zero groups written `::`. -/
def IP.String (ip : IP) : String :=
  if ip.length = 0 then "<nil>"
  else match To4 ip with
  | some [a, b, c, d] =>
    strconv.Itoa a ++ "." ++ strconv.Itoa b ++ "." ++ strconv.Itoa c ++ "." ++ strconv.Itoa d
  | _ =>
    if ip.length ≠ 16 then "?" ++ String.join (ip.map fun b =>
      String.mk ((Nat.toDigits 16 (b / 16)) ++ (Nat.toDigits 16 (b % 16))))
    else
      let ws := words ip
      let run := longestZeroRun 8 ws 0 (0, 0)
      if run.2 < 2 then joinColon (ws.map hexGroup)
      else joinColon ((ws.take run.1).map hexGroup) ++ "::" ++
        joinColon ((ws.drop (run.1 + run.2)).map hexGroup)

end net

/-! ## Package task -/

namespace task

/-- Port describes network port of a service on the host machine. -/
structure Port where
  HostIP : net.IP
  HostPort : Int
  Proto : String
deriving DecidableEq, Repr

/-- The method `Port.String`, format `%s:%d/%s`. -/
def Port.String (p : Port) : String :=
  p.HostIP.String ++ ":" ++ strconv.Itoa p.HostPort ++ "/" ++ p.Proto

/-- Task describes a running container in the cluster. -/
structure Task where
  Id : String
  Ports : List Port
  Service : String
  Domain : String
deriving DecidableEq, Repr

/-- ClusterState describes the current state of the cluster. -/
abbrev ClusterState := List Task

end task

/-! ## Package rrstore -/

namespace rrstore

/-- The table type `RRs`: record type, then FQDN, then the answers. -/
abbrev RRs := List (Nat × List (String × List String))

/-- The store; its lock is not modelled. -/
structure rrStore where
  rrs : RRs
deriving DecidableEq, Repr

/-- New creates a new record table: the zero store, whose table is the nil map. -/
def New : rrStore := ⟨[]⟩

/-- The inner map `rrs[rrType]`; a missing type reads as the nil map. -/
def inner (rrs : RRs) (rrType : Nat) : List (String × List String) :=
  (mapGet rrs rrType).getD []

/-- The read `rrs[rrType][fqdn]` with its comma-ok result. -/
def lookup (rrs : RRs) (rrType : Nat) (fqdn : String) : Option (List String) :=
  mapGet (inner rrs rrType) fqdn

/-- The method `Get`: the pair (rrs, ok) of the read `r.rrs[rrType][fqdn]`. -/
def rrStore.Get (r : rrStore) (fqdn : String) (rrType : Nat) : List String × Bool :=
  match lookup r.rrs rrType fqdn with
  | some rrs => (rrs, true)
  | none => ([], false)

/-- The method `Set`: replaces the table. -/
def rrStore.Set (_r : rrStore) (rl : RRs) : rrStore := ⟨rl⟩

end rrstore

/-! ## Package rrgen -/

namespace rrgen

open task

structure rrEntry where
  rrType : Nat
  domain : String
  record : String
deriving DecidableEq, Repr

/-- FilterFunc determines if a Task can be used, if not provides a reason. -/
abbrev FilterFunc := Task → Bool × String

abbrev Filters := List FilterFunc

/-- BadTask describes a Task that is not eligible. -/
structure BadTask where
  toTask : Task
  Reason : String
deriving DecidableEq, Repr

def HasPorts (t : Task) : Bool × String :=
  (decide (t.Ports.length > 0), "has no port mappings")

def HasDnsName (t : Task) : Bool × String :=
  (decide (t.Service ≠ ""), "has no DNS name specified (or not configured for DNS)")

/-- The loop of `PortsHaveProtos` over the ports still to check. -/
def portsHaveProtosLoop : List Port → Bool × String
  | [] => (true, "")
  | p :: ps =>
    if p.Proto = "" then
      (false, "no network protocol specified for port mapping " ++ "\x27" ++ p.String ++ "\x27")
    else portsHaveProtosLoop ps

def PortsHaveProtos (t : Task) : Bool × String := portsHaveProtosLoop t.Ports

/-- DnsFilters are list of filters applied in order to determine DNS eligibility. -/
def DnsFilters : Filters := [HasDnsName, HasPorts, PortsHaveProtos]

/-- The inner loop of `FilterTasks`: the reason of the first filter the task fails. -/
def firstFailure : Filters → Task → Option String
  | [], _ => none
  | ff :: fs, t => if (ff t).1 then firstFailure fs t else some (ff t).2

/-- The method `FilterTasks`: the good tasks, and the bad ones with their reasons. -/
def FilterTasks (f : Filters) (ll : List Task) : List Task × List BadTask :=
  ll.foldl (fun acc t =>
    match firstFailure f t with
    | some reason => (acc.1, acc.2 ++ [⟨t, reason⟩])
    | none => (acc.1 ++ [t], acc.2)) ([], [])

/-- The SRV entries of `getTaskRRs`, one for each port mapping. -/
def srvEntries (t : Task) (tail : String) : List Port → List rrEntry
  | [] => []
  | p :: ps =>
    ⟨dns.TypeSRV, "_" ++ t.Service ++ "._" ++ p.Proto ++ "." ++ tail,
      p.HostIP.String ++ ":" ++ strconv.Itoa p.HostPort⟩ :: srvEntries t tail ps

/-- The function `getTaskRRs` returns all DNS RRs of a Task as a list; reading
`t.Ports[0]` of a task without ports is the panic `none`. -/
def getTaskRRs (domain : String) (t : Task) : Option (List rrEntry) :=
  let tail := dns.Fqdn domain
  let tail := if t.Domain ≠ "" then dns.Fqdn t.Domain ++ tail else tail
  match t.Ports with
  | [] => none
  | p0 :: _ =>
    let ip := p0.HostIP.String
    some (⟨dns.TypeA, t.Service ++ "." ++ tail, ip⟩ :: srvEntries t tail t.Ports)

/-- The function `insertRR` adds the specified RR entry into the RR table. -/
def insertRR (rr : rrstore.RRs) (entry : rrEntry) : rrstore.RRs :=
  let rr := if mapGet rr entry.rrType = none then mapSet rr entry.rrType [] else rr
  let m := rrstore.inner rr entry.rrType
  mapSet rr entry.rrType (mapSet m entry.domain ((mapGet m entry.domain).getD [] ++ [entry.record]))

/-- The loop of `getRRs` over the tasks still to project, `rr` the table so far. -/
def getRRsLoop (domain : String) : List Task → rrstore.RRs → Option rrstore.RRs
  | [], rr => some rr
  | t :: ts, rr =>
    match getTaskRRs domain t with
    | none => none
    | some rs => getRRsLoop domain ts (rs.foldl insertRR rr)

/-- The function `getRRs` generates the DNS Resource Record table for the given tasks. -/
def getRRs (domain : String) (ll : List Task) : Option rrstore.RRs :=
  getRRsLoop domain ll []

/-- The function `RRs` determines the tasks which can have DNS Resource Records and
returns the RRs based on the given cluster state. -/
def RRs (domain : String) (state : ClusterState) : Option rrstore.RRs :=
  getRRs domain (FilterTasks DnsFilters state).1

end rrgen

/-! ## Library routines: parsing addresses -/

namespace net

/-- Value of a decimal digit string. -/
def decValue (ds : List Char) : Nat :=
  ds.foldl (fun n c => n * 10 + (c.toNat - '0'.toNat)) 0

def isHexDigit (c : Char) : Bool :=
  c.isDigit || ('a' ≤ c && c ≤ 'f') || ('A' ≤ c && c ≤ 'F')

def hexDigitValue (c : Char) : Nat :=
  if c.isDigit then c.toNat - '0'.toNat
  else if 'a' ≤ c && c ≤ 'f' then c.toNat - 'a'.toNat + 10
  else c.toNat - 'A'.toNat + 10

/-- Value of a hex digit string. -/
def hexValue (ds : List Char) : Nat :=
  ds.foldl (fun n c => n * 16 + hexDigitValue c) 0

/-- The fields of `parseIPv4` still to read: `k` fields remain, `first` tells whether
the next field is the first one; each field is a decimal number of at most 255 with
no leading zero, fields are separated by dots. -/
def parseIPv4Fields : Nat → Bool → List Char → Option (List Nat)
  | 0, _, s => if s = [] then some [] else none
  | k + 1, first, s =>
    if s = [] then none
    else
      let s1 := if first then some s else (if s.head? = some '.' then some s.tail else none)
      match s1 with
      | none => none
      | some s1 =>
        let ds := s1.takeWhile Char.isDigit
        if ds = [] then none
        else if decValue ds > 255 then none
        else if ds.length > 1 ∧ ds.head? = some '0' then none
        else (parseIPv4Fields k false (s1.drop ds.length)).map fun bs => decValue ds :: bs

/-- The four bytes of a dotted decimal IPv4 address, if the text is one. -/
def parseIPv4 (s : List Char) : Option (List Nat) := parseIPv4Fields 4 true s

/-- The loop of `parseIPv6`: `acc` holds the bytes parsed so far, `ell` the byte
position of the ellipsis when one was met. A group is one to four hex digits. The
result is the bytes, the ellipsis and the text not consumed. -/
def parseIPv6Loop : Nat → List Char → List Nat → Option Nat →
    Option (List Nat × Option Nat × List Char)
  | 0, s, acc, ell => some (acc, ell, s)
  | fuel + 1, s, acc, ell =>
    if acc.length ≥ 16 then some (acc, ell, s)
    else
      let ds := s.takeWhile isHexDigit
      if ds = [] then none
      else if ds.length > 4 then none
      else if hexValue ds > 0xFFFF then none
      else
        let rest := s.drop ds.length
        if rest.head? = some '.' then
          if ell = none ∧ acc.length ≠ 12 then none
          else if acc.length + 4 > 16 then none
          else (parseIPv4 s).map fun b4 => (acc ++ b4, ell, [])
        else
          let acc := acc ++ [hexValue ds / 256, hexValue ds % 256]
          if rest = [] then some (acc, ell, [])
          else if rest.head? ≠ some ':' ∨ rest.length = 1 then none
          else
            let s := rest.tail
            if s.head? = some ':' then
              if ell.isSome then none
              else if s.tail = [] then some (acc, some acc.length, [])
              else parseIPv6Loop fuel s.tail acc (some acc.length)
            else parseIPv6Loop fuel s acc ell

/-- The sixteen bytes of an IPv6 address text, if the text is one. A text with a zone,
the part after a percent sign, is no address for `net.ParseIP`, whether the zone is
empty or not. -/
def parseIPv6 (s : List Char) : Option (List Nat) :=
  let lead := s.take 2 = [':', ':']
  let s1 := if lead then s.drop 2 else s
  let ell : Option Nat := if lead then some 0 else none
  if '%' ∈ s then none
  else if lead ∧ s1 = [] then some (List.replicate 16 0)
  else
    match parseIPv6Loop 9 s1 [] ell with
    | none => none
    | some (acc, ell, rest) =>
      if rest ≠ [] then none
      else if acc.length < 16 then
        match ell with
        | none => none
        | some e => some (acc.take e ++ List.replicate (16 - acc.length) 0 ++ acc.drop e)
      else if ell.isSome then none
      else some acc

/-- The function `net.ParseIP`: the 16-byte form of an IPv4 or IPv6 address text, the
nil address (no bytes) for any other text. The first dot, colon or percent sign of the
text tells which of the two parsers reads it. -/
def ParseIP (s : String) : IP :=
  match s.data.find? (fun c => c = '.' || c = ':' || c = '%') with
  | some '.' =>
    match parseIPv4 s.data with
    | some [a, b, c, d] => IPv4 a b c d
    | _ => []
  | some ':' => (parseIPv6 s.data).getD []
  | _ => []

/-- Index of the first occurrence of a character. -/
def indexByte : List Char → Char → Option Nat
  | [], _ => none
  | x :: xs, c => if x = c then some 0 else (indexByte xs c).map (· + 1)

/-- Index of the last occurrence of a character. -/
def lastIndexByte (s : List Char) (c : Char) : Option Nat :=
  (indexByte s.reverse c).map fun i => s.length - 1 - i

/-- The function `net.SplitHostPort`: host and port of `host:port` or `[host]:port`;
the error is the reason. -/
def SplitHostPort (hostport : String) : Except String (String × String) :=
  let s := hostport.data
  match lastIndexByte s ':' with
  | none => .error "missing port in address"
  | some i =>
    if s.head? = some '[' then
      match indexByte s ']' with
      | none => .error "missing ] in address"
      | some e =>
        if e + 1 = s.length then .error "missing port in address"
        else if e + 1 = i then
          if (indexByte (s.drop 1) '[').isSome then .error "unexpected [ in address"
          else if (indexByte (s.drop (e + 1)) ']').isSome then .error "unexpected ] in address"
          else .ok (String.mk ((s.take e).drop 1), String.mk (s.drop (i + 1)))
        else if (s.drop (e + 1)).head? = some ':' then .error "too many colons in address"
        else .error "missing port in address"
    else
      if (indexByte (s.take i) ':').isSome then .error "too many colons in address"
      else if (indexByte s '[').isSome then .error "unexpected [ in address"
      else if (indexByte s ']').isSome then .error "unexpected ] in address"
      else .ok (String.mk (s.take i), String.mk (s.drop (i + 1)))

end net

/-! ## The DNS message -/

namespace dns

/-- The common header of a resource record. -/
structure RR_Header where
  Name : String
  Rrtype : Nat
  Class : Nat
  Ttl : Nat
deriving DecidableEq, Repr

/-- The resource records the server builds: `dns.A` and `dns.SRV`. -/
inductive RR where
  | A (Hdr : RR_Header) (A : net.IP)
  | SRV (Hdr : RR_Header) (Priority Weight Port : Nat) (Target : String)
deriving DecidableEq, Repr

structure Question where
  Name : String
  Qtype : Nat
  Qclass : Nat
deriving DecidableEq, Repr

/-- The fields of `dns.Msg` the server reads or writes. -/
structure Msg where
  Id : Nat
  Response : Bool
  Opcode : Nat
  Authoritative : Bool
  RecursionDesired : Bool
  RecursionAvailable : Bool
  CheckingDisabled : Bool
  Rcode : Nat
  Compress : Bool
  Question : List Question
  Answer : List RR
deriving DecidableEq, Repr

/-- The zero message, `new(dns.Msg)`. -/
def Msg.new : Msg := ⟨0, false, 0, false, false, false, false, 0, false, [], []⟩

/-- Modelled from the spec: `Msg.SetReply` of the DNS codec, which is not part of the
sources: it makes the message a reply to the request (id, opcode, first question,
rcode NOERROR) and leaves the Authoritative flag and the Answer section as they are,
as the spec has every reply of the internal handler authoritative. -/
def Msg.SetReply (m : Msg) (request : Msg) : Msg :=
  { m with
    Id := request.Id
    Response := true
    Opcode := request.Opcode
    RecursionDesired := if request.Opcode = 0 then request.RecursionDesired else m.RecursionDesired
    CheckingDisabled := if request.Opcode = 0 then request.CheckingDisabled else m.CheckingDisabled
    Rcode := RcodeSuccess
    Question := match request.Question with
      | [] => m.Question
      | q :: _ => [q] }

/-- Modelled from the spec: `Msg.SetRcode` of the DNS codec: `SetReply`, then the
given rcode. -/
def Msg.SetRcode (m : Msg) (request : Msg) (rcode : Nat) : Msg :=
  { m.SetReply request with Rcode := rcode }

end dns

/-! ## Package rrtype -/

namespace rrtype

abbrev formatterFunc := String → String → Except String dns.RR

/-- The function `formatA` formats an IP address record into an A record. -/
def formatA (name rec : String) : Except String dns.RR :=
  .ok (dns.RR.A ⟨name, dns.TypeA, dns.ClassINET, 0⟩ (net.ParseIP rec))

/-- The function `formatSRV` formats an IP:port record into a SRV record. -/
def formatSRV (name rec : String) : Except String dns.RR :=
  match net.SplitHostPort rec with
  | .error err => .error ("cannot format addr " ++ rec ++ " to SRV record: " ++ err)
  | .ok (host, port) =>
    let host := dns.Fqdn host
    match strconv.ParseUint16 port with
    | .error err => .error ("cannot parse port number in " ++ rec ++ ": " ++ err)
    | .ok portNum =>
      .ok (dns.RR.SRV ⟨name, dns.TypeSRV, dns.ClassINET, 0⟩ 1 1 portNum host)

def rrFormatters : List (Nat × formatterFunc) :=
  [(dns.TypeA, formatA), (dns.TypeSRV, formatSRV)]

/-- The function `IsSupported` returns if the system supports answering to questions
for specified DNS RR Type. -/
def IsSupported (rrType : Nat) : Bool :=
  (mapGet rrFormatters rrType).isSome

/-- The function `ToRR` converts stored RR info to an appropriate DNS RR based on the
rrType specified. -/
def ToRR (rrType : Nat) (name rec : String) : Except String dns.RR :=
  match mapGet rrFormatters rrType with
  | none => .error ("Formatting RR to type " ++ toString rrType ++ " REC not implemented")
  | some f => f name rec

end rrtype

/-! ## Package server -/

namespace server

open rrstore

/-- The random source `rnd`: the stream of its raw outputs still to come. -/
abbrev Rand := Nat → Nat

/-- The call `rnd.Intn(n)` for a positive `n`: a number below `n`, and the source
after the draw. -/
def Intn (g : Rand) (n : Nat) (_h : 0 < n) : Nat × Rand :=
  (g 0 % n, fun k => g (k + 1))

/-- The exchange `a[i], a[r] = a[r], a[i]`. -/
def swap (a : List String) (i r : Nat) : List String :=
  (a.set i (a.getD r "")).set r (a.getD i "")

/-- The loop of `shuffle` from index `i` down to 1. -/
def shuffleLoop : Nat → Rand → List String → List String × Rand
  | 0, g, a => (a, g)
  | i + 1, g, a =>
    let d := Intn g (i + 1) (Nat.succ_pos i)
    shuffleLoop i d.2 (swap a (i + 1) d.1)

/-- The function `shuffle`, working in place: the slice after the loop, and the
random source after its draws. -/
def shuffle (g : Rand) (a : List String) : List String × Rand :=
  shuffleLoop (a.length - 1) g a

structure DnsServer where
  rr : rrStore
  recurse : Bool
  nameservers : List String

/-- The store after a write through the slice that `Get` returned: the slice shares
its elements with the sequence stored at the key. -/
def writeThrough (r : rrStore) (rrType : Nat) (fqdn : String) (a : List String) : rrStore :=
  ⟨mapSet r.rrs rrType (mapSet (inner r.rrs rrType) fqdn a)⟩

/-- The function `parseQuestion` parses the first question in the DNS message into
domain name and DNS RR Type; a message without a question is the panic `none`. -/
def parseQuestion (r : dns.Msg) : Option (String × Nat) :=
  match r.Question with
  | [] => none
  | q :: _ => some (strings.TrimSpace (strings.ToLower q.Name), q.Qtype)

/-- The result of `queryRR`, with the store and the random source as it leaves them. -/
structure QueryResult where
  supported : Bool
  found : Bool
  records : List String
  store : rrStore
  rnd : Rand

/-- The method `queryRR` queries the DNS Resource Records for given record type. If
records are found, they are shuffled in the slice the store handed out. -/
def queryRR (d : DnsServer) (g : Rand) (qType : Nat) (domain : String) : QueryResult :=
  if !rrtype.IsSupported qType then ⟨false, false, [], d.rr, g⟩
  else
    let got := d.rr.Get domain qType
    if !got.2 then ⟨true, false, [], d.rr, g⟩
    else
      let s := shuffle g got.1
      ⟨true, true, s.1, writeThrough d.rr qType domain s.1, s.2⟩

/-- The loop of `handleDomain` over the records still to convert; a conversion error
sets SERVFAIL and leaves the loop. -/
def answerLoop (r : dns.Msg) (qType : Nat) (dom : String) : List String → dns.Msg → dns.Msg
  | [], m => m
  | rec :: recs, m =>
    match rrtype.ToRR qType dom rec with
    | .error _ => m.SetRcode r dns.RcodeServerFailure
    | .ok rr => answerLoop r qType dom recs { m with Answer := m.Answer ++ [rr] }

/-- The method `handleDomain` handles DNS queries that come to the cluster: the
message it writes, and the store and the random source as it leaves them. -/
def handleDomain (d : DnsServer) (g : Rand) (r : dns.Msg) : Option (dns.Msg × rrStore × Rand) :=
  match parseQuestion r with
  | none => none
  | some (dom, qType) =>
    let m := dns.Msg.new.SetReply r
    let m := { m with Authoritative := true }
    let q := queryRR d g qType dom
    if !q.supported then some (m.SetRcode r dns.RcodeNotImplemented, q.store, q.rnd)
    else if !q.found then some (m.SetRcode r dns.RcodeNameError, q.store, q.rnd)
    else some (answerLoop r qType dom q.records m, q.store, q.rnd)

end server

/-! ## Package server: queries outside the domain -/

namespace server

/-- The upstream exchange `c.Exchange(req, ns)` of the DNS client, a collaborator: the
response of the nameserver, or an error. -/
abbrev Exchange := dns.Msg → String → Except String dns.Msg

/-- The result of `queryExternal`: the outcome of the exchange, the nameserver that
was picked, and the random source after the draw. -/
structure ExternalResult where
  response : Except String dns.Msg
  ns : String
  rnd : Rand

/-- The method `queryExternal` makes an external DNS query to a randomly picked
external nameserver; with no nameserver `rnd.Intn(0)` is the panic `none`. -/
def queryExternal (d : DnsServer) (g : Rand) (exchange : Exchange) (req : dns.Msg) :
    Option ExternalResult :=
  if h : 0 < d.nameservers.length then
    let dr := Intn g d.nameservers.length h
    let ns := d.nameservers.getD dr.1 ""
    some ⟨exchange req ns, ns, dr.2⟩
  else none

/-- The method `handleExternal` handles DNS queries that are outside the domain of
the cluster: the message it writes, the random source as it leaves it, and the
nameservers it contacted. -/
def handleExternal (d : DnsServer) (g : Rand) (exchange : Exchange) (r : dns.Msg) :
    Option (dns.Msg × Rand × List String) :=
  match parseQuestion r with
  | none => none
  | some _ =>
    if !d.recurse then
      let m := dns.Msg.new.SetReply r
      let m := m.SetRcode r dns.RcodeServerFailure
      let m := { m with Authoritative := false }
      let m := { m with RecursionAvailable := false }
      some (m, g, [])
    else
      match queryExternal d g exchange r with
      | none => none
      | some res =>
        match res.response with
        | .error _ =>
          let m := dns.Msg.new.SetReply r
          some (m.SetRcode r dns.RcodeServerFailure, res.rnd, [res.ns])
        | .ok resp => some ({ resp with Compress := true }, res.rnd, [res.ns])

end server

/-! ## Package main -/

namespace wagl

/-- A `time.Duration`, in nanoseconds. -/
abbrev Duration := Int

/-- A `time.Time`: an instant, in nanoseconds after the zero time. -/
abbrev Time := Int

structure Options where
  domain : String
  bindAddr : String
  swarmAddr : String
  tlsDir : String
  tlsVerify : Bool
  recurse : Bool
  nameservers : List String
  refreshInterval : Duration
  refreshTimeout : Duration
  stalenessPeriod : Duration
deriving DecidableEq, Repr

/-- The errors of `validate`, one for each message. -/
inductive ValidateError where
  | nameserversWithoutRecursion
  | tlsVerifyWithoutCertPath
  | loadNameservers (err : String)
  | noNameserversFound
  | notAnIP (host : String)
  | timeoutNotLess (timeout interval : Duration)
deriving DecidableEq, Repr

/-- The nameserver loop of `validate` over the entries still to check: an entry that
`net.SplitHostPort` does not split gets the default port, and the host of every entry
must parse as an IP address. The result is the list as the loop rewrote it. -/
def nameserverLoop : List String → Except ValidateError (List String)
  | [] => .ok []
  | v :: vs =>
    let hv : String × String :=
      match net.SplitHostPort v with
      | .error _ => (v, v ++ ":53")
      | .ok (h, _) => (h, v)
    if net.ParseIP hv.1 = [] then .error (.notAnIP hv.1)
    else
      match nameserverLoop vs with
      | .error e => .error e
      | .ok rest => .ok (hv.2 :: rest)

/-- The function `validate` looks for logical correctness and consistency of the
input arguments to the program; `localNameservers` is what reading /etc/resolv.conf
gives. The result is the options as `validate` rewrote them. -/
def validate (localNameservers : Except String (List String)) (opt : Options) :
    Except ValidateError Options :=
  if !opt.recurse && decide (opt.nameservers.length > 0) then
    .error .nameserversWithoutRecursion
  else if opt.tlsVerify && decide (opt.tlsDir = "") then
    .error .tlsVerifyWithoutCertPath
  else
    let loaded : Except ValidateError Options :=
      if opt.recurse && decide (opt.nameservers.length = 0) then
        match localNameservers with
        | .error err => .error (.loadNameservers err)
        | .ok ns =>
          if ns.length = 0 then .error .noNameserversFound
          else .ok { opt with nameservers := ns }
      else .ok opt
    match loaded with
    | .error e => .error e
    | .ok opt =>
      match nameserverLoop opt.nameservers with
      | .error e => .error e
      | .ok ns =>
        let opt := { opt with nameservers := ns }
        if opt.refreshTimeout ≥ opt.refreshInterval then
          .error (.timeoutNotLess opt.refreshTimeout opt.refreshInterval)
        else .ok opt

/-- The state of the goroutine of `serve` that watches the refresh events. -/
structure Supervisor where
  lastSuccess : Time
  start : Time
  errs : Int
  ok : Int
deriving DecidableEq, Repr

/-- The state when the goroutine starts: `lastSuccess` is the zero time. -/
def Supervisor.init (now : Time) : Supervisor := ⟨0, now, 0, 0⟩

/-- The function `time.Since` at the clock reading `now`; the saturation of a
duration at 2^63 nanoseconds is not modelled. -/
def Since (now t : Time) : Duration := now - t

/-- The staleness test at the head of the loop; the clock is read once, by the
disjunct that the value of `ok` selects. -/
def isStale (stalenessPeriod : Duration) (s : Supervisor) (now : Time) : Bool :=
  (decide (s.ok > 0) && decide (Since now s.lastSuccess > stalenessPeriod)) ||
  (decide (s.ok = 0) && decide (Since now s.start > stalenessPeriod))

/-- What the `select` of the loop receives. -/
inductive Event where
  | err (e : String)
  | ok
  | cancel
deriving DecidableEq, Repr

/-- How an iteration of the loop ends: the fatal exit on stale records with the text
of the last success, the fatal exit on cancellation, or the next state. -/
inductive Outcome where
  | fatalStale (last : String)
  | fatalCancelled
  | next (s : Supervisor)
deriving DecidableEq, Repr

/-- One iteration of the loop: the staleness test at clock reading `now`, then the
event that the `select` receives, at clock reading `later`; `timeString` is the
method `Time.String`. -/
def iteration (timeString : Time → String) (stalenessPeriod : Duration) (s : Supervisor)
    (now : Time) (ev : Event) (later : Time) : Outcome :=
  if isStale stalenessPeriod s now then
    .fatalStale (if s.lastSuccess = 0 then "never" else timeString s.lastSuccess)
  else
    match ev with
    | .err _ => .next { s with errs := s.errs + 1 }
    | .ok => .next { s with errs := 0, ok := s.ok + 1, lastSuccess := later }
    | .cancel => .fatalCancelled

end wagl

/-! ## Package clusterdns -/

namespace clusterdns

/-- ClusterDNS keeps the DNS records in sync with Cluster state; the cluster driver
is the result of its method `Tasks`, passed to `SyncRecords`. -/
structure ClusterDNS where
  domain : String
  rr : rrstore.rrStore
deriving DecidableEq, Repr

/-- The method `SyncRecords` syncs the DNS records in the RR table with the cluster:
the error it returns, if any, and the store as it leaves it; `tasks` is what the
call `c.cl.Tasks()` gives. -/
def SyncRecords (c : ClusterDNS) (tasks : Except String task.ClusterState) :
    Option (Option String × rrstore.rrStore) :=
  match tasks with
  | .error err => some (some ("error fetching cluster state: " ++ err), c.rr)
  | .ok state =>
    match rrgen.RRs c.domain state with
    | none => none
    | some rl => some (none, c.rr.Set rl)

end clusterdns

/-! ## Package refresh -/

namespace refresh

/-- The goroutine that runs `f`: still running, or returned with its error (none for
nil), the result then waiting in `errF` or `doneF`, both buffered. -/
inductive FState where
  | running
  | returned (err : Option String)
deriving DecidableEq, Repr

/-- Where the goroutine of an invocation stands: blocked in the `select`; in the case
of the timeout, about to send on `errCh`; in the case of `errF`, about to send the
error on `errCh`; in the case of `doneF`, about to send on `okCh`; about to close
`cancelF`; at its end. -/
inductive Phase where
  | selecting
  | timedOut
  | gotErr (e : String)
  | gotDone
  | closing
  | ended
deriving DecidableEq, Repr

/-- One invocation, started by a tick: the goroutine of `f`, whether the timer of
`time.After(timeout)` has fired, whether `cancelF` is closed, and the phase. -/
structure Invocation where
  f : FState
  timer : Bool
  cancelF : Bool
  phase : Phase
deriving DecidableEq, Repr

/-- The engine that `New` starts: whether `cancelCh` is closed, the contents of the
buffers of `errCh` and `okCh`, of capacity 1 each, and the invocations in the order
of their ticks. -/
structure Engine where
  cancelCh : Bool
  errCh : List String
  okCh : Nat
  invs : List Invocation
deriving DecidableEq, Repr

/-- The engine right after `New`. -/
def New : Engine := ⟨false, [], 0, []⟩

/-- The cases of the `select`. -/
inductive Case where
  | timeout
  | cancel
  | err
  | done
deriving DecidableEq, Repr

/-- What can happen next: a tick arrives on `tickCh`; `cancelCh` is closed; the timer
of an invocation fires; the `f` of an invocation returns; the `select` of an
invocation takes a case; the goroutine of an invocation runs its next statement
after the `select`; the consumer receives from `errCh` or from `okCh`. -/
inductive Action where
  | tick
  | cancel
  | timerFires (i : Nat)
  | fReturns (i : Nat) (err : Option String)
  | select (i : Nat) (c : Case)
  | advance (i : Nat)
  | recvErr
  | recvOk
deriving DecidableEq, Repr

/-- The engine with invocation `i` replaced. -/
def Engine.setInv (s : Engine) (i : Nat) (v : Invocation) : Engine :=
  { s with invs := s.invs.set i v }

/-- The `select` of an invocation taking a case: the timeout when the timer has fired,
the cancellation when `cancelCh` is closed, `errF` when `f` has returned an error,
`doneF` when `f` has returned nil; none when the case is not ready. -/
def selectCase (s : Engine) (v : Invocation) : Case → Option Invocation
  | .timeout => if v.timer then some { v with phase := .timedOut } else none
  | .cancel => if s.cancelCh then some { v with phase := .closing } else none
  | .err =>
    match v.f with
    | .returned (some e) => some { v with phase := .gotErr e }
    | _ => none
  | .done =>
    match v.f with
    | .returned none => some { v with phase := .gotDone }
    | _ => none

/-- The next statement of an invocation after its `select`: the send on `errCh` or
`okCh`, which needs room in the buffer, or the close of `cancelF`; none when the
statement blocks or there is none. -/
def advance (s : Engine) (i : Nat) (v : Invocation) : Option Engine :=
  match v.phase with
  | .timedOut =>
    if s.errCh.length < 1 then
      some { s.setInv i { v with phase := .closing } with
        errCh := s.errCh ++ ["refreshing timed out"] }
    else none
  | .gotErr e =>
    if s.errCh.length < 1 then
      some { s.setInv i { v with phase := .ended } with errCh := s.errCh ++ [e] }
    else none
  | .gotDone =>
    if s.okCh < 1 then some { s.setInv i { v with phase := .ended } with okCh := s.okCh + 1 }
    else none
  | .closing => some (s.setInv i { v with cancelF := true, phase := .ended })
  | _ => none

/-- One step of the engine; none when the action cannot happen in the state. A tick
starts an invocation: the loop over `tickCh` starts a goroutine, which starts `f` and
enters its `select`. -/
def step (s : Engine) : Action → Option Engine
  | .tick => some { s with invs := s.invs ++ [⟨.running, false, false, .selecting⟩] }
  | .cancel => some { s with cancelCh := true }
  | .timerFires i =>
    match s.invs[i]? with
    | some v => if v.timer then none else some (s.setInv i { v with timer := true })
    | none => none
  | .fReturns i err =>
    match s.invs[i]? with
    | some v =>
      match v.f with
      | .running => some (s.setInv i { v with f := .returned err })
      | _ => none
    | none => none
  | .select i c =>
    match s.invs[i]? with
    | some v =>
      match v.phase with
      | .selecting => (selectCase s v c).map (s.setInv i)
      | _ => none
    | none => none
  | .advance i =>
    match s.invs[i]? with
    | some v => advance s i v
    | none => none
  | .recvErr =>
    match s.errCh with
    | [] => none
    | _ :: rest => some { s with errCh := rest }
  | .recvOk => if s.okCh > 0 then some { s with okCh := s.okCh - 1 } else none

/-- A run of the engine: the actions one after the other. -/
def run (s : Engine) : List Action → Option Engine
  | [] => some s
  | a :: as =>
    match step s a with
    | none => none
    | some s1 => run s1 as

end refresh

/-! ## Package swarm -/

namespace swarm

def dnsLabel : String := "dns.service"
def dnsDomain : String := "dns.domain"

/-- The type `containerPort` represents a port declaration item as it appears in the
Docker Remote API. -/
structure containerPort where
  IP : String
  PrivatePort : Int
  PublicPort : Int
  Type_ : String
deriving DecidableEq, Repr

/-- The type `container` represents a container item of the Docker Remote API. -/
structure container where
  Id : String
  Ports : List containerPort
  Names : List String
  Labels : List (String × String)
deriving DecidableEq, Repr

/-- The function `isMappedPort` determines if a port listing is actually mapped to
the host. -/
def isMappedPort (l : containerPort) : Bool :=
  decide (l.IP ≠ "") && decide (l.PublicPort ≠ 0)

/-- The function `toPort` converts a Docker port mapping to `task.Port`. -/
def toPort (p : containerPort) : Except String task.Port :=
  let ip := net.ParseIP p.IP
  if ip = [] then .error ("cannot parse IP \x27" ++ p.IP ++ "\x27")
  else .ok ⟨ip, p.PublicPort, p.Type_⟩

/-- The function `mappedPorts` returns only list of ports mapped to the host from a
list of port mappings. -/
def mappedPorts : List containerPort → Except String (List task.Port)
  | [] => .ok []
  | v :: l =>
    if isMappedPort v then
      match toPort v with
      | .error err => .error err
      | .ok p =>
        match mappedPorts l with
        | .error err => .error err
        | .ok out => .ok (p :: out)
    else mappedPorts l

/-- The read `labels[key]` of a map of strings: the empty string for a missing key. -/
def label (labels : List (String × String)) (key : String) : String :=
  (mapGet labels key).getD ""

/-- The function `dnsPartsFromLabels` gives service name and domain name based on
the labels; if the container does not have a service name, both are empty. -/
def dnsPartsFromLabels (labels : List (String × String)) : String × String :=
  let service := strings.ToLower (label labels dnsLabel)
  let project := strings.ToLower (label labels dnsDomain)
  let project := if service = "" then "" else project
  (service, project)

/-- The function `containersToTasks` makes `task.Task` instances out of the given
list. -/
def containersToTasks : List container → Except String (List task.Task)
  | [] => .ok []
  | c :: ll =>
    match mappedPorts c.Ports with
    | .error err =>
      .error ("error parsing ports for container " ++ c.Id ++ " (" ++
        toString c.Names ++ "): " ++ err)
    | .ok ports =>
      let sd := dnsPartsFromLabels c.Labels
      match containersToTasks ll with
      | .error err => .error err
      | .ok out => .ok (⟨c.Id, ports, sd.1, sd.2⟩ :: out)

end swarm

/-! ## Notions of the specification -/

namespace spec

open task

/-- Eligibility as the specification words it: a non-empty service, at least one
port, and no port with an empty proto. -/
def eligible (t : Task) : Bool :=
  decide (t.Service ≠ "") && decide (t.Ports ≠ []) && t.Ports.all fun p => decide (p.Proto ≠ "")

/-- A task violating a filter, as the specification words it: an empty service, an
empty port list, or at least one port with an empty proto. -/
def ineligible (t : Task) : Bool :=
  decide (t.Service = "") || decide (t.Ports = []) || t.Ports.any fun p => decide (p.Proto = "")

/-- The name tail of a task under a root domain: the task domain and a dot when the
task has a domain, then the root domain with its trailing dot. -/
def tail (d : String) (t : Task) : String :=
  (if t.Domain = "" then "" else t.Domain ++ ".") ++ dns.Fqdn d

/-- The name of the A record of a task. -/
def aName (d : String) (t : Task) : String :=
  t.Service ++ "." ++ tail d t

/-- The name of the SRV record of a port of a task. -/
def srvName (d : String) (t : Task) (p : Port) : String :=
  "_" ++ t.Service ++ "._" ++ p.Proto ++ "." ++ tail d t

/-- The SRV answer of a port: the address text, a colon, the port in decimal. -/
def srvAnswer (p : Port) : String :=
  p.HostIP.String ++ ":" ++ strconv.Itoa p.HostPort

/-- The answers that a list of emitted entries holds for a record type and name, in
the order of the entries. -/
def answersFor (ty : Nat) (name : String) (es : List rrgen.rrEntry) : List String :=
  (es.filter fun e => decide (e.rrType = ty ∧ e.domain = name)).map fun e => e.record

/-- The entries a task emits; none for a task that cannot be projected. -/
def taskEntries (d : String) (t : Task) : List rrgen.rrEntry :=
  (rrgen.getTaskRRs d t).getD []

/-- A stored sequence: a key is present exactly when it has answers. -/
def stored (l : List String) : Option (List String) :=
  if l = [] then none else some l

/-- Success of a conversion. -/
def isOk : Except String dns.RR → Bool
  | .ok _ => true
  | .error _ => false

/-- A stored answer that the formatter of the record type converts. -/
def formats (qType : Nat) (dom : String) (rec : String) : Bool :=
  isOk (rrtype.ToRR qType dom rec)

/-- The records that the stored answers convert to, in their order; an answer the
formatter fails on gives none. -/
def formatted (qType : Nat) (dom : String) (recs : List String) : List dns.RR :=
  recs.filterMap fun rec =>
    match rrtype.ToRR qType dom rec with
    | .ok rr => some rr
    | .error _ => none

/-- The reply under construction when the handler starts to look up the records. -/
def reply0 (r : dns.Msg) : dns.Msg :=
  { dns.Msg.new.SetReply r with Authoritative := true }

/-- The name the handler looks up for a question name as the specification words it:
lowercased and trimmed. -/
def canonical (n : String) : String :=
  strings.ToLower (strings.TrimSpace n)

/-- The query a client sends for a name and a type, as the tests build it: one
question, the name made fully qualified. -/
def query (name : String) (qType : Nat) : dns.Msg :=
  { dns.Msg.new with RecursionDesired := true, Question := [⟨dns.Fqdn name, qType, dns.ClassINET⟩] }

/-- A list of entries that is a map: no key occurs twice. -/
def uniqueKeys {κ ν : Type} (m : List (κ × ν)) : Prop :=
  (m.map Prod.fst).Nodup

instance {κ ν : Type} [DecidableEq κ] (m : List (κ × ν)) : Decidable (uniqueKeys m) := by
  unfold uniqueKeys
  infer_instance

/-- A table that is a map of maps. -/
def isTable (T : rrstore.RRs) : Prop :=
  uniqueKeys T ∧ ∀ e ∈ T, uniqueKeys e.2

instance (T : rrstore.RRs) : Decidable (isTable T) := by
  unfold isTable
  infer_instance

/-- The table holds the pair of a record type and a name, with the given answers. -/
def holds (T : rrstore.RRs) (rrType : Nat) (fqdn : String) (a : List String) : Prop :=
  ∃ m, (rrType, m) ∈ T ∧ (fqdn, a) ∈ m

/-- A decimal integer in 0..65535 as a text: digits only, at least one, and a value
of at most 65535. -/
def isPort16 (port : String) : Bool :=
  decide (port.data ≠ []) && port.data.all Char.isDigit && decide (net.decValue port.data ≤ 65535)

/-- A host written without a colon and without brackets. -/
def plainHost (host : String) : Bool :=
  host.data.all fun c => decide (c ≠ ':' ∧ c ≠ '[' ∧ c ≠ ']')

/-- The host part of a nameserver entry as the specification words it: the part
before the port, or the whole string when it has no port. -/
def hostPart (v : String) : String :=
  match net.SplitHostPort v with
  | .ok (h, _) => h
  | .error _ => v

/-- A text that is its own lowercased form. -/
def isLower (s : String) : Prop := strings.ToLower s = s

/-- The staleness condition as the specification words it. -/
def staleCondition (okCount : Int) (lastSuccess startTime now S : Int) : Prop :=
  (okCount > 0 ∧ now - lastSuccess > S) ∨ (okCount = 0 ∧ now - startTime > S)

/-- Every name stored in a table, under any record type, has a property. -/
def namesSatisfy (P : String → Prop) (T : rrstore.RRs) : Prop :=
  ∀ ty m name a, (ty, m) ∈ T → (name, a) ∈ m → P name

/-- The bad task that a task makes under a filter list: the task with the reason of
the first filter it fails, none for a task that passes every filter. -/
def badOf (f : rrgen.Filters) (t : Task) : Option rrgen.BadTask :=
  (rrgen.firstFailure f t).map fun reason => ⟨t, reason⟩

/-- What `Get` returns for a stored sequence, or for its absence. -/
def getResult : Option (List String) → List String × Bool
  | some a => (a, true)
  | none => ([], false)

/-- No empty entries: every record type of the table has a name, and every name has
an answer. -/
def noEmptyEntries (T : rrstore.RRs) : Prop :=
  ∀ ty m, (ty, m) ∈ T → m ≠ [] ∧ ∀ name a, (name, a) ∈ m → a ≠ []

/-- An invocation of the engine that is blocked on its send of the timeout error: the
buffer of `errCh` is full, the invocation is in the case of the timeout, before its
send, and its `cancelF` is not closed. -/
def blockedAt (s : refresh.Engine) (i : Nat) : Prop :=
  s.errCh.length = 1 ∧
    ∃ v, s.invs[i]? = some v ∧ v.phase = refresh.Phase.timedOut ∧ v.cancelF = false

/-- The conversion of a mapped container port as the specification words it: the
parsed IP, the public port, the type. -/
def convertPort (v : swarm.containerPort) : Port :=
  ⟨net.ParseIP v.IP, v.PublicPort, v.Type_⟩

/-- A mapped port: a non-empty IP and a non-zero public port. -/
def isMapped (v : swarm.containerPort) : Bool :=
  decide (v.IP ≠ "") && decide (v.PublicPort ≠ 0)

/-- The permutation that takes a list to another is a single cycle through all the
positions: there is a map of positions, sending each position of the first list to
the position where its element stands in the second, under which every position is
reached from position 0. -/
def isSingleCycle (a b : List String) : Prop :=
  ∃ f : Nat → Nat, (∀ k < a.length, f k < a.length ∧ b[f k]? = a[k]?) ∧
    ∀ k < a.length, ∃ m, f^[m] 0 = k

/-- An IPv4 address: the 4-byte form, or the 16-byte form that `net.IPv4` builds. -/
def isIPv4 (ip : net.IP) : Bool := (net.To4 ip).isSome

/-- An IPv6 address: 16 bytes that are not the 16-byte form of an IPv4 address. -/
def isIPv6 (ip : net.IP) : Bool := decide (ip.length = 16) && (net.To4 ip).isNone

/-- The map of positions after one more exchange: the element at `r` goes to the
position `n`, the element at `n` goes where the element at `r` went. -/
def insertAfter (f : Nat → Nat) (r n : Nat) (k : Nat) : Nat :=
  if k = r then n else if k = n then f r else f k

/-- White space as `strings.isSpace` tells it, on the code point. -/
def isSpaceNat (k : Nat) : Bool :=
  k = 0x20 || (0x09 ≤ k && k ≤ 0x0d) || k = 0x85 || k = 0xa0 || k = 0x1680 ||
  (0x2000 ≤ k && k ≤ 0x200a) || k = 0x2028 || k = 0x2029 || k = 0x202f ||
  k = 0x205f || k = 0x3000

/-- The image of a range under lower-casing lies between these two code points. -/
def lowerLo (e : unicode.CaseRange) : Nat := e.2.2.2
def lowerHi (e : unicode.CaseRange) : Nat := e.2.2.2 + (e.2.1 - e.1)

/-- Two intervals of code points with no point in common. -/
def disjoint (a b c d : Nat) : Bool := decide (b < c) || decide (d < a)

/-- The white space of `unicode.IsSpace`, as intervals. -/
def spaces : List (Nat × Nat) :=
  [(0x09, 0x0d), (0x20, 0x20), (0x85, 0x85), (0xa0, 0xa0), (0x1680, 0x1680), (0x2000, 0x200a),
   (0x2028, 0x2029), (0x202f, 0x202f), (0x205f, 0x205f), (0x3000, 0x3000)]

/-- A range of the table is sound: it lies above ASCII, its lower cases are code points
of characters, neither the range nor its lower cases meet white space, and no lower
case is an ASCII capital. -/
def entryOK (e : unicode.CaseRange) : Bool :=
  decide (0x7F < e.1) && decide (e.1 ≤ e.2.1) &&
  (decide (lowerHi e < 0xd800) || (decide (0xdfff < lowerLo e) && decide (lowerHi e < 0x110000))) &&
  spaces.all (fun s => disjoint e.1 e.2.1 s.1 s.2 && disjoint (lowerLo e) (lowerHi e) s.1 s.2) &&
  disjoint (lowerLo e) (lowerHi e) 65 90

/-- No lower case of the first range is an upper case rune of the second: the lower
cases lie outside the second range, or the first range is one rune whose lower case the
second does not hold, or both ranges alternate upper and lower case in step. -/
def compat (e f : unicode.CaseRange) : Bool :=
  disjoint (lowerLo e) (lowerHi e) f.1 f.2.1 ||
  (decide (e.1 = e.2.1) && !unicode.inRange f e.2.2.2) ||
  (decide (e.2.2.1 = 2) && decide (f.2.2.1 = 2) && decide (e.2.2.2 = e.1 + 1) &&
    decide (f.1 ≤ e.1) && decide ((e.1 - f.1) % 2 = 0))

open refresh

/-- The state of an invocation in a run without upstream cancellation hangs together:
`cancelF` is closed only at the end of the case of the timeout, which needs the timer;
the cases of `errF` and `doneF` hold what `f` returned. -/
def wellFormed (v : Invocation) : Bool :=
  match v.phase with
  | .selecting => !v.cancelF
  | .timedOut => !v.cancelF && v.timer
  | .gotErr e => !v.cancelF && decide (v.f = .returned (some e))
  | .gotDone => !v.cancelF && decide (v.f = .returned none)
  | .closing => !v.cancelF && v.timer
  | .ended => (v.cancelF && v.timer) || (!v.cancelF && decide (v.f ≠ .running))

/-- Whether `f` has returned an error. -/
def isErr : FState → Bool
  | .returned (some _) => true
  | _ => false

/-- An invocation that has sent its event on the errors: it is past the send of the case
of the timeout, or at its end after the case of `errF`. -/
def errSent (v : Invocation) : Bool :=
  match v.phase with
  | .closing => true
  | .ended => v.cancelF || isErr v.f
  | _ => false

/-- An invocation that has sent its event on the successes: it is at its end after the
case of `doneF`. -/
def okSent (v : Invocation) : Bool :=
  match v.phase with
  | .ended => !v.cancelF && decide (v.f = .returned none)
  | _ => false

/-- An action of a run in which no timeout elapses and `f` never fails: not a timer
firing, not `f` returning an error. -/
def quiet : Action → Bool
  | .timerFires _ => false
  | .fReturns _ (some _) => false
  | _ => true

/-- What the consumer receives along a run, in order: an error, or none for a success. -/
def received (s : Engine) : List Action → List (Option String)
  | [] => []
  | a :: as =>
    match step s a with
    | none => []
    | some s1 =>
      (match a with
        | .recvErr => s.errCh.head?.toList.map some
        | .recvOk => [none]
        | _ => []) ++ received s1 as

/-- The run of the test with the durations 1, 5, 15, 20, 25, 2, 3, 2 ms of `f` and the
timeout 10 ms. The eight ticks come first. The invocations 0, 5, 7, 6, 1 see their `f`
return nil after 1, 2, 2, 3, 5 ms and take the case of `doneF`; the first sends its
success, the others wait for room. After 10 ms the timers of the invocations 2, 3, 4
fire while their `f` runs; they take the case of the timeout; the first sends its error
and closes its `cancelF`, on which its `f` returns; the others wait for room, and their
`f` returns after 20 and 25 ms. Then the consumer receives the three errors and the
five successes. -/
def timeoutScenario : List Action :=
  [.tick, .tick, .tick, .tick, .tick, .tick, .tick, .tick,
   .fReturns 0 none, .select 0 .done, .advance 0,
   .fReturns 5 none, .select 5 .done,
   .fReturns 7 none, .select 7 .done,
   .fReturns 6 none, .select 6 .done,
   .fReturns 1 none, .select 1 .done,
   .timerFires 2, .select 2 .timeout, .advance 2, .advance 2, .fReturns 2 none,
   .timerFires 3, .select 3 .timeout,
   .timerFires 4, .select 4 .timeout,
   .fReturns 3 none, .fReturns 4 none,
   .recvErr, .advance 3, .advance 3, .recvErr, .advance 4, .advance 4, .recvErr,
   .recvOk, .advance 5, .recvOk, .advance 7, .recvOk, .advance 6, .recvOk, .advance 1,
   .recvOk]

end spec

/-! ## Maps -/

section MapLemmas

variable {κ ν : Type} [DecidableEq κ]

theorem mapGet_mapSet (m : List (κ × ν)) (k k' : κ) (v : ν) :
    mapGet (mapSet m k v) k' = if k = k' then some v else mapGet m k' := by
  induction m with
  | nil => simp [mapSet, mapGet]
  | cons e m ih =>
    obtain ⟨k0, v0⟩ := e
    by_cases h0 : k0 = k
    · subst h0
      by_cases h1 : k0 = k' <;> simp [mapSet, mapGet, h1]
    · by_cases h1 : k0 = k'
      · subst h1
        have : ¬ k = k0 := fun h => h0 h.symm
        simp [mapSet, mapGet, h0, this]
      · simp [mapSet, mapGet, h0, h1, ih]

theorem mapGet_mapSet_self (m : List (κ × ν)) (k : κ) (v : ν) :
    mapGet (mapSet m k v) k = some v := by
  simp [mapGet_mapSet]

theorem mapGet_mem {m : List (κ × ν)} {k : κ} {v : ν} (h : mapGet m k = some v) :
    (k, v) ∈ m := by
  induction m with
  | nil => simp [mapGet] at h
  | cons e m ih =>
    obtain ⟨k0, v0⟩ := e
    by_cases h0 : k0 = k
    · simp [mapGet, h0] at h
      simp [h0, h]
    · simp [mapGet, h0] at h
      exact List.mem_cons_of_mem _ (ih h)

theorem mapGet_of_mem {m : List (κ × ν)} {k : κ} {v : ν} (hu : spec.uniqueKeys m)
    (h : (k, v) ∈ m) : mapGet m k = some v := by
  induction m with
  | nil => simp at h
  | cons e m ih =>
    obtain ⟨k0, v0⟩ := e
    unfold spec.uniqueKeys at hu
    simp only [List.map_cons, List.nodup_cons] at hu
    rcases List.mem_cons.mp h with h1 | h1
    · cases h1
      simp [mapGet]
    · have hne : ¬ k0 = k := by
        intro hk
        apply hu.1
        rw [hk]
        exact List.mem_map.mpr ⟨(k, v), h1, rfl⟩
      simp only [mapGet, hne, if_false]
      exact ih hu.2 h1

end MapLemmas

/-! ## Projection -/

section Projection

open task rrgen rrstore spec

theorem lookup_insertRR (rr : RRs) (e : rrEntry) (ty : Nat) (name : String) :
    lookup (insertRR rr e) ty name =
      if e.rrType = ty ∧ e.domain = name then some ((lookup rr ty name).getD [] ++ [e.record])
      else lookup rr ty name := by
  unfold insertRR lookup rrstore.inner
  by_cases hty : e.rrType = ty
  · subst hty
    by_cases hn : e.domain = name
    · subst hn
      by_cases h : mapGet rr e.rrType = none <;> simp [h, mapGet_mapSet, mapGet]
    · by_cases h : mapGet rr e.rrType = none <;> simp [h, hn, mapGet_mapSet, mapGet]
  · by_cases h : mapGet rr e.rrType = none <;> simp [h, hty, mapGet_mapSet]

theorem lookup_foldl_insertRR (es : List rrEntry) (rr : RRs) (ty : Nat) (name : String) :
    lookup (es.foldl insertRR rr) ty name =
      if answersFor ty name es = [] then lookup rr ty name
      else some ((lookup rr ty name).getD [] ++ answersFor ty name es) := by
  induction es generalizing rr with
  | nil => simp [answersFor]
  | cons e es ih =>
    rw [List.foldl_cons, ih, lookup_insertRR]
    by_cases h : e.rrType = ty ∧ e.domain = name
    · by_cases h2 : answersFor ty name es = [] <;>
        simp [answersFor, h, List.filter_cons] at h2 ⊢
    · by_cases h2 : answersFor ty name es = [] <;>
        simp [answersFor, h, List.filter_cons] at h2 ⊢

theorem answersFor_append (ty : Nat) (name : String) (xs ys : List rrEntry) :
    answersFor ty name (xs ++ ys) = answersFor ty name xs ++ answersFor ty name ys := by
  simp [answersFor]

theorem answersFor_flatMap (ty : Nat) (name : String) (ts : List Task) (f : Task → List rrEntry) :
    answersFor ty name (ts.flatMap f) = ts.flatMap fun t => answersFor ty name (f t) := by
  induction ts with
  | nil => simp [answersFor]
  | cons t ts ih => simp [answersFor_append, ih]

theorem FilterTasks_foldl (f : Filters) (ll : List Task) (acc : List Task × List BadTask) :
    (ll.foldl (fun acc t =>
      match firstFailure f t with
      | some reason => (acc.1, acc.2 ++ [⟨t, reason⟩])
      | none => (acc.1 ++ [t], acc.2)) acc).1
      = acc.1 ++ ll.filter fun t => decide (firstFailure f t = none) := by
  induction ll generalizing acc with
  | nil => simp
  | cons t ts ih =>
    rw [List.foldl_cons, ih]
    cases h : firstFailure f t <;> simp [h, List.filter_cons]

theorem FilterTasks_good (f : Filters) (ll : List Task) :
    (FilterTasks f ll).1 = ll.filter fun t => decide (firstFailure f t = none) := by
  unfold FilterTasks
  rw [FilterTasks_foldl]
  simp

theorem portsHaveProtosLoop_true (ps : List Port) :
    (portsHaveProtosLoop ps).1 = ps.all fun p => decide (p.Proto ≠ "") := by
  induction ps with
  | nil => simp [portsHaveProtosLoop]
  | cons p ps ih =>
    by_cases h : p.Proto = "" <;> simp [portsHaveProtosLoop, h, ih]

theorem firstFailure_DnsFilters (t : Task) :
    decide (firstFailure DnsFilters t = none) = eligible t := by
  unfold DnsFilters eligible
  by_cases h1 : t.Service = ""
  · simp [firstFailure, HasDnsName, h1]
  · by_cases h2 : t.Ports = []
    · simp [firstFailure, HasDnsName, HasPorts, h1, h2]
    · have h3 : 0 < t.Ports.length := List.length_pos.mpr h2
      by_cases h4 : (portsHaveProtosLoop t.Ports).1 = true
      · have h5 := h4
        rw [portsHaveProtosLoop_true] at h5
        simp only [List.all_eq_true, decide_eq_true_eq] at h5
        simpa [firstFailure, HasDnsName, HasPorts, PortsHaveProtos, h1, h2, h3, h4] using h5
      · have h5 := h4
        rw [portsHaveProtosLoop_true] at h5
        simp only [List.all_eq_true, decide_eq_true_eq, not_forall] at h5
        simpa [firstFailure, HasDnsName, HasPorts, PortsHaveProtos, h1, h2, h3, h4] using h5

theorem FilterTasks_DnsFilters (C : List Task) :
    (FilterTasks DnsFilters C).1 = C.filter eligible := by
  rw [FilterTasks_good]
  congr 1
  funext t
  exact firstFailure_DnsFilters t

theorem eligible_ports_ne_nil {t : Task} (h : eligible t = true) : t.Ports ≠ [] := by
  unfold eligible at h
  simp at h
  exact h.1.2

theorem getTaskRRs_isSome {t : Task} (d : String) (h : t.Ports ≠ []) :
    getTaskRRs d t = some (taskEntries d t) := by
  unfold taskEntries getTaskRRs
  cases hp : t.Ports with
  | nil => exact absurd hp h
  | cons p ps => simp

theorem getRRsLoop_eq (d : String) (ts : List Task) (rr : RRs)
    (h : ∀ t ∈ ts, t.Ports ≠ []) :
    getRRsLoop d ts rr = some ((ts.flatMap (taskEntries d)).foldl insertRR rr) := by
  induction ts generalizing rr with
  | nil => simp [getRRsLoop]
  | cons t ts ih =>
    have ht : t.Ports ≠ [] := h t (List.mem_cons_self _ _)
    have hts : ∀ t ∈ ts, t.Ports ≠ [] := fun t' ht' => h t' (List.mem_cons_of_mem _ ht')
    rw [getRRsLoop, getTaskRRs_isSome d ht]
    simp only [List.flatMap_cons, List.foldl_append]
    exact ih _ hts

theorem lookup_nil (ty : Nat) (name : String) : lookup [] ty name = none := by
  simp [lookup, rrstore.inner, mapGet]

/-- The table of a cluster state: it always exists, and each of its lookups is the
concatenation of what the eligible tasks emit for the key, in task order. -/
theorem RRs_lookup (d : String) (C : ClusterState) :
    ∃ tbl, rrgen.RRs d C = some tbl ∧ ∀ ty name, lookup tbl ty name =
      stored ((C.filter eligible).flatMap fun t => answersFor ty name (taskEntries d t)) := by
  refine ⟨((C.filter eligible).flatMap (taskEntries d)).foldl insertRR [], ?_, ?_⟩
  · unfold rrgen.RRs getRRs
    rw [FilterTasks_DnsFilters]
    apply getRRsLoop_eq
    intro t ht
    exact eligible_ports_ne_nil (List.mem_filter.mp ht).2
  · intro ty name
    rw [lookup_foldl_insertRR, answersFor_flatMap, lookup_nil]
    simp [stored]

end Projection

section ProjectionContract

open task rrgen rrstore spec

theorem Fqdn_of_no_dot {s : String} (h : '.' ∉ s.data) : dns.Fqdn s = s ++ "." := by
  unfold dns.Fqdn
  rw [if_neg]
  intro hl
  exact h (List.mem_of_getLast?_eq_some hl)

theorem srvEntries_eq_map (t : Task) (tl : String) (ps : List Port) :
    srvEntries t tl ps = ps.map fun p =>
      ⟨dns.TypeSRV, "_" ++ t.Service ++ "._" ++ p.Proto ++ "." ++ tl, srvAnswer p⟩ := by
  induction ps with
  | nil => rfl
  | cons p ps ih => simp [srvEntries, ih, srvAnswer]

/-- What a task with a first port emits, its domain empty or free of dots: one A
entry with the first port address, then one SRV entry for each port. -/
theorem taskEntries_eq (d : String) (t : Task) (p0 : Port) (ps : List Port)
    (hp : t.Ports = p0 :: ps) (hd : t.Domain = "" ∨ '.' ∉ t.Domain.data) :
    getTaskRRs d t = some (⟨dns.TypeA, aName d t, p0.HostIP.String⟩ ::
      t.Ports.map fun p => ⟨dns.TypeSRV, srvName d t p, srvAnswer p⟩) := by
  have htail : (if t.Domain ≠ "" then dns.Fqdn t.Domain ++ dns.Fqdn d else dns.Fqdn d)
      = spec.tail d t := by
    unfold spec.tail
    by_cases h : t.Domain = ""
    · simp [h]
    · have hnd : '.' ∉ t.Domain.data := hd.resolve_left h
      simp [h, Fqdn_of_no_dot hnd]
  unfold getTaskRRs
  simp only [htail, hp, srvEntries_eq_map]
  rfl

/-- An entry emitted by an eligible task of the cluster state is stored under its
type and name. -/
theorem lookup_of_emitted (d : String) (C : ClusterState) (t : Task) (e : rrEntry)
    (ht : t ∈ C) (he : eligible t = true) (hmem : e ∈ taskEntries d t) :
    ∃ tbl ans, rrgen.RRs d C = some tbl ∧ lookup tbl e.rrType e.domain = some ans ∧
      e.record ∈ ans := by
  obtain ⟨tbl, htbl, hl⟩ := RRs_lookup d C
  have hin : e.record ∈
      (C.filter eligible).flatMap fun t => answersFor e.rrType e.domain (taskEntries d t) := by
    rw [List.mem_flatMap]
    refine ⟨t, List.mem_filter.mpr ⟨ht, he⟩, ?_⟩
    unfold answersFor
    rw [List.mem_map]
    exact ⟨e, List.mem_filter.mpr ⟨hmem, by simp⟩, rfl⟩
  refine ⟨tbl, _, htbl, ?_, hin⟩
  rw [hl, stored, if_neg]
  exact List.ne_nil_of_mem hin

theorem eligible_of (t : Task) (hs : t.Service ≠ "") (hp : t.Ports ≠ [])
    (hq : ∀ p ∈ t.Ports, p.Proto ≠ "") : eligible t = true := by
  simp only [eligible, Bool.and_eq_true, decide_eq_true_eq, List.all_eq_true]
  exact ⟨⟨hs, hp⟩, hq⟩

theorem eligible_eq_not_ineligible (t : Task) : eligible t = !ineligible t := by
  unfold eligible ineligible
  by_cases h1 : t.Service = "" <;> by_cases h2 : t.Ports = [] <;> simp [h1, h2]
  induction t.Ports with
  | nil => simp
  | cons p ps ih =>
    by_cases h : p.Proto = "" <;> simp [h, ih]

end ProjectionContract

/-! ## Claims on the projection -/

section ProjectionClaims

open task rrgen rrstore spec

/-- C1: for every root domain, cluster state and eligible task of it whose domain is
empty or a label without dots, the projected table holds, under type A, the name
service, dot, the domain and a dot when there is a domain, the root domain made fully
qualified, and the answers stored there contain the text of the address of the first
port; the task emits this one A entry and no A entry for a later port. -/
theorem C1_a_record_of_eligible_task (d : String) (C : ClusterState) (t : Task)
    (ht : t ∈ C) (hs : t.Service ≠ "") (hp : t.Ports ≠ [])
    (hq : ∀ p ∈ t.Ports, p.Proto ≠ "") (hd : t.Domain = "" ∨ '.' ∉ t.Domain.data) :
    ∃ tbl ans p0 ps es, rrgen.RRs d C = some tbl ∧ t.Ports = p0 :: ps ∧
      lookup tbl dns.TypeA
        (t.Service ++ "." ++ ((if t.Domain = "" then "" else t.Domain ++ ".") ++ dns.Fqdn d))
        = some ans ∧
      p0.HostIP.String ∈ ans ∧
      getTaskRRs d t = some es ∧
      es.filter (fun e => decide (e.rrType = dns.TypeA))
        = [⟨dns.TypeA, aName d t, p0.HostIP.String⟩] := by
  obtain ⟨p0, ps, hps⟩ := List.exists_cons_of_ne_nil hp
  have hes := taskEntries_eq d t p0 ps hps hd
  have hmem : (⟨dns.TypeA, aName d t, p0.HostIP.String⟩ : rrEntry) ∈ taskEntries d t := by
    simp [taskEntries, hes]
  obtain ⟨tbl, ans, htbl, hl, hin⟩ :=
    lookup_of_emitted d C t _ ht (eligible_of t hs hp hq) hmem
  refine ⟨tbl, ans, p0, ps, _, htbl, hps, hl, hin, hes, ?_⟩
  simp [List.filter_cons, List.filter_map, dns.TypeA, dns.TypeSRV]

/-- Witness of C1 on the second case of the test of getTaskRRs: service api, domain
billing, two ports. -/
theorem C1_a_record_of_eligible_task_witness :
    ∃ tbl ans p0 ps es,
      rrgen.RRs "domain" [⟨"x", [⟨net.IPv4 10 0 0 2, 8001, "tcp"⟩, ⟨net.IPv4 10 0 0 3, 8002, "udp"⟩],
        "api", "billing"⟩] = some tbl ∧
      [(⟨net.IPv4 10 0 0 2, 8001, "tcp"⟩ : Port), ⟨net.IPv4 10 0 0 3, 8002, "udp"⟩] = p0 :: ps ∧
      lookup tbl dns.TypeA ("api" ++ "." ++ ((if "billing" = "" then "" else "billing" ++ ".")
        ++ dns.Fqdn "domain")) = some ans ∧
      p0.HostIP.String ∈ ans ∧
      getTaskRRs "domain" ⟨"x", [⟨net.IPv4 10 0 0 2, 8001, "tcp"⟩,
        ⟨net.IPv4 10 0 0 3, 8002, "udp"⟩], "api", "billing"⟩ = some es ∧
      es.filter (fun e => decide (e.rrType = dns.TypeA))
        = [⟨dns.TypeA, aName "domain" ⟨"x", [⟨net.IPv4 10 0 0 2, 8001, "tcp"⟩,
            ⟨net.IPv4 10 0 0 3, 8002, "udp"⟩], "api", "billing"⟩, p0.HostIP.String⟩] :=
  C1_a_record_of_eligible_task "domain"
    [⟨"x", [⟨net.IPv4 10 0 0 2, 8001, "tcp"⟩, ⟨net.IPv4 10 0 0 3, 8002, "udp"⟩], "api", "billing"⟩]
    ⟨"x", [⟨net.IPv4 10 0 0 2, 8001, "tcp"⟩, ⟨net.IPv4 10 0 0 3, 8002, "udp"⟩], "api", "billing"⟩
    (by decide) (by decide) (by decide) (by decide) (by decide)

/-- C2: for every root domain, cluster state, eligible task of it whose domain is
empty or a label without dots, and port of the task, the projected table holds, under
type SRV, the name underscore service, dot, underscore proto, dot, the domain and a
dot when there is a domain, the root domain made fully qualified, and the answers
stored there contain the address text, a colon and the port in decimal. -/
theorem C2_srv_record_of_each_port (d : String) (C : ClusterState) (t : Task) (p : Port)
    (ht : t ∈ C) (hs : t.Service ≠ "") (hp : p ∈ t.Ports)
    (hq : ∀ p ∈ t.Ports, p.Proto ≠ "") (hd : t.Domain = "" ∨ '.' ∉ t.Domain.data) :
    ∃ tbl ans, rrgen.RRs d C = some tbl ∧
      lookup tbl dns.TypeSRV
        ("_" ++ t.Service ++ "._" ++ p.Proto ++ "." ++
          ((if t.Domain = "" then "" else t.Domain ++ ".") ++ dns.Fqdn d)) = some ans ∧
      (p.HostIP.String ++ ":" ++ strconv.Itoa p.HostPort) ∈ ans := by
  have hne : t.Ports ≠ [] := List.ne_nil_of_mem hp
  obtain ⟨p0, ps, hps⟩ := List.exists_cons_of_ne_nil hne
  have hes := taskEntries_eq d t p0 ps hps hd
  have hmem : (⟨dns.TypeSRV, srvName d t p, srvAnswer p⟩ : rrEntry) ∈ taskEntries d t := by
    simp only [taskEntries, hes, Option.getD_some]
    exact List.mem_cons_of_mem _ (List.mem_map.mpr ⟨p, hp, rfl⟩)
  obtain ⟨tbl, ans, htbl, hl, hin⟩ :=
    lookup_of_emitted d C t _ ht (eligible_of t hs hne hq) hmem
  exact ⟨tbl, ans, htbl, hl, hin⟩

/-- Witness of C2 on the second port of a task with service api and domain billing. -/
theorem C2_srv_record_of_each_port_witness :
    ∃ tbl ans,
      rrgen.RRs "domain" [⟨"x", [⟨net.IPv4 10 0 0 2, 8001, "tcp"⟩, ⟨net.IPv4 10 0 0 3, 8002, "udp"⟩],
        "api", "billing"⟩] = some tbl ∧
      lookup tbl dns.TypeSRV ("_" ++ "api" ++ "._" ++ "udp" ++ "." ++
          ((if "billing" = "" then "" else "billing" ++ ".") ++ dns.Fqdn "domain")) = some ans ∧
      ((net.IPv4 10 0 0 3).String ++ ":" ++ strconv.Itoa 8002) ∈ ans :=
  C2_srv_record_of_each_port "domain"
    [⟨"x", [⟨net.IPv4 10 0 0 2, 8001, "tcp"⟩, ⟨net.IPv4 10 0 0 3, 8002, "udp"⟩], "api", "billing"⟩]
    ⟨"x", [⟨net.IPv4 10 0 0 2, 8001, "tcp"⟩, ⟨net.IPv4 10 0 0 3, 8002, "udp"⟩], "api", "billing"⟩
    ⟨net.IPv4 10 0 0 3, 8002, "udp"⟩
    (by decide) (by decide) (by decide) (by decide) (by decide)

/-- C3: tasks violating a filter contribute nothing: the table of a cluster state
is the table of the state with every task removed that has an empty service, an
empty port list or a port with an empty proto; and when every task is of that kind
the table is the empty table. -/
theorem C3_ineligible_tasks_contribute_nothing (d : String) (C : ClusterState) :
    rrgen.RRs d C = rrgen.RRs d (C.filter fun t => !ineligible t) ∧
    ((∀ t ∈ C, ineligible t = true) → rrgen.RRs d C = some []) := by
  have hfun : (fun t => !ineligible t) = eligible := by
    funext t
    exact (eligible_eq_not_ineligible t).symm
  constructor
  · unfold rrgen.RRs
    rw [FilterTasks_DnsFilters, FilterTasks_DnsFilters, hfun, List.filter_filter]
    simp
  · intro h
    have hnil : C.filter eligible = [] := by
      rw [List.filter_eq_nil_iff]
      intro t ht
      simp [eligible_eq_not_ineligible, h t ht]
    unfold rrgen.RRs
    rw [FilterTasks_DnsFilters, hnil]
    rfl

/-- Witness of C3 on the cluster state of the test of the empty table: a task with
no ports and a task with no service name. -/
theorem C3_ineligible_tasks_contribute_nothing_witness :
    rrgen.RRs "domain" [⟨"no-ports", [], "api", ""⟩,
        ⟨"no-service-name", [⟨net.IPv4 10 0 0 2, 8001, "tcp"⟩], "", ""⟩]
      = rrgen.RRs "domain" (List.filter (fun t => !ineligible t) [⟨"no-ports", [], "api", ""⟩,
        ⟨"no-service-name", [⟨net.IPv4 10 0 0 2, 8001, "tcp"⟩], "", ""⟩]) ∧
    rrgen.RRs "domain" [⟨"no-ports", [], "api", ""⟩,
        ⟨"no-service-name", [⟨net.IPv4 10 0 0 2, 8001, "tcp"⟩], "", ""⟩] = some [] :=
  ⟨(C3_ineligible_tasks_contribute_nothing "domain" _).1,
    (C3_ineligible_tasks_contribute_nothing "domain" _).2 (by decide)⟩

/-- C4: aggregation keeps task order and loses nothing: the table of a cluster state
exists, and the sequence it stores at a record type and name is the concatenation,
over the eligible tasks in their order, of the answers each task emits for that
type and name, the key being absent when there are none. On scenario S1 the table
is A api.swarm. with 10.0.0.1, 10.0.0.2 and SRV _api._tcp.swarm. with
10.0.0.1:8000, 10.0.0.2:8000. -/
theorem C4_aggregation_in_task_order :
    (∀ (d : String) (C : ClusterState), ∃ tbl, rrgen.RRs d C = some tbl ∧
      ∀ ty name, lookup tbl ty name =
        stored ((C.filter eligible).flatMap fun t =>
          answersFor ty name ((getTaskRRs d t).getD []))) ∧
    rrgen.RRs "swarm." [⟨"w1", [⟨net.IPv4 10 0 0 1, 8000, "tcp"⟩], "api", ""⟩,
        ⟨"w2", [⟨net.IPv4 10 0 0 2, 8000, "tcp"⟩], "api", ""⟩]
      = some [(dns.TypeA, [("api.swarm.", ["10.0.0.1", "10.0.0.2"])]),
          (dns.TypeSRV, [("_api._tcp.swarm.", ["10.0.0.1:8000", "10.0.0.2:8000"])])] :=
  ⟨RRs_lookup, by decide⟩

end ProjectionClaims

/-! ## The shuffle -/

section Shuffle

open server

theorem swap_length (a : List String) (i r : Nat) : (swap a i r).length = a.length := by
  simp [swap]

theorem swap_perm (a : List String) (i r : Nat) (hi : i < a.length) (hr : r < a.length) :
    (swap a i r).Perm a := by
  rw [List.perm_iff_count]
  intro b
  have hgi : a.getD i "" = a[i] := by simp [List.getD_eq_getElem?_getD, hi]
  have hgr : a.getD r "" = a[r] := by simp [List.getD_eq_getElem?_getD, hr]
  have hr2 : r < (a.set i a[r]).length := by simpa using hr
  have hci : a[i] = b → 1 ≤ a.count b := fun h =>
    List.one_le_count_iff.mpr (h ▸ List.getElem_mem hi)
  have hcr : a[r] = b → 1 ≤ a.count b := fun h =>
    List.one_le_count_iff.mpr (h ▸ List.getElem_mem hr)
  unfold swap
  rw [hgi, hgr, List.count_set _ _ _ _ hr2, List.count_set _ _ _ _ hi]
  by_cases hir : i = r
  · subst hir
    simp only [List.getElem_set_self, beq_iff_eq]
    by_cases h : a[i] = b
    · have := hci h
      simp only [h, if_true]
      omega
    · simp [h]
  · simp only [List.getElem_set_ne hir, beq_iff_eq]
    by_cases h1 : a[i] = b <;> by_cases h2 : a[r] = b
    · have := hci h1
      simp only [h1, h2, if_true]
      omega
    · have := hci h1
      simp only [h1, h2, if_true, if_false]
      omega
    · have := hcr h2
      simp only [h1, h2, if_true, if_false]
      omega
    · simp [h1, h2]

theorem shuffleLoop_perm (i : Nat) (g : Rand) (a : List String) (h : i < a.length ∨ i = 0) :
    (shuffleLoop i g a).1.Perm a := by
  induction i generalizing g a with
  | zero => simp [shuffleLoop]
  | succ i ih =>
    have hi : i + 1 < a.length := by omega
    have hr : (Intn g (i + 1) (Nat.succ_pos i)).1 < a.length := by
      have : g 0 % (i + 1) < i + 1 := Nat.mod_lt _ (Nat.succ_pos i)
      simp only [Intn]
      omega
    rw [shuffleLoop]
    refine (ih _ _ ?_).trans (swap_perm a _ _ hi hr)
    rw [swap_length]
    omega

/-- The shuffle only reorders the slice. -/
theorem shuffle_perm (g : Rand) (a : List String) : (shuffle g a).1.Perm a := by
  unfold shuffle
  apply shuffleLoop_perm
  omega

end Shuffle

/-! ## The internal handler -/

section Handler

open server rrstore spec

theorem SetRcode_Authoritative (m r : dns.Msg) (c : Nat) :
    (m.SetRcode r c).Authoritative = m.Authoritative := rfl

theorem SetRcode_Answer (m r : dns.Msg) (c : Nat) : (m.SetRcode r c).Answer = m.Answer := rfl

theorem SetRcode_Rcode (m r : dns.Msg) (c : Nat) : (m.SetRcode r c).Rcode = c := rfl

theorem answerLoop_Authoritative (r : dns.Msg) (qType : Nat) (dom : String)
    (recs : List String) (m : dns.Msg) :
    (answerLoop r qType dom recs m).Authoritative = m.Authoritative := by
  induction recs generalizing m with
  | nil => rfl
  | cons rec recs ih =>
    rw [answerLoop]
    cases h : rrtype.ToRR qType dom rec with
    | error e => rfl
    | ok rr => simp only [ih]

theorem answerLoop_Rcode (r : dns.Msg) (qType : Nat) (dom : String)
    (recs : List String) (m : dns.Msg) :
    (answerLoop r qType dom recs m).Rcode =
      if recs.all (formats qType dom) then m.Rcode else dns.RcodeServerFailure := by
  induction recs generalizing m with
  | nil => simp [answerLoop]
  | cons rec recs ih =>
    rw [answerLoop]
    cases h : rrtype.ToRR qType dom rec with
    | error e => simp [formats, h, isOk, SetRcode_Rcode]
    | ok rr => simp [formats, h, isOk, ih]

theorem answerLoop_Answer (r : dns.Msg) (qType : Nat) (dom : String)
    (recs : List String) (m : dns.Msg) :
    (answerLoop r qType dom recs m).Answer =
      m.Answer ++ formatted qType dom (recs.takeWhile (formats qType dom)) := by
  induction recs generalizing m with
  | nil => simp [answerLoop, formatted]
  | cons rec recs ih =>
    rw [answerLoop]
    cases h : rrtype.ToRR qType dom rec with
    | error e => simp [formats, h, isOk, SetRcode_Answer, List.takeWhile_cons, formatted]
    | ok rr =>
      rw [ih]
      simp [formats, h, isOk, List.takeWhile_cons, formatted]

theorem formatted_length (qType : Nat) (dom : String) (recs : List String)
    (h : ∀ rec ∈ recs, formats qType dom rec = true) :
    (formatted qType dom recs).length = recs.length := by
  induction recs with
  | nil => rfl
  | cons rec recs ih =>
    have h1 := h rec (List.mem_cons_self _ _)
    have h2 := ih fun x hx => h x (List.mem_cons_of_mem _ hx)
    unfold formats at h1
    cases hc : rrtype.ToRR qType dom rec with
    | error e => simp [hc, isOk] at h1
    | ok rr =>
      unfold formatted at h2 ⊢
      simp [List.filterMap_cons, hc, h2]

theorem takeWhile_eq_self {p : String → Bool} {l : List String} (h : ∀ x ∈ l, p x = true) :
    l.takeWhile p = l := by
  induction l with
  | nil => rfl
  | cons x l ih =>
    simp [List.takeWhile_cons, h x (List.mem_cons_self _ _),
      ih fun y hy => h y (List.mem_cons_of_mem _ hy)]

/-- A list with an element failing a test splits at the first such element. -/
theorem split_at_first_failure {p : String → Bool} {l : List String}
    (h : ∃ x ∈ l, p x = false) :
    ∃ pre bad post, l = pre ++ bad :: post ∧ p bad = false ∧ (∀ x ∈ pre, p x = true) ∧
      l.takeWhile p = pre := by
  induction l with
  | nil => simp at h
  | cons x l ih =>
    by_cases hx : p x = true
    · have h2 : ∃ y ∈ l, p y = false := by
        obtain ⟨y, hy, hpy⟩ := h
        rcases List.mem_cons.mp hy with rfl | hy
        · rw [hx] at hpy
          cases hpy
        · exact ⟨y, hy, hpy⟩
      obtain ⟨pre, bad, post, h3, h4, h5, h6⟩ := ih h2
      refine ⟨x :: pre, bad, post, by simp [h3], h4, ?_, by simp [List.takeWhile_cons, hx, h6]⟩
      intro y hy
      rcases List.mem_cons.mp hy with rfl | hy
      · exact hx
      · exact h5 y hy
    · have hx2 : p x = false := by simpa using hx
      exact ⟨[], x, l, rfl, hx2, by simp, by simp [List.takeWhile_cons, hx2]⟩

theorem reply0_fields (r : dns.Msg) :
    (reply0 r).Rcode = dns.RcodeSuccess ∧ (reply0 r).Authoritative = true ∧
      (reply0 r).Answer = [] := ⟨rfl, rfl, rfl⟩

theorem IsSupported_iff (qType : Nat) :
    rrtype.IsSupported qType = true ↔ qType = dns.TypeA ∨ qType = dns.TypeSRV := by
  unfold rrtype.IsSupported rrtype.rrFormatters
  simp only [mapGet]
  constructor
  · intro h
    by_contra hne
    push_neg at hne
    have h1 : ¬ dns.TypeA = qType := fun h => hne.1 h.symm
    have h2 : ¬ dns.TypeSRV = qType := fun h => hne.2 h.symm
    simp [h1, h2] at h
  · rintro (h | h)
    · simp [h]
    · subst h
      split <;> rfl

/-- The handler on a question of an unsupported type. -/
theorem handleDomain_unsupported (d : DnsServer) (g : Rand) (r : dns.Msg)
    (q : dns.Question) (qs : List dns.Question) (hq : r.Question = q :: qs)
    (hs : rrtype.IsSupported q.Qtype = false) :
    handleDomain d g r = some ((reply0 r).SetRcode r dns.RcodeNotImplemented, d.rr, g) := by
  simp [handleDomain, parseQuestion, hq, queryRR, hs, reply0]

/-- The handler on a question of a supported type whose key the store does not hold. -/
theorem handleDomain_absent (d : DnsServer) (g : Rand) (r : dns.Msg)
    (q : dns.Question) (qs : List dns.Question) (hq : r.Question = q :: qs)
    (hs : rrtype.IsSupported q.Qtype = true)
    (hl : lookup d.rr.rrs q.Qtype (strings.TrimSpace (strings.ToLower q.Name)) = none) :
    handleDomain d g r = some ((reply0 r).SetRcode r dns.RcodeNameError, d.rr, g) := by
  simp [handleDomain, parseQuestion, hq, queryRR, hs, rrStore.Get, hl, reply0]

/-- The handler on a question of a supported type whose key the store holds. -/
theorem handleDomain_found (d : DnsServer) (g : Rand) (r : dns.Msg)
    (q : dns.Question) (qs : List dns.Question) (recs : List String)
    (hq : r.Question = q :: qs) (hs : rrtype.IsSupported q.Qtype = true)
    (hl : lookup d.rr.rrs q.Qtype (strings.TrimSpace (strings.ToLower q.Name)) = some recs) :
    handleDomain d g r = some
      (answerLoop r q.Qtype (strings.TrimSpace (strings.ToLower q.Name)) (shuffle g recs).1
        (reply0 r),
       writeThrough d.rr q.Qtype (strings.TrimSpace (strings.ToLower q.Name)) (shuffle g recs).1,
       (shuffle g recs).2) := by
  simp [handleDomain, parseQuestion, hq, queryRR, hs, rrStore.Get, hl, reply0]

end Handler

/-! ## Claims on the store -/

section StoreClaims

open rrstore spec

theorem lookup_eq_some_iff (T : RRs) (hT : isTable T) (ty : Nat) (fqdn : String)
    (a : List String) : lookup T ty fqdn = some a ↔ holds T ty fqdn a := by
  unfold lookup rrstore.inner holds
  constructor
  · intro h
    cases hm : mapGet T ty with
    | none => simp [hm, mapGet] at h
    | some m =>
      rw [hm] at h
      exact ⟨m, mapGet_mem hm, mapGet_mem h⟩
  · rintro ⟨m, h1, h2⟩
    rw [mapGet_of_mem hT.1 h1]
    exact mapGet_of_mem (hT.2 _ h1) h2

/-- C5: the lookup contract of the store. A fresh store finds nothing. After Set(T),
Get reads T at the type and name: on a table T, Get returns the answers with found
true exactly for the pairs T holds, and found is false exactly when T holds no such
pair. After Set(T1) then Set(T2) every Get answers as after Set(T2) alone, and
setting a table twice leaves the store as setting it once. -/
theorem C5_store_lookup_contract :
    (∀ fqdn ty, (rrstore.New.Get fqdn ty).2 = false) ∧
    (∀ (s : rrStore) (T : RRs) fqdn ty,
      (s.Set T).Get fqdn ty =
        match lookup T ty fqdn with
        | some a => (a, true)
        | none => ([], false)) ∧
    (∀ (s : rrStore) (T : RRs) fqdn ty, isTable T →
      (∀ a, (s.Set T).Get fqdn ty = (a, true) ↔ holds T ty fqdn a) ∧
      (((s.Set T).Get fqdn ty).2 = false ↔ ¬ ∃ a, holds T ty fqdn a)) ∧
    (∀ (s : rrStore) (T1 T2 : RRs) fqdn ty,
      ((s.Set T1).Set T2).Get fqdn ty = (s.Set T2).Get fqdn ty) ∧
    (∀ (s : rrStore) (T : RRs), (s.Set T).Set T = s.Set T) := by
  refine ⟨?_, ?_, ?_, ?_, ?_⟩
  · intro fqdn ty
    simp [rrstore.New, rrStore.Get, lookup_nil]
  · intro s T fqdn ty
    rfl
  · intro s T fqdn ty hT
    constructor
    · intro a
      rw [← lookup_eq_some_iff T hT]
      unfold rrStore.Get rrStore.Set
      cases h : lookup T ty fqdn <;> simp
    · unfold rrStore.Get rrStore.Set
      cases h : lookup T ty fqdn with
      | none =>
        simp only [true_iff]
        rintro ⟨a, ha⟩
        rw [← lookup_eq_some_iff T hT, h] at ha
        cases ha
      | some a =>
        simp only [Bool.true_eq_false, false_iff, not_not]
        exact ⟨a, (lookup_eq_some_iff T hT ty fqdn a).mp h⟩
  · intro s T1 T2 fqdn ty
    rfl
  · intro s T
    rfl

/-- Witness of C5 on the table of the store test: type 0 holds name 1 with answer 2,
type 3 holds name 4 with answer 5; the pair of type 1 and name 1 is absent. -/
theorem C5_store_lookup_contract_witness :
    (∀ a, (rrstore.New.Set [(0, [("1", ["2"])]), (3, [("4", ["5"])])]).Get "1" 0 = (a, true) ↔
      holds [(0, [("1", ["2"])]), (3, [("4", ["5"])])] 0 "1" a) ∧
    (((rrstore.New.Set [(0, [("1", ["2"])]), (3, [("4", ["5"])])]).Get "1" 1).2 = false ↔
      ¬ ∃ a, holds [(0, [("1", ["2"])]), (3, [("4", ["5"])])] 1 "1" a) ∧
    (rrstore.New.Set [(0, [("1", ["2"])]), (3, [("4", ["5"])])]).Get "1" 0 = (["2"], true) ∧
    ((rrstore.New.Set [(0, [("1", ["2"])]), (3, [("4", ["5"])])]).Get "1" 1).2 = false :=
  ⟨(C5_store_lookup_contract.2.2.1 rrstore.New [(0, [("1", ["2"])]), (3, [("4", ["5"])])]
      "1" 0 (by decide)).1,
   (C5_store_lookup_contract.2.2.1 rrstore.New [(0, [("1", ["2"])]), (3, [("4", ["5"])])]
      "1" 1 (by decide)).2,
   by decide, by decide⟩

end StoreClaims

/-! ## Lower case -/

section LowerCase

open spec unicode strings

theorem entries_ok : CaseRanges.all entryOK = true := by decide!

theorem compat_ok : (CaseRanges.all fun e => CaseRanges.all fun f => compat e f) = true := by
  decide!

theorem toNat_ofNat (m : Nat) (h : m.isValidChar) : (Char.ofNat m).toNat = m := by
  unfold Char.ofNat
  rw [dif_pos h]
  rfl

theorem inRange_iff (e : CaseRange) (n : Nat) :
    inRange e n = true ↔ e.1 ≤ n ∧ n ≤ e.2.1 ∧ (n - e.1) % e.2.2.1 = 0 := by
  simp [inRange, and_assoc]

theorem toLowerCase_cases (n : Nat) :
    toLowerCase n = n ∨ ∃ e ∈ CaseRanges, inRange e n = true ∧ toLowerCase n = e.2.2.2 + (n - e.1) := by
  unfold toLowerCase
  cases h : CaseRanges.find? fun e => inRange e n with
  | none => exact Or.inl rfl
  | some e =>
    have h2 := List.find?_some h
    exact Or.inr ⟨e, List.mem_of_find?_eq_some h, h2, rfl⟩

theorem toLowerCase_fixed (m : Nat) (h : ∀ f ∈ CaseRanges, inRange f m = false) :
    toLowerCase m = m := by
  unfold toLowerCase
  have : CaseRanges.find? (fun e => inRange e m) = none := by
    rw [List.find?_eq_none]
    intro f hf
    simp [h f hf]
  rw [this]

theorem isSpace_eq (c : Char) : isSpace c = isSpaceNat c.toNat := rfl

theorem not_isSpace_of_disjoint (k a b : Nat) (hk : a ≤ k ∧ k ≤ b)
    (h : spaces.all (fun s => disjoint a b s.1 s.2) = true) : isSpaceNat k = false := by
  simp only [spaces, List.all_cons, List.all_nil, disjoint, Bool.and_true, Bool.and_eq_true,
    Bool.or_eq_true, decide_eq_true_eq] at h
  simp only [isSpaceNat, Bool.or_eq_false_iff, Bool.and_eq_false_iff, decide_eq_false_iff_not]
  omega

theorem not_isSpace_letter (k : Nat) (h : 65 ≤ k ∧ k ≤ 122) : isSpaceNat k = false := by
  simp only [isSpaceNat, Bool.or_eq_false_iff, Bool.and_eq_false_iff, decide_eq_false_iff_not]
  omega

/-- What the table tells of a rune that a range holds and of its lower case. -/
theorem lower_facts (e : CaseRange) (n : Nat) (he : e ∈ CaseRanges)
    (hn : inRange e n = true) :
    0x7F < n ∧ (e.2.2.2 + (n - e.1)).isValidChar ∧ isSpaceNat n = false ∧
      isSpaceNat (e.2.2.2 + (n - e.1)) = false ∧
      ¬ (65 ≤ e.2.2.2 + (n - e.1) ∧ e.2.2.2 + (n - e.1) ≤ 90) ∧
      toLowerCase (e.2.2.2 + (n - e.1)) = e.2.2.2 + (n - e.1) := by
  have hok := List.all_eq_true.mp entries_ok e he
  obtain ⟨h1, h2, h3⟩ := (inRange_iff e n).mp hn
  simp only [entryOK, Bool.and_eq_true, Bool.or_eq_true, decide_eq_true_eq, List.all_eq_true,
    lowerLo, lowerHi] at hok
  obtain ⟨⟨⟨⟨ha, hb⟩, hv⟩, hs⟩, hasc⟩ := hok
  have hs1 : spaces.all (fun s => disjoint e.1 e.2.1 s.1 s.2) = true :=
    List.all_eq_true.mpr fun s hs0 => (hs s hs0).1
  have hs2 : spaces.all (fun s =>
      disjoint e.2.2.2 (e.2.2.2 + (e.2.1 - e.1)) s.1 s.2) = true :=
    List.all_eq_true.mpr fun s hs0 => (hs s hs0).2
  simp only [disjoint, Bool.or_eq_true, decide_eq_true_eq] at hasc
  refine ⟨by omega, ?_, not_isSpace_of_disjoint n _ _ ⟨h1, h2⟩ hs1,
    not_isSpace_of_disjoint _ _ _ ⟨by omega, by omega⟩ hs2, by omega, ?_⟩
  · unfold Nat.isValidChar
    omega
  · apply toLowerCase_fixed
    intro f hf
    have hc := List.all_eq_true.mp (List.all_eq_true.mp compat_ok e he) f hf
    simp only [compat, disjoint, lowerLo, lowerHi, Bool.or_eq_true, Bool.and_eq_true,
      decide_eq_true_eq, Bool.not_eq_true'] at hc
    rw [Bool.eq_false_iff]
    intro hin
    obtain ⟨g1, g2, g3⟩ := (inRange_iff f _).mp hin
    rcases hc with (hc | ⟨hc1, hc2⟩) | ⟨⟨⟨⟨c1, c2⟩, c3⟩, c4⟩, c5⟩
    · omega
    · have hn0 : n - e.1 = 0 := by omega
      rw [hn0, Nat.add_zero] at hin
      rw [hin] at hc2
      cases hc2
    · rw [c2] at g3
      rw [c1] at h3
      omega

theorem isSpace_ToLower (c : Char) : isSpace (unicode.ToLower c) = isSpace c := by
  unfold unicode.ToLower
  have hA : 'A'.toNat = 65 := rfl
  have hZ : 'Z'.toNat = 90 := rfl
  have ha : 'a'.toNat = 97 := rfl
  rw [hA, hZ, ha]
  by_cases h : c.toNat ≤ 0x7F
  · rw [if_pos h]
    by_cases hU : 65 ≤ c.toNat ∧ c.toNat ≤ 90
    · rw [if_pos hU, isSpace_eq, isSpace_eq, toNat_ofNat _ (Or.inl (by omega)),
        not_isSpace_letter _ (by omega), not_isSpace_letter _ (by omega)]
    · rw [if_neg hU]
  · rw [if_neg h]
    rcases toLowerCase_cases c.toNat with h1 | ⟨e, he, hn, h1⟩
    · rw [h1, Char.ofNat_toNat]
    · obtain ⟨_, hv, s1, s2, _, _⟩ := lower_facts e c.toNat he hn
      rw [h1, isSpace_eq, isSpace_eq, toNat_ofNat _ hv, s1, s2]

theorem ToLower_idem (c : Char) :
    unicode.ToLower (unicode.ToLower c) = unicode.ToLower c := by
  have hA : 'A'.toNat = 65 := rfl
  have hZ : 'Z'.toNat = 90 := rfl
  have ha : 'a'.toNat = 97 := rfl
  have hfix : ∀ m : Nat, m.isValidChar → ¬ (65 ≤ m ∧ m ≤ 90) →
      toLowerCase m = m → unicode.ToLower (Char.ofNat m) = Char.ofNat m := by
    intro m hv hU hm
    unfold unicode.ToLower
    rw [hA, hZ, toNat_ofNat m hv, if_neg hU, hm]
    split <;> rfl
  by_cases h : c.toNat ≤ 0x7F
  · by_cases hU : 65 ≤ c.toNat ∧ c.toNat ≤ 90
    · have h1 : unicode.ToLower c = Char.ofNat (c.toNat + 32) := by
        unfold unicode.ToLower
        rw [hA, hZ, ha, if_pos h, if_pos hU]
      rw [h1]
      have hv : (c.toNat + 32).isValidChar := Or.inl (by omega)
      unfold unicode.ToLower
      rw [hA, hZ, toNat_ofNat _ hv, if_pos (by omega), if_neg (by omega)]
    · have h1 : unicode.ToLower c = c := by
        unfold unicode.ToLower
        rw [hA, hZ, if_pos h, if_neg hU]
      rw [h1, h1]
  · have h1 : unicode.ToLower c = Char.ofNat (toLowerCase c.toNat) := by
      unfold unicode.ToLower
      rw [if_neg h]
    rw [h1]
    rcases toLowerCase_cases c.toNat with h2 | ⟨e, he, hn, h2⟩
    · rw [h2, Char.ofNat_toNat, h1, h2, Char.ofNat_toNat]
    · obtain ⟨_, hv, _, _, hU, hm⟩ := lower_facts e c.toNat he hn
      rw [h2]
      exact hfix _ hv hU hm

end LowerCase

/-! ## Query names -/

section QueryNames

open strings

theorem dropWhile_isSpace_map (l : List Char) :
    (l.map unicode.ToLower).dropWhile isSpace =
      (l.dropWhile isSpace).map unicode.ToLower := by
  rw [List.dropWhile_map]
  congr 2
  funext c
  exact isSpace_ToLower c

/-- Lowercasing and trimming commute: the name that `parseQuestion` computes is the
lowercased and trimmed name. -/
theorem TrimSpace_ToLower (n : String) :
    TrimSpace (ToLower n) = spec.canonical n := by
  unfold spec.canonical TrimSpace ToLower
  simp only [dropWhile_isSpace_map, ← List.map_reverse]

end QueryNames

/-! ## Claims on the internal handler -/

section HandlerClaims

open server rrstore spec

theorem all_formats_shuffle (qType : Nat) (dom : String) (g : Rand) (recs : List String) :
    (shuffle g recs).1.all (formats qType dom) = recs.all (formats qType dom) := by
  have hp := shuffle_perm g recs
  rw [Bool.eq_iff_iff, List.all_eq_true, List.all_eq_true]
  exact ⟨fun h x hx => h x (hp.mem_iff.mpr hx), fun h x hx => h x (hp.mem_iff.mp hx)⟩

/-- The reply to a question of a supported type whose key the store holds: it is
authoritative, its rcode is NOERROR when every stored answer formats and SERVFAIL
otherwise, and its answers are the records of the shuffled answers up to the first
one that does not format. -/
theorem handleDomain_reply (d : DnsServer) (g : Rand) (r : dns.Msg)
    (q : dns.Question) (qs : List dns.Question) (recs : List String)
    (hq : r.Question = q :: qs) (hs : rrtype.IsSupported q.Qtype = true)
    (hl : lookup d.rr.rrs q.Qtype (canonical q.Name) = some recs) :
    ∃ m, handleDomain d g r = some
        (m, writeThrough d.rr q.Qtype (canonical q.Name) (shuffle g recs).1, (shuffle g recs).2) ∧
      m.Authoritative = true ∧
      m.Rcode = (if recs.all (formats q.Qtype (canonical q.Name)) then dns.RcodeSuccess
        else dns.RcodeServerFailure) ∧
      m.Answer = formatted q.Qtype (canonical q.Name)
        ((shuffle g recs).1.takeWhile (formats q.Qtype (canonical q.Name))) := by
  rw [← TrimSpace_ToLower] at hl ⊢
  refine ⟨_, handleDomain_found d g r q qs recs hq hs hl, ?_, ?_, ?_⟩
  · rw [answerLoop_Authoritative]
    rfl
  · rw [answerLoop_Rcode, all_formats_shuffle]
    rfl
  · rw [answerLoop_Answer]
    rfl

/-- C6: for every query with a question of a type other than A and SRV, whatever the
store holds, the internal handler replies NOTIMP, authoritative, with no answers; it
leaves the store and the random source as they were. -/
theorem C6_unsupported_type_is_notimp (d : DnsServer) (g : Rand) (r : dns.Msg)
    (q : dns.Question) (qs : List dns.Question) (hq : r.Question = q :: qs)
    (hA : q.Qtype ≠ dns.TypeA) (hS : q.Qtype ≠ dns.TypeSRV) :
    ∃ m, handleDomain d g r = some (m, d.rr, g) ∧
      m.Rcode = dns.RcodeNotImplemented ∧ m.Authoritative = true ∧ m.Answer = [] := by
  have hs : rrtype.IsSupported q.Qtype = false := by
    rw [← Bool.not_eq_true, IsSupported_iff]
    exact fun h => h.elim hA hS
  exact ⟨_, handleDomain_unsupported d g r q qs hq hs, rfl, rfl, rfl⟩

/-- Witness of C6: a query of type MX (15) for a name the store holds under type 15. -/
theorem C6_unsupported_type_is_notimp_witness :
    ∃ m, handleDomain ⟨⟨[(15, [("mail.domain.", ["10.0.0.1"])])]⟩, false, []⟩ (fun _ => 0)
        (query "mail.domain" 15)
        = some (m, ⟨[(15, [("mail.domain.", ["10.0.0.1"])])]⟩, fun _ => 0) ∧
      m.Rcode = dns.RcodeNotImplemented ∧ m.Authoritative = true ∧ m.Answer = [] :=
  C6_unsupported_type_is_notimp ⟨⟨[(15, [("mail.domain.", ["10.0.0.1"])])]⟩, false, []⟩
    (fun _ => 0) (query "mail.domain" 15) ⟨dns.Fqdn "mail.domain", 15, dns.ClassINET⟩ [] rfl
    (by decide) (by decide)

/-- C7: for every query with a question of type A or SRV, the internal handler
replies NXDOMAIN, authoritative, with no answers, if and only if the store has no
entry for that type and the lowercased and trimmed question name; what the store
holds under another type plays no part. -/
theorem C7_nxdomain_iff_absent (d : DnsServer) (g : Rand) (r : dns.Msg)
    (q : dns.Question) (qs : List dns.Question) (hq : r.Question = q :: qs)
    (hs : q.Qtype = dns.TypeA ∨ q.Qtype = dns.TypeSRV) :
    ∃ m st g', handleDomain d g r = some (m, st, g') ∧
      ((m.Rcode = dns.RcodeNameError ∧ m.Authoritative = true ∧ m.Answer = []) ↔
        lookup d.rr.rrs q.Qtype (canonical q.Name) = none) := by
  have hsup : rrtype.IsSupported q.Qtype = true := (IsSupported_iff _).mpr hs
  cases hl : lookup d.rr.rrs q.Qtype (canonical q.Name) with
  | none =>
    rw [← TrimSpace_ToLower] at hl
    exact ⟨_, _, _, handleDomain_absent d g r q qs hq hsup hl, by
      simp [SetRcode_Rcode, SetRcode_Authoritative, SetRcode_Answer, reply0_fields]⟩
  | some recs =>
    obtain ⟨m, hm, _, hr, _⟩ := handleDomain_reply d g r q qs recs hq hsup hl
    refine ⟨m, _, _, hm, ?_⟩
    simp only [reduceCtorEq, iff_false, not_and]
    intro h
    rw [hr] at h
    split at h <;> simp [dns.RcodeSuccess, dns.RcodeServerFailure, dns.RcodeNameError] at h

/-- Witness of C7: the store holds api.domain. under type A only, and the query asks
for it under type SRV. -/
theorem C7_nxdomain_iff_absent_witness :
    ∃ m st g', handleDomain ⟨⟨[(dns.TypeA, [("api.domain.", ["10.0.0.1"])])]⟩, false, []⟩
        (fun _ => 0) (query "API.domain" dns.TypeSRV) = some (m, st, g') ∧
      ((m.Rcode = dns.RcodeNameError ∧ m.Authoritative = true ∧ m.Answer = []) ↔
        lookup [(dns.TypeA, [("api.domain.", ["10.0.0.1"])])] dns.TypeSRV
          (canonical (dns.Fqdn "API.domain")) = none) ∧
      m.Rcode = dns.RcodeNameError ∧
      lookup [(dns.TypeA, [("api.domain.", ["10.0.0.1"])])] dns.TypeA
          (canonical (dns.Fqdn "API.domain")) = some ["10.0.0.1"] := by
  obtain ⟨m, st, g', h1, h2⟩ :=
    C7_nxdomain_iff_absent ⟨⟨[(dns.TypeA, [("api.domain.", ["10.0.0.1"])])]⟩, false, []⟩
      (fun _ => 0) (query "API.domain" dns.TypeSRV)
      ⟨dns.Fqdn "API.domain", dns.TypeSRV, dns.ClassINET⟩ [] rfl (Or.inr rfl)
  exact ⟨m, st, g', h1, h2, (h2.mpr (by decide)).1, by decide⟩

theorem formats_of_ok {qType : Nat} {dom rec : String}
    (h : ∃ rr, rrtype.ToRR qType dom rec = .ok rr) : formats qType dom rec = true := by
  obtain ⟨rr, hrr⟩ := h
  simp [formats, hrr, isOk]

theorem formats_of_error {qType : Nat} {dom rec : String}
    (h : ∃ e, rrtype.ToRR qType dom rec = .error e) : formats qType dom rec = false := by
  obtain ⟨e, he⟩ := h
  simp [formats, he, isOk]

theorem ok_of_formats {qType : Nat} {dom rec : String}
    (h : formats qType dom rec = true) : ∃ rr, rrtype.ToRR qType dom rec = .ok rr := by
  unfold formats at h
  cases hc : rrtype.ToRR qType dom rec with
  | error e => simp [hc, isOk] at h
  | ok rr => exact ⟨rr, rfl⟩

theorem error_of_not_formats {qType : Nat} {dom rec : String}
    (h : formats qType dom rec = false) : ∃ e, rrtype.ToRR qType dom rec = .error e := by
  unfold formats at h
  cases hc : rrtype.ToRR qType dom rec with
  | error e => exact ⟨e, rfl⟩
  | ok rr => simp [hc, isOk] at h

/-- The reply when the store holds the key and every stored answer formats. -/
theorem handleDomain_all_format (d : DnsServer) (g : Rand) (r : dns.Msg)
    (q : dns.Question) (qs : List dns.Question) (recs : List String)
    (hq : r.Question = q :: qs) (hs : q.Qtype = dns.TypeA ∨ q.Qtype = dns.TypeSRV)
    (hl : lookup d.rr.rrs q.Qtype (canonical q.Name) = some recs)
    (hf : ∀ rec ∈ recs, ∃ rr, rrtype.ToRR q.Qtype (canonical q.Name) rec = .ok rr) :
    ∃ m st g', handleDomain d g r = some (m, st, g') ∧
      m.Rcode = dns.RcodeSuccess ∧ m.Authoritative = true ∧
      m.Answer.length = recs.length ∧
      m.Answer.Perm (formatted q.Qtype (canonical q.Name) recs) := by
  have hsup : rrtype.IsSupported q.Qtype = true := (IsSupported_iff _).mpr hs
  have hall : ∀ rec ∈ recs, formats q.Qtype (canonical q.Name) rec = true :=
    fun rec h => formats_of_ok (hf rec h)
  have hp := shuffle_perm g recs
  have hall2 : ∀ rec ∈ (shuffle g recs).1, formats q.Qtype (canonical q.Name) rec = true :=
    fun rec h => hall rec (hp.mem_iff.mp h)
  obtain ⟨m, hm, ha, hr, hans⟩ := handleDomain_reply d g r q qs recs hq hsup hl
  rw [takeWhile_eq_self hall2] at hans
  have hperm : m.Answer.Perm (formatted q.Qtype (canonical q.Name) recs) := by
    rw [hans]
    exact hp.filterMap _
  refine ⟨m, _, _, hm, ?_, ha, ?_, hperm⟩
  · rw [hr, List.all_eq_true.mpr hall]
    rfl
  · rw [hperm.length_eq, formatted_length _ _ _ hall]

/-- C8: for every store, query name and supported type such that the store holds the
type with the lowercased and trimmed name and every stored answer formats, and for
every outcome of the random draws, the internal handler replies NOERROR,
authoritative, with as many answers as the stored sequence has, and the answers are
a reordering of the formatted stored answers. On scenario S5, the query SRV
_WEB._UDP.domain against the three answers of _web._udp.domain. gets NOERROR and a
reordering of the three records. -/
theorem C8_found_gives_all_answers :
    (∀ (d : DnsServer) (g : Rand) (r : dns.Msg) (q : dns.Question) (qs : List dns.Question)
      (recs : List String), r.Question = q :: qs →
      (q.Qtype = dns.TypeA ∨ q.Qtype = dns.TypeSRV) →
      lookup d.rr.rrs q.Qtype (canonical q.Name) = some recs →
      (∀ rec ∈ recs, ∃ rr, rrtype.ToRR q.Qtype (canonical q.Name) rec = .ok rr) →
      ∃ m st g', handleDomain d g r = some (m, st, g') ∧
        m.Rcode = dns.RcodeSuccess ∧ m.Authoritative = true ∧
        m.Answer.length = recs.length ∧
        m.Answer.Perm (formatted q.Qtype (canonical q.Name) recs)) ∧
    (∀ g : Rand, ∃ m st g',
      handleDomain ⟨⟨[(dns.TypeSRV, [("_web._udp.domain.",
          ["10.0.0.1:5001", "10.0.0.2:5002", "10.0.0.3:5003"])])]⟩, false, []⟩ g
        (query "_WEB._UDP.domain" dns.TypeSRV) = some (m, st, g') ∧
      m.Rcode = dns.RcodeSuccess ∧ m.Authoritative = true ∧ m.Answer.length = 3 ∧
      m.Answer.Perm
        [dns.RR.SRV ⟨"_web._udp.domain.", dns.TypeSRV, dns.ClassINET, 0⟩ 1 1 5001 "10.0.0.1.",
         dns.RR.SRV ⟨"_web._udp.domain.", dns.TypeSRV, dns.ClassINET, 0⟩ 1 1 5002 "10.0.0.2.",
         dns.RR.SRV ⟨"_web._udp.domain.", dns.TypeSRV, dns.ClassINET, 0⟩ 1 1 5003
           "10.0.0.3."]) := by
  refine ⟨handleDomain_all_format, fun g => ?_⟩
  obtain ⟨m, st, g', h1, h2, h3, h4, h5⟩ :=
    handleDomain_all_format ⟨⟨[(dns.TypeSRV, [("_web._udp.domain.",
      ["10.0.0.1:5001", "10.0.0.2:5002", "10.0.0.3:5003"])])]⟩, false, []⟩ g
      (query "_WEB._UDP.domain" dns.TypeSRV)
      ⟨dns.Fqdn "_WEB._UDP.domain", dns.TypeSRV, dns.ClassINET⟩ []
      ["10.0.0.1:5001", "10.0.0.2:5002", "10.0.0.3:5003"] rfl (Or.inr rfl) (by decide)
      (fun rec h => ok_of_formats ((by decide : ∀ rec ∈
        ["10.0.0.1:5001", "10.0.0.2:5002", "10.0.0.3:5003"],
        formats dns.TypeSRV (canonical (dns.Fqdn "_WEB._UDP.domain")) rec = true) rec h))
  have h6 : m.Answer.Perm (formatted dns.TypeSRV (canonical (dns.Fqdn "_WEB._UDP.domain"))
      ["10.0.0.1:5001", "10.0.0.2:5002", "10.0.0.3:5003"]) := h5
  have h7 : formatted dns.TypeSRV (canonical (dns.Fqdn "_WEB._UDP.domain"))
      ["10.0.0.1:5001", "10.0.0.2:5002", "10.0.0.3:5003"] =
      [dns.RR.SRV ⟨"_web._udp.domain.", dns.TypeSRV, dns.ClassINET, 0⟩ 1 1 5001 "10.0.0.1.",
       dns.RR.SRV ⟨"_web._udp.domain.", dns.TypeSRV, dns.ClassINET, 0⟩ 1 1 5002 "10.0.0.2.",
       dns.RR.SRV ⟨"_web._udp.domain.", dns.TypeSRV, dns.ClassINET, 0⟩ 1 1 5003
         "10.0.0.3."] := by decide
  rw [h7] at h6
  exact ⟨m, st, g', h1, h2, h3, h4, h6⟩

/-- Witness of C8 on the handler test: the query A api.domain against the two stored
addresses of api.domain. -/
theorem C8_found_gives_all_answers_witness :
    ∃ m st g', handleDomain ⟨⟨[(dns.TypeA, [("api.domain.", ["10.0.0.1", "10.0.0.2"])])]⟩,
        false, []⟩ (fun _ => 0) (query "api.domain" dns.TypeA) = some (m, st, g') ∧
      m.Rcode = dns.RcodeSuccess ∧ m.Authoritative = true ∧
      m.Answer.length = ["10.0.0.1", "10.0.0.2"].length ∧
      m.Answer.Perm (formatted dns.TypeA (canonical (dns.Fqdn "api.domain"))
        ["10.0.0.1", "10.0.0.2"]) :=
  C8_found_gives_all_answers.1
    ⟨⟨[(dns.TypeA, [("api.domain.", ["10.0.0.1", "10.0.0.2"])])]⟩, false, []⟩ (fun _ => 0)
    (query "api.domain" dns.TypeA) ⟨dns.Fqdn "api.domain", dns.TypeA, dns.ClassINET⟩ []
    ["10.0.0.1", "10.0.0.2"] rfl (Or.inl rfl) (by decide)
    (fun rec h => ok_of_formats ((by decide : ∀ rec ∈ ["10.0.0.1", "10.0.0.2"],
      formats dns.TypeA (canonical (dns.Fqdn "api.domain")) rec = true) rec h))

/-- C9, as the claim states it, fails: the store holds three SRV answers under
bad.domain., the last of which does not format; the queries for Bad.Domain. and for
bad.domain., answered with different random draws, get different numbers of answers. -/
theorem C9_counterexample :
    ¬ ∀ (d : DnsServer) (g1 g2 : Rand) (r1 r2 : dns.Msg) (q1 q2 : dns.Question)
      (qs1 qs2 : List dns.Question) (m1 m2 : dns.Msg) (st1 st2 : rrStore) (k1 k2 : Rand),
      r1.Question = q1 :: qs1 → r2.Question = q2 :: qs2 → q1.Qtype = q2.Qtype →
      strings.ToLower q1.Name = strings.ToLower q2.Name →
      handleDomain d g1 r1 = some (m1, st1, k1) → handleDomain d g2 r2 = some (m2, st2, k2) →
      m1.Rcode = m2.Rcode ∧ m1.Answer.Perm m2.Answer := by
  intro h
  have h1 := h ⟨⟨[(dns.TypeSRV, [("bad.domain.", ["10.0.0.1:1", "10.0.0.2:2", "nowhere"])])]⟩,
      false, []⟩ (fun _ => 0) (fun _ => 1)
    (query "Bad.Domain" dns.TypeSRV) (query "bad.domain" dns.TypeSRV)
    ⟨dns.Fqdn "Bad.Domain", dns.TypeSRV, dns.ClassINET⟩
    ⟨dns.Fqdn "bad.domain", dns.TypeSRV, dns.ClassINET⟩ [] [] _ _ _ _ _ _
    rfl rfl rfl (by decide) rfl rfl
  have h2 := h1.2.length_eq
  revert h2
  decide

/-- C9, amended: for every store and any two questions of the same type whose names
are equal after lowercasing, the internal handler replies to both with the same
rcode, whatever the random draws of the two queries; the answers of the two replies
are a reordering of each other whenever every answer stored under the name formats,
and they are equal when the two queries see the same random draws. -/
theorem C9_case_insensitive (d : DnsServer) (g1 g2 : Rand) (r1 r2 : dns.Msg)
    (q1 q2 : dns.Question) (qs1 qs2 : List dns.Question)
    (h1 : r1.Question = q1 :: qs1) (h2 : r2.Question = q2 :: qs2)
    (hty : q1.Qtype = q2.Qtype)
    (hn : strings.ToLower q1.Name = strings.ToLower q2.Name) :
    ∃ m1 st1 k1 m2 st2 k2,
      handleDomain d g1 r1 = some (m1, st1, k1) ∧ handleDomain d g2 r2 = some (m2, st2, k2) ∧
      m1.Rcode = m2.Rcode ∧
      ((∀ recs, lookup d.rr.rrs q1.Qtype (canonical q1.Name) = some recs →
          ∀ rec ∈ recs, ∃ rr, rrtype.ToRR q1.Qtype (canonical q1.Name) rec = .ok rr) →
        m1.Answer.Perm m2.Answer) ∧
      (g1 = g2 → m1.Answer = m2.Answer) := by
  have hc : canonical q2.Name = canonical q1.Name := by
    rw [← TrimSpace_ToLower, ← TrimSpace_ToLower, hn]
  by_cases hsup : rrtype.IsSupported q1.Qtype = true
  · have hsup2 : rrtype.IsSupported q2.Qtype = true := hty ▸ hsup
    cases hl : lookup d.rr.rrs q1.Qtype (canonical q1.Name) with
    | none =>
      have hl1 := hl
      have hl2 : lookup d.rr.rrs q2.Qtype (canonical q2.Name) = none := by
        rw [← hty, hc, hl]
      rw [← TrimSpace_ToLower] at hl1 hl2
      exact ⟨_, _, _, _, _, _, handleDomain_absent d g1 r1 q1 qs1 h1 hsup hl1,
        handleDomain_absent d g2 r2 q2 qs2 h2 hsup2 hl2, rfl, fun _ => List.Perm.refl _,
        fun _ => rfl⟩
    | some recs =>
      have hl2 : lookup d.rr.rrs q2.Qtype (canonical q2.Name) = some recs := by
        rw [← hty, hc, hl]
      obtain ⟨m1, e1, _, hr1, ha1⟩ := handleDomain_reply d g1 r1 q1 qs1 recs h1 hsup hl
      obtain ⟨m2, e2, _, hr2, ha2⟩ := handleDomain_reply d g2 r2 q2 qs2 recs h2 hsup2 hl2
      rw [← hty, hc] at hr2 ha2
      refine ⟨m1, _, _, m2, _, _, e1, e2, by rw [hr1, hr2], ?_, ?_⟩
      · intro hf
        have hall : ∀ rec ∈ recs, formats q1.Qtype (canonical q1.Name) rec = true :=
          fun rec h => formats_of_ok (hf recs rfl rec h)
        have hp1 := shuffle_perm g1 recs
        have hp2 := shuffle_perm g2 recs
        rw [ha1, ha2, takeWhile_eq_self fun rec h => hall rec (hp1.mem_iff.mp h),
          takeWhile_eq_self fun rec h => hall rec (hp2.mem_iff.mp h)]
        exact (hp1.trans hp2.symm).filterMap _
      · intro hg
        rw [ha1, ha2, hg]
  · have hs1 : rrtype.IsSupported q1.Qtype = false := by simpa using hsup
    have hs2 : rrtype.IsSupported q2.Qtype = false := hty ▸ hs1
    exact ⟨_, _, _, _, _, _, handleDomain_unsupported d g1 r1 q1 qs1 h1 hs1,
      handleDomain_unsupported d g2 r2 q2 qs2 h2 hs2, rfl, fun _ => List.Perm.refl _,
      fun _ => rfl⟩

/-- Witness of C9: the queries A Api.Domain and A api.domain against the two stored
addresses of api.domain., with different random draws. -/
theorem C9_case_insensitive_witness :
    ∃ m1 st1 k1 m2 st2 k2,
      handleDomain ⟨⟨[(dns.TypeA, [("api.domain.", ["10.0.0.1", "10.0.0.2"])])]⟩, false, []⟩
        (fun _ => 0) (query "Api.Domain" dns.TypeA) = some (m1, st1, k1) ∧
      handleDomain ⟨⟨[(dns.TypeA, [("api.domain.", ["10.0.0.1", "10.0.0.2"])])]⟩, false, []⟩
        (fun _ => 1) (query "api.domain" dns.TypeA) = some (m2, st2, k2) ∧
      m1.Rcode = m2.Rcode ∧
      ((∀ recs, lookup [(dns.TypeA, [("api.domain.", ["10.0.0.1", "10.0.0.2"])])] dns.TypeA
            (canonical (dns.Fqdn "Api.Domain")) = some recs →
          ∀ rec ∈ recs, ∃ rr,
            rrtype.ToRR dns.TypeA (canonical (dns.Fqdn "Api.Domain")) rec = .ok rr) →
        m1.Answer.Perm m2.Answer) ∧
      ((fun _ => 0 : Rand) = (fun _ => 1) → m1.Answer = m2.Answer) :=
  C9_case_insensitive ⟨⟨[(dns.TypeA, [("api.domain.", ["10.0.0.1", "10.0.0.2"])])]⟩, false, []⟩
    (fun _ => 0) (fun _ => 1) (query "Api.Domain" dns.TypeA) (query "api.domain" dns.TypeA)
    ⟨dns.Fqdn "Api.Domain", dns.TypeA, dns.ClassINET⟩
    ⟨dns.Fqdn "api.domain", dns.TypeA, dns.ClassINET⟩ [] [] rfl rfl rfl (by decide)

/-- C10: for every query of a supported type whose stored answers contain one the
formatter fails on, the internal handler replies SERVFAIL, not NOERROR; the shuffled
answers split at the first one that does not format, and the reply holds the records
of the answers before it and nothing for it or for any answer after it. -/
theorem C10_format_failure_is_servfail (d : DnsServer) (g : Rand) (r : dns.Msg)
    (q : dns.Question) (qs : List dns.Question) (recs : List String)
    (hq : r.Question = q :: qs) (hs : q.Qtype = dns.TypeA ∨ q.Qtype = dns.TypeSRV)
    (hl : lookup d.rr.rrs q.Qtype (canonical q.Name) = some recs)
    (hbad : ∃ rec ∈ recs, ∃ e, rrtype.ToRR q.Qtype (canonical q.Name) rec = .error e) :
    ∃ m st g', handleDomain d g r = some (m, st, g') ∧
      m.Rcode = dns.RcodeServerFailure ∧ m.Rcode ≠ dns.RcodeSuccess ∧
      ∃ pre bad post, (shuffle g recs).1 = pre ++ bad :: post ∧
        (∃ e, rrtype.ToRR q.Qtype (canonical q.Name) bad = .error e) ∧
        (∀ x ∈ pre, ∃ rr, rrtype.ToRR q.Qtype (canonical q.Name) x = .ok rr) ∧
        m.Answer = formatted q.Qtype (canonical q.Name) pre ∧
        m.Answer.length = pre.length := by
  have hsup : rrtype.IsSupported q.Qtype = true := (IsSupported_iff _).mpr hs
  obtain ⟨m, hm, _, hr, hans⟩ := handleDomain_reply d g r q qs recs hq hsup hl
  have hp := shuffle_perm g recs
  obtain ⟨rec, hrec, herr⟩ := hbad
  have hnall : recs.all (formats q.Qtype (canonical q.Name)) = false := by
    rw [List.all_eq_false]
    exact ⟨rec, hrec, by simp [formats_of_error herr]⟩
  have hbad2 : ∃ x ∈ (shuffle g recs).1, formats q.Qtype (canonical q.Name) x = false :=
    ⟨rec, hp.mem_iff.mpr hrec, formats_of_error herr⟩
  obtain ⟨pre, bad, post, hsplit, hb, hpre, htw⟩ := split_at_first_failure hbad2
  rw [htw] at hans
  rw [hnall] at hr
  refine ⟨m, _, _, hm, by simpa using hr, ?_, pre, bad, post, hsplit, error_of_not_formats hb,
    fun x hx => ok_of_formats (hpre x hx), hans, ?_⟩
  · rw [hr]
    decide
  · rw [hans, formatted_length _ _ _ hpre]

/-- Witness of C10: three SRV answers stored under bad.domain., the last one without a
port; with all draws 0 the shuffled order puts one good answer before it. -/
theorem C10_format_failure_is_servfail_witness :
    ∃ m st g',
      handleDomain ⟨⟨[(dns.TypeSRV, [("bad.domain.", ["10.0.0.1:1", "10.0.0.2:2", "nowhere"])])]⟩,
        false, []⟩ (fun _ => 0) (query "bad.domain" dns.TypeSRV) = some (m, st, g') ∧
      m.Rcode = dns.RcodeServerFailure ∧ m.Rcode ≠ dns.RcodeSuccess ∧
      ∃ pre bad post,
        (shuffle (fun _ => 0) ["10.0.0.1:1", "10.0.0.2:2", "nowhere"]).1 = pre ++ bad :: post ∧
        (∃ e, rrtype.ToRR dns.TypeSRV (canonical (dns.Fqdn "bad.domain")) bad = .error e) ∧
        (∀ x ∈ pre, ∃ rr,
          rrtype.ToRR dns.TypeSRV (canonical (dns.Fqdn "bad.domain")) x = .ok rr) ∧
        m.Answer = formatted dns.TypeSRV (canonical (dns.Fqdn "bad.domain")) pre ∧
        m.Answer.length = pre.length :=
  C10_format_failure_is_servfail
    ⟨⟨[(dns.TypeSRV, [("bad.domain.", ["10.0.0.1:1", "10.0.0.2:2", "nowhere"])])]⟩, false, []⟩
    (fun _ => 0) (query "bad.domain" dns.TypeSRV)
    ⟨dns.Fqdn "bad.domain", dns.TypeSRV, dns.ClassINET⟩ []
    ["10.0.0.1:1", "10.0.0.2:2", "nowhere"] rfl (Or.inr rfl) (by decide)
    ⟨"nowhere", by decide, error_of_not_formats (by decide)⟩

end HandlerClaims

/-! ## Claims on the formatter of A records, the shuffle and the stored sequence -/

section FormatterShuffleClaims

open server rrstore spec

/-- C11, on the code: the A formatter never rejects. For every name and stored
answer `ToRR` of type A returns a record, without an error, whose address is what
`net.ParseIP` gives; for the answer not-an-ip, which is not the text of an address,
that is the nil address, and the record is returned all the same. -/
theorem C11_formatA_never_rejects :
    (∀ name rec, rrtype.ToRR dns.TypeA name rec =
      .ok (dns.RR.A ⟨name, dns.TypeA, dns.ClassINET, 0⟩ (net.ParseIP rec))) ∧
    net.ParseIP "not-an-ip" = [] ∧
    rrtype.ToRR dns.TypeA "api.domain." "not-an-ip" =
      .ok (dns.RR.A ⟨"api.domain.", dns.TypeA, dns.ClassINET, 0⟩ []) ∧
    rrtype.ToRR dns.TypeA "api.domain." "10.0.0.1" =
      .ok (dns.RR.A ⟨"api.domain.", dns.TypeA, dns.ClassINET, 0⟩ (net.IPv4 10 0 0 1)) :=
  ⟨fun _ _ => rfl, by decide,
    congrArg (fun a => Except.ok (dns.RR.A ⟨"api.domain.", dns.TypeA, dns.ClassINET, 0⟩ a))
      (by decide : net.ParseIP "not-an-ip" = []),
    congrArg (fun a => Except.ok (dns.RR.A ⟨"api.domain.", dns.TypeA, dns.ClassINET, 0⟩ a))
      (by decide : net.ParseIP "10.0.0.1" = net.IPv4 10 0 0 1)⟩

theorem shuffle_two (g : Rand) (x y : String) : (shuffle g [x, y]).1 = [y, x] := by
  simp [shuffle, shuffleLoop, Intn, swap, Nat.mod_one]

theorem shuffle_three (g : Rand) (x y z : String) :
    (shuffle g [x, y, z]).1 = [y, z, x] ∨ (shuffle g [x, y, z]).1 = [z, x, y] := by
  rcases Nat.mod_two_eq_zero_or_one (g 0) with h | h
  · left
    simp [shuffle, shuffleLoop, Intn, swap, Nat.mod_one, h]
  · right
    simp [shuffle, shuffleLoop, Intn, swap, Nat.mod_one, h]

/-- C13, on the code: the shuffle draws its index for position i below i, never i
itself, so it does not reach every ordering. Whatever the random draws, two answers
are always exchanged, so the ordering a, b of the answers a, b is never produced, and
three answers a, b, c come out as b, c, a or as c, a, b, two of the six orderings. -/
theorem C13_shuffle_misses_orderings :
    (∀ g : Rand, (shuffle g ["a", "b"]).1 = ["b", "a"]) ∧
    (∀ g : Rand, (shuffle g ["a", "b"]).1 ≠ ["a", "b"]) ∧
    (∀ g : Rand, (shuffle g ["a", "b", "c"]).1 = ["b", "c", "a"] ∨
      (shuffle g ["a", "b", "c"]).1 = ["c", "a", "b"]) := by
  refine ⟨fun g => shuffle_two g _ _, fun g => ?_, fun g => shuffle_three g _ _ _⟩
  rw [shuffle_two]
  decide

/-- C14, on the code: answering a query reorders the stored sequence. The store holds
10.0.0.1, 10.0.0.2 under A a.domain.; whatever the random draws, after the handler
has answered the query A a.domain the store hands out 10.0.0.2, 10.0.0.1 for the
same key. -/
theorem C14_query_reorders_stored_sequence :
    ∀ g : Rand, ∃ m st g',
      handleDomain ⟨⟨[(dns.TypeA, [("a.domain.", ["10.0.0.1", "10.0.0.2"])])]⟩, false, []⟩ g
        (query "a.domain" dns.TypeA) = some (m, st, g') ∧
      (rrStore.mk [(dns.TypeA, [("a.domain.", ["10.0.0.1", "10.0.0.2"])])]).Get
        "a.domain." dns.TypeA = (["10.0.0.1", "10.0.0.2"], true) ∧
      st.Get "a.domain." dns.TypeA = (["10.0.0.2", "10.0.0.1"], true) := by
  intro g
  have h := handleDomain_found
    ⟨⟨[(dns.TypeA, [("a.domain.", ["10.0.0.1", "10.0.0.2"])])]⟩, false, []⟩ g
    (query "a.domain" dns.TypeA) ⟨dns.Fqdn "a.domain", dns.TypeA, dns.ClassINET⟩ []
    ["10.0.0.1", "10.0.0.2"] rfl (by decide) (by decide)
  refine ⟨_, _, _, h, by decide, ?_⟩
  rw [shuffle_two]
  decide

end FormatterShuffleClaims

/-! ## Claims on the supervisor and on the external handler -/

section SupervisorExternalClaims

open server wagl spec

theorem isStale_iff (S : Duration) (s : Supervisor) (now : Time) :
    isStale S s now = true ↔ staleCondition s.ok s.lastSuccess s.start now S := by
  simp [isStale, staleCondition, Since]

/-- C17: at an evaluation with okCount, lastSuccess, startTime, the clock reading now
and the deadline S, the loop takes the fatal branch on stale records if and only if
okCount is positive and now - lastSuccess exceeds S, or okCount is zero and
now - startTime exceeds S; otherwise it goes on to the event it receives: an error
is counted, a success resets the error count, is counted and sets lastSuccess, a
cancellation ends the loop. -/
theorem C17_staleness_decision (timeString : Time → String) (S : Duration) (s : Supervisor)
    (now : Time) (ev : Event) (later : Time) :
    ((∃ last, iteration timeString S s now ev later = .fatalStale last) ↔
      ((s.ok > 0 ∧ now - s.lastSuccess > S) ∨ (s.ok = 0 ∧ now - s.start > S))) ∧
    (¬ ((s.ok > 0 ∧ now - s.lastSuccess > S) ∨ (s.ok = 0 ∧ now - s.start > S)) →
      iteration timeString S s now ev later =
        match ev with
        | .err _ => .next ⟨s.lastSuccess, s.start, s.errs + 1, s.ok⟩
        | .ok => .next ⟨later, s.start, 0, s.ok + 1⟩
        | .cancel => .fatalCancelled) := by
  have hiff := isStale_iff S s now
  unfold staleCondition at hiff
  constructor
  · constructor
    · rintro ⟨last, h⟩
      by_contra hn
      have hs : isStale S s now = false := by
        rw [← Bool.not_eq_true, hiff]
        exact hn
      unfold iteration at h
      rw [hs] at h
      cases ev <;> simp at h
    · intro h
      have hs : isStale S s now = true := hiff.mpr h
      unfold iteration
      rw [hs]
      exact ⟨_, rfl⟩
  · intro hn
    have hs : isStale S s now = false := by
      rw [← Bool.not_eq_true, hiff]
      exact hn
    unfold iteration
    rw [hs]
    cases ev <;> rfl

/-- Witness of C17: staleness 60 s, one success 10 s after the start, an evaluation
61 s after the start: 51 s since the last success, so the loop goes on, and the
success it receives is counted. -/
theorem C17_staleness_decision_witness :
    iteration (fun _ => "t") 60000000000 ⟨10000000000, 0, 2, 1⟩ 61000000000 .ok 62000000000 =
      .next ⟨62000000000, 0, 0, 2⟩ :=
  (C17_staleness_decision (fun _ => "t") 60000000000 ⟨10000000000, 0, 2, 1⟩ 61000000000 .ok
    62000000000).2 (by decide)

/-- The external handler with recursion disabled. -/
theorem handleExternal_off (d : DnsServer) (g : Rand) (exchange : Exchange)
    (r : dns.Msg) (q : dns.Question) (qs : List dns.Question)
    (hq : r.Question = q :: qs) (hrec : d.recurse = false) :
    handleExternal d g exchange r = some
      ({ (dns.Msg.new.SetReply r).SetRcode r dns.RcodeServerFailure with
          Authoritative := false, RecursionAvailable := false }, g, []) := by
  simp only [handleExternal, parseQuestion, hq, hrec]
  rfl

/-- C20: with recursion disabled, for every query that reaches the external handler,
whatever its name and type, the handler replies SERVFAIL with Authoritative false and
RecursionAvailable false, and contacts no nameserver. -/
theorem C20_external_without_recursion (d : DnsServer) (g : Rand) (exchange : Exchange)
    (r : dns.Msg) (q : dns.Question) (qs : List dns.Question)
    (hq : r.Question = q :: qs) (hrec : d.recurse = false) :
    ∃ m, handleExternal d g exchange r = some (m, g, []) ∧
      m.Rcode = dns.RcodeServerFailure ∧ m.Authoritative = false ∧
      m.RecursionAvailable = false := by
  exact ⟨_, handleExternal_off d g exchange r q qs hq hrec, rfl, rfl, rfl⟩

/-- Witness of C20 on scenario S4: the query A ExAmPlE.com with recursion off, the
store empty and no nameserver. -/
theorem C20_external_without_recursion_witness :
    ∃ m, handleExternal ⟨rrstore.New, false, []⟩ (fun _ => 0) (fun _ _ => .error "unreachable")
        (query "ExAmPlE.com" dns.TypeA) = some (m, fun _ => 0, []) ∧
      m.Rcode = dns.RcodeServerFailure ∧ m.Authoritative = false ∧
      m.RecursionAvailable = false :=
  C20_external_without_recursion ⟨rrstore.New, false, []⟩ (fun _ => 0)
    (fun _ _ => .error "unreachable") (query "ExAmPlE.com" dns.TypeA)
    ⟨dns.Fqdn "ExAmPlE.com", dns.TypeA, dns.ClassINET⟩ [] rfl rfl

end SupervisorExternalClaims

/-! ## The formatter of SRV records -/

section SrvFormatter

open spec

theorem le_foldl_dec (cs : List Char) (n : Nat) :
    n ≤ cs.foldl (fun n c => n * 10 + (c.toNat - '0'.toNat)) n := by
  induction cs generalizing n with
  | nil => exact Nat.le_refl _
  | cons c cs ih =>
    simp only [List.foldl_cons]
    exact Nat.le_trans (by omega) (ih _)

theorem parseUintLoop_ok (s0 : String) (cs : List Char) (n : Nat)
    (hd : ∀ c ∈ cs, c.isDigit = true)
    (hv : cs.foldl (fun n c => n * 10 + (c.toNat - '0'.toNat)) n ≤ 65535) :
    strconv.parseUintLoop s0 cs n =
      .ok (cs.foldl (fun n c => n * 10 + (c.toNat - '0'.toNat)) n) := by
  induction cs generalizing n with
  | nil => rfl
  | cons c cs ih =>
    have hc : c.isDigit = true := hd c (List.mem_cons_self _ _)
    have hrest : ∀ x ∈ cs, x.isDigit = true := fun x hx => hd x (List.mem_cons_of_mem _ hx)
    simp only [List.foldl_cons] at hv ⊢
    have hle := le_foldl_dec cs (n * 10 + (c.toNat - '0'.toNat))
    have hn1 : ¬ n * 10 + (c.toNat - '0'.toNat) > 65535 := by omega
    rw [strconv.parseUintLoop]
    simp only [hc, if_true, hn1, if_false]
    exact ih _ hrest hv

theorem parseUintLoop_of_ok (s0 : String) (cs : List Char) (n v : Nat)
    (h : strconv.parseUintLoop s0 cs n = .ok v) :
    (∀ c ∈ cs, c.isDigit = true) ∧
      v = cs.foldl (fun n c => n * 10 + (c.toNat - '0'.toNat)) n ∧
      (n ≤ 65535 → v ≤ 65535) := by
  induction cs generalizing n with
  | nil =>
    simp only [strconv.parseUintLoop, Except.ok.injEq] at h
    subst h
    simp
  | cons c cs ih =>
    rw [strconv.parseUintLoop] at h
    by_cases hc : c.isDigit = true
    · simp only [hc, if_true] at h
      by_cases hn1 : n * 10 + (c.toNat - '0'.toNat) > 65535
      · rw [if_pos hn1] at h
        cases h
      · rw [if_neg hn1] at h
        obtain ⟨h1, h2, h3⟩ := ih _ h
        refine ⟨?_, ?_, fun _ => h3 (by omega)⟩
        · intro x hx
          rcases List.mem_cons.mp hx with rfl | hx
          · exact hc
          · exact h1 x hx
        · simpa using h2
    · simp [hc] at h

/-- The call `ParseUint(s, 10, 16)` succeeds exactly on the decimal texts of the
numbers up to 65535, and returns the number. -/
theorem ParseUint16_ok_iff (s : String) (v : Nat) :
    strconv.ParseUint16 s = .ok v ↔ isPort16 s = true ∧ v = net.decValue s.data := by
  unfold strconv.ParseUint16 isPort16 net.decValue
  by_cases he : s.data = []
  · simp [he]
  · simp only [he, if_false, ne_eq, not_false_eq_true, decide_True, Bool.true_and,
      Bool.and_eq_true, List.all_eq_true, decide_eq_true_eq]
    constructor
    · intro h
      obtain ⟨h1, h2, h3⟩ := parseUintLoop_of_ok s s.data 0 v h
      exact ⟨⟨h1, h2 ▸ h3 (by omega)⟩, h2⟩
    · rintro ⟨⟨h1, h2⟩, h3⟩
      rw [h3]
      exact parseUintLoop_ok s s.data 0 h1 h2

theorem ParseUint16_error_of_not (s : String) (h : isPort16 s = false) :
    ∃ e, strconv.ParseUint16 s = .error e := by
  cases hc : strconv.ParseUint16 s with
  | error e => exact ⟨e, rfl⟩
  | ok v =>
    have := ((ParseUint16_ok_iff s v).mp hc).1
    rw [h] at this
    cases this

theorem ToRR_SRV (name rec : String) :
    rrtype.ToRR dns.TypeSRV name rec = rrtype.formatSRV name rec := rfl

/-- The SRV formatter on an answer that splits into host and port with the port a
decimal number up to 65535. -/
theorem formatSRV_ok (name rec host port : String)
    (hs : net.SplitHostPort rec = .ok (host, port)) (hp : isPort16 port = true) :
    rrtype.ToRR dns.TypeSRV name rec =
      .ok (dns.RR.SRV ⟨name, dns.TypeSRV, dns.ClassINET, 0⟩ 1 1 (net.decValue port.data)
        (dns.Fqdn host)) := by
  have h2 : strconv.ParseUint16 port = .ok (net.decValue port.data) :=
    (ParseUint16_ok_iff port _).mpr ⟨hp, rfl⟩
  rw [ToRR_SRV]
  unfold rrtype.formatSRV
  simp only [hs, h2]

theorem formatSRV_error_split (name rec : String)
    (hs : ∃ why, net.SplitHostPort rec = .error why) :
    ∃ e, rrtype.ToRR dns.TypeSRV name rec = .error e := by
  obtain ⟨why, hw⟩ := hs
  rw [ToRR_SRV]
  unfold rrtype.formatSRV
  simp only [hw]
  exact ⟨_, rfl⟩

theorem formatSRV_error_port (name rec host port : String)
    (hs : net.SplitHostPort rec = .ok (host, port)) (hp : isPort16 port = false) :
    ∃ e, rrtype.ToRR dns.TypeSRV name rec = .error e := by
  obtain ⟨e, he⟩ := ParseUint16_error_of_not port hp
  rw [ToRR_SRV]
  unfold rrtype.formatSRV
  simp only [hs, he]
  exact ⟨_, rfl⟩

end SrvFormatter

section SplitPlain

open spec

theorem indexByte_eq_none {l : List Char} {c : Char} (h : c ∉ l) : net.indexByte l c = none := by
  induction l with
  | nil => rfl
  | cons x xs ih =>
    have hx : ¬ x = c := fun e => h (e ▸ List.mem_cons_self _ _)
    have hxs : c ∉ xs := fun e => h (List.mem_cons_of_mem _ e)
    simp [net.indexByte, hx, ih hxs]

theorem indexByte_append_cons {l1 l2 : List Char} {c : Char} (h : c ∉ l1) :
    net.indexByte (l1 ++ c :: l2) c = some l1.length := by
  induction l1 with
  | nil => simp [net.indexByte]
  | cons x xs ih =>
    have hx : ¬ x = c := fun e => h (e ▸ List.mem_cons_self _ _)
    have hxs : c ∉ xs := fun e => h (List.mem_cons_of_mem _ e)
    simp [net.indexByte, hx, ih hxs]

theorem lastIndexByte_append_cons {l1 l2 : List Char} {c : Char} (h : c ∉ l2) :
    net.lastIndexByte (l1 ++ c :: l2) c = some l1.length := by
  unfold net.lastIndexByte
  have hr : (l1 ++ c :: l2).reverse = l2.reverse ++ c :: l1.reverse := by simp
  have h2 : c ∉ l2.reverse := fun e => h (List.mem_reverse.mp e)
  rw [hr, indexByte_append_cons h2]
  simp only [Option.map_some', List.length_append, List.length_cons, List.length_reverse]
  congr 1
  omega

theorem digit_ne_special {c : Char} (h : c.isDigit = true) : c ≠ ':' ∧ c ≠ '[' ∧ c ≠ ']' := by
  refine ⟨?_, ?_, ?_⟩ <;>
  · intro e
    subst e
    revert h
    decide

/-- The function `net.SplitHostPort` on a host without colon or brackets, a colon, and
a port made of digits. -/
theorem SplitHostPort_plain (host port : String) (hh : plainHost host = true)
    (hp : ∀ c ∈ port.data, c.isDigit = true) :
    net.SplitHostPort (host ++ ":" ++ port) = .ok (host, port) := by
  have hh2 : ∀ c ∈ host.data, c ≠ ':' ∧ c ≠ '[' ∧ c ≠ ']' := by
    simpa [plainHost] using hh
  have hdata : (host ++ ":" ++ port).data = host.data ++ ':' :: port.data := by
    simp [String.data_append]
  have hc1 : ':' ∉ port.data := fun e => (digit_ne_special (hp _ e)).1 rfl
  have hc2 : ':' ∉ host.data := fun e => (hh2 _ e).1 rfl
  have hb1 : '[' ∉ host.data ++ ':' :: port.data := by
    intro e
    rcases List.mem_append.mp e with e | e
    · exact (hh2 _ e).2.1 rfl
    · rcases List.mem_cons.mp e with e | e
      · cases e
      · exact (digit_ne_special (hp _ e)).2.1 rfl
  have hb2 : ']' ∉ host.data ++ ':' :: port.data := by
    intro e
    rcases List.mem_append.mp e with e | e
    · exact (hh2 _ e).2.2 rfl
    · rcases List.mem_cons.mp e with e | e
      · cases e
      · exact (digit_ne_special (hp _ e)).2.2 rfl
  have hhead : ¬ (host.data ++ ':' :: port.data).head? = some '[' := by
    intro e
    exact hb1 (List.mem_of_mem_head? e)
  unfold net.SplitHostPort
  simp only [hdata, lastIndexByte_append_cons hc1, hhead, if_false]
  have htake : (host.data ++ ':' :: port.data).take host.data.length = host.data := by simp
  have hdrop : (host.data ++ ':' :: port.data).drop (host.data.length + 1) = port.data := by
    have e : host.data ++ ':' :: port.data = (host.data ++ [':']) ++ port.data := by simp
    rw [e]
    exact List.drop_left' (by simp)
  rw [htake, hdrop, indexByte_eq_none hc2, indexByte_eq_none hb1, indexByte_eq_none hb2]
  rfl

end SplitPlain

section SrvFormatterClaim

open spec

/-- C12: the SRV formatter. For every name and every stored answer that splits into
host and port, the port a decimal integer in 0..65535, `ToRR` of type SRV succeeds
with header Name the query name, Rrtype SRV, Class IN, TTL 0, and payload Target the
host with a trailing dot ensured, Port the port, Priority 1, Weight 1; this covers
every answer host:port whose host has no colon and no bracket. It returns an error
when the answer has no such split, and when the port is not a decimal number that
fits in 16 bits, as for the ports 65536, -1 and the empty one. -/
theorem C12_srv_formatter :
    (∀ name rec host port, net.SplitHostPort rec = .ok (host, port) → isPort16 port = true →
      rrtype.ToRR dns.TypeSRV name rec =
        .ok (dns.RR.SRV ⟨name, dns.TypeSRV, dns.ClassINET, 0⟩ 1 1 (net.decValue port.data)
          (dns.Fqdn host))) ∧
    (∀ name host port, plainHost host = true → isPort16 port = true →
      rrtype.ToRR dns.TypeSRV name (host ++ ":" ++ port) =
        .ok (dns.RR.SRV ⟨name, dns.TypeSRV, dns.ClassINET, 0⟩ 1 1 (net.decValue port.data)
          (dns.Fqdn host))) ∧
    (∀ name rec, (∃ why, net.SplitHostPort rec = .error why) →
      ∃ e, rrtype.ToRR dns.TypeSRV name rec = .error e) ∧
    (∀ name rec host port, net.SplitHostPort rec = .ok (host, port) → isPort16 port = false →
      ∃ e, rrtype.ToRR dns.TypeSRV name rec = .error e) ∧
    (∃ e, rrtype.ToRR dns.TypeSRV "web.domain." "10.0.0.1:65536" = .error e) ∧
    (∃ e, rrtype.ToRR dns.TypeSRV "web.domain." "10.0.0.1:-1" = .error e) ∧
    (∃ e, rrtype.ToRR dns.TypeSRV "web.domain." "10.0.0.1:" = .error e) ∧
    (∃ e, rrtype.ToRR dns.TypeSRV "web.domain." "10.0.0.1" = .error e) := by
  refine ⟨formatSRV_ok, ?_, formatSRV_error_split, formatSRV_error_port,
    error_of_not_formats (by decide), error_of_not_formats (by decide),
    error_of_not_formats (by decide), error_of_not_formats (by decide)⟩
  intro name host port hh hp
  have hd : ∀ c ∈ port.data, c.isDigit = true := by
    simp only [isPort16, Bool.and_eq_true, List.all_eq_true] at hp
    exact hp.1.2
  exact formatSRV_ok name _ host port (SplitHostPort_plain host port hh hd) hp

/-- Witness of C12: the answer 10.0.0.1:5001 under the name _web._udp.domain., and the
largest port 65535. -/
theorem C12_srv_formatter_witness :
    rrtype.ToRR dns.TypeSRV "_web._udp.domain." ("10.0.0.1" ++ ":" ++ "5001") =
        .ok (dns.RR.SRV ⟨"_web._udp.domain.", dns.TypeSRV, dns.ClassINET, 0⟩ 1 1
          (net.decValue "5001".data) (dns.Fqdn "10.0.0.1")) ∧
    net.decValue "5001".data = 5001 ∧ dns.Fqdn "10.0.0.1" = "10.0.0.1." ∧
    rrtype.ToRR dns.TypeSRV "_web._udp.domain." "[::1]:65535" =
        .ok (dns.RR.SRV ⟨"_web._udp.domain.", dns.TypeSRV, dns.ClassINET, 0⟩ 1 1
          (net.decValue "65535".data) (dns.Fqdn "::1")) :=
  ⟨C12_srv_formatter.2.1 "_web._udp.domain." "10.0.0.1" "5001" (by decide) (by decide),
    by decide, by decide,
    C12_srv_formatter.1 "_web._udp.domain." "[::1]:65535" "::1" "65535" rfl (by decide)⟩

end SrvFormatterClaim

/-! ## The names of a projected table -/

section TableNames

open task rrgen rrstore spec

theorem mapSet_mem {κ ν : Type} [DecidableEq κ] {m : List (κ × ν)} {k0 k : κ} {v0 v : ν}
    (h : (k, v) ∈ mapSet m k0 v0) : (k = k0 ∧ v = v0) ∨ (k, v) ∈ m := by
  induction m with
  | nil =>
    simp only [mapSet, List.mem_singleton, Prod.mk.injEq] at h
    exact Or.inl h
  | cons e m ih =>
    obtain ⟨k1, v1⟩ := e
    by_cases h1 : k1 = k0
    · simp only [mapSet, h1, if_true, List.mem_cons, Prod.mk.injEq] at h
      rcases h with h | h
      · exact Or.inl h
      · exact Or.inr (List.mem_cons_of_mem _ h)
    · simp only [mapSet, h1, if_false, List.mem_cons, Prod.mk.injEq] at h
      rcases h with h | h
      · exact Or.inr (by simp [h])
      · rcases ih h with h | h
        · exact Or.inl h
        · exact Or.inr (List.mem_cons_of_mem _ h)

theorem inner_names {P : String → Prop} {rr : RRs} (h : namesSatisfy P rr) (ty : Nat)
    (name : String) (a : List String) (hm : (name, a) ∈ rrstore.inner rr ty) : P name := by
  unfold rrstore.inner at hm
  cases hg : mapGet rr ty with
  | none => simp [hg] at hm
  | some m =>
    rw [hg] at hm
    exact h ty m name a (mapGet_mem hg) hm

theorem insertRR_names {P : String → Prop} {rr : RRs} (e : rrEntry)
    (h : namesSatisfy P rr) (he : P e.domain) : namesSatisfy P (insertRR rr e) := by
  have h1 : namesSatisfy P
      (if mapGet rr e.rrType = none then mapSet rr e.rrType [] else rr) := by
    split
    · intro ty m name a hty hn
      rcases mapSet_mem hty with ⟨_, hm⟩ | hty
      · subst hm
        simp at hn
      · exact h ty m name a hty hn
    · exact h
  intro ty m name a hty hn
  unfold insertRR at hty
  rcases mapSet_mem hty with ⟨_, hm⟩ | hty
  · subst hm
    rcases mapSet_mem hn with ⟨hname, _⟩ | hn
    · exact hname ▸ he
    · exact inner_names h1 _ _ _ hn
  · exact h1 ty m name a hty hn

theorem foldl_insertRR_names {P : String → Prop} (es : List rrEntry) (rr : RRs)
    (h : namesSatisfy P rr) (hes : ∀ e ∈ es, P e.domain) :
    namesSatisfy P (es.foldl insertRR rr) := by
  induction es generalizing rr with
  | nil => exact h
  | cons e es ih =>
    rw [List.foldl_cons]
    exact ih _ (insertRR_names e h (hes e (List.mem_cons_self _ _)))
      fun x hx => hes x (List.mem_cons_of_mem _ hx)

theorem RRs_eq (d : String) (C : ClusterState) :
    rrgen.RRs d C = some (((C.filter eligible).flatMap (taskEntries d)).foldl insertRR []) := by
  unfold rrgen.RRs getRRs
  rw [FilterTasks_DnsFilters]
  apply getRRsLoop_eq
  intro t ht
  exact eligible_ports_ne_nil (List.mem_filter.mp ht).2

/-- The table of a cluster state exists, and a property that holds of the names of all
entries emitted by its eligible tasks holds of every name stored in the table. -/
theorem RRs_names (P : String → Prop) (d : String) (C : ClusterState)
    (hP : ∀ t ∈ C, eligible t = true → ∀ e ∈ taskEntries d t, P e.domain) :
    ∃ tbl, rrgen.RRs d C = some tbl ∧ namesSatisfy P tbl := by
  refine ⟨_, RRs_eq d C, ?_⟩
  apply foldl_insertRR_names
  · intro ty m name a hty
    simp at hty
  · intro e he
    obtain ⟨t, ht, hte⟩ := List.mem_flatMap.mp he
    obtain ⟨htC, hel⟩ := List.mem_filter.mp ht
    exact hP t htC hel e hte

/-- The entries of a task: the A entry of the first port, then the SRV entries, all
under the tail that the code computes. -/
theorem taskEntries_mem (d : String) (t : Task) (e : rrEntry) (he : e ∈ taskEntries d t) :
    ∃ tl, (tl = (if t.Domain ≠ "" then dns.Fqdn t.Domain ++ dns.Fqdn d else dns.Fqdn d)) ∧
      (e.domain = t.Service ++ "." ++ tl ∨
        ∃ p ∈ t.Ports, e.domain = "_" ++ t.Service ++ "._" ++ p.Proto ++ "." ++ tl) := by
  unfold taskEntries getTaskRRs at he
  cases hp : t.Ports with
  | nil => simp [hp] at he
  | cons p0 ps =>
    simp only [hp, Option.getD_some, srvEntries_eq_map] at he
    refine ⟨_, rfl, ?_⟩
    rcases List.mem_cons.mp he with he | he
    · left
      rw [he]
    · right
      obtain ⟨p, hp1, hp2⟩ := List.mem_map.mp he
      exact ⟨p, hp1, by rw [← hp2]⟩

theorem Fqdn_getLast (s : String) : (dns.Fqdn s).data.getLast? = some '.' := by
  unfold dns.Fqdn
  split
  · assumption
  · simp [String.data_append]

theorem getLast_append_Fqdn (pre d : String) :
    (pre ++ dns.Fqdn d).data.getLast? = some '.' := by
  rw [String.data_append, List.getLast?_append, Fqdn_getLast]
  rfl

end TableNames

section TableNameClaims

open task rrgen rrstore spec

theorem tail_ends_with_root (d : String) (t : Task) :
    ∃ x, (if t.Domain ≠ "" then dns.Fqdn t.Domain ++ dns.Fqdn d else dns.Fqdn d)
      = x ++ dns.Fqdn d := by
  by_cases h : t.Domain = ""
  · exact ⟨"", by simp [h]⟩
  · exact ⟨dns.Fqdn t.Domain, by simp [h]⟩

theorem emitted_name_ends_with_root (d : String) (t : Task) (e : rrEntry)
    (he : e ∈ taskEntries d t) :
    (∃ pre, e.domain = pre ++ dns.Fqdn d) ∧ e.domain.data.getLast? = some '.' := by
  obtain ⟨tl, htl, h⟩ := taskEntries_mem d t e he
  obtain ⟨x, hx⟩ := tail_ends_with_root d t
  rw [← htl] at hx
  have key : ∀ s : String, e.domain = s ++ tl →
      (∃ pre, e.domain = pre ++ dns.Fqdn d) ∧ e.domain.data.getLast? = some '.' := by
    intro s hs
    have h2 : e.domain = (s ++ x) ++ dns.Fqdn d := by
      rw [hs, hx, String.append_assoc]
    exact ⟨⟨s ++ x, h2⟩, by rw [h2]; exact getLast_append_Fqdn _ _⟩
  rcases h with h | ⟨p, _, h⟩
  · exact key _ h
  · exact key _ h

/-- C15: for every root domain and cluster state, every name stored in the projected
table, under any record type, ends with the root domain made fully qualified, that
is the root domain followed by a dot when it does not already end in one; hence
every stored name ends with a dot. -/
theorem C15_names_end_with_root_domain (d : String) (C : ClusterState) :
    ∃ tbl, rrgen.RRs d C = some tbl ∧
      (∀ ty m name a, (ty, m) ∈ tbl → (name, a) ∈ m →
        (∃ pre, name = pre ++ dns.Fqdn d) ∧ name.data.getLast? = some '.') ∧
      (∀ ty name a, lookup tbl ty name = some a →
        (∃ pre, name = pre ++ dns.Fqdn d) ∧ name.data.getLast? = some '.') ∧
      dns.Fqdn d = (if d.data.getLast? = some '.' then d else d ++ ".") := by
  obtain ⟨tbl, h1, h2⟩ := RRs_names
    (fun name => (∃ pre, name = pre ++ dns.Fqdn d) ∧ name.data.getLast? = some '.') d C
    (fun t _ _ e he => emitted_name_ends_with_root d t e he)
  refine ⟨tbl, h1, h2, ?_, rfl⟩
  intro ty name a hl
  unfold lookup at hl
  exact inner_names h2 ty name a (mapGet_mem hl)

/-- Witness of C15: root domain swarm, without its dot, and one task of service api:
the stored name api.swarm. ends with swarm. and with a dot. -/
theorem C15_names_end_with_root_domain_witness :
    ∃ tbl, rrgen.RRs "swarm" [⟨"w1", [⟨net.IPv4 10 0 0 1, 8000, "tcp"⟩], "api", ""⟩] = some tbl ∧
      lookup tbl dns.TypeA "api.swarm." = some ["10.0.0.1"] ∧
      (∃ pre, "api.swarm." = pre ++ dns.Fqdn "swarm") ∧
      "api.swarm.".data.getLast? = some '.' := by
  obtain ⟨tbl, h1, _, h3, _⟩ := C15_names_end_with_root_domain "swarm"
    [⟨"w1", [⟨net.IPv4 10 0 0 1, 8000, "tcp"⟩], "api", ""⟩]
  have h4 : rrgen.RRs "swarm" [⟨"w1", [⟨net.IPv4 10 0 0 1, 8000, "tcp"⟩], "api", ""⟩] =
      some [(dns.TypeA, [("api.swarm.", ["10.0.0.1"])]),
        (dns.TypeSRV, [("_api._tcp.swarm.", ["10.0.0.1:8000"])])] := by decide
  rw [h4] at h1
  cases h1
  have h5 : lookup [(dns.TypeA, [("api.swarm.", ["10.0.0.1"])]),
      (dns.TypeSRV, [("_api._tcp.swarm.", ["10.0.0.1:8000"])])] dns.TypeA "api.swarm." =
      some ["10.0.0.1"] := by decide
  exact ⟨_, h4, h5, h3 _ _ _ h5⟩

end TableNameClaims

/-! ## Lowercase names -/

section LowercaseNames

open task rrgen rrstore spec

theorem ToLower_append (a b : String) :
    strings.ToLower (a ++ b) = strings.ToLower a ++ strings.ToLower b := by
  apply String.ext
  simp [strings.ToLower, String.data_append]

theorem isLower_append {a b : String} (ha : isLower a) (hb : isLower b) : isLower (a ++ b) := by
  unfold isLower at *
  rw [ToLower_append, ha, hb]

theorem isLower_Fqdn {s : String} (h : isLower s) : isLower (dns.Fqdn s) := by
  unfold dns.Fqdn
  split
  · exact h
  · exact isLower_append h (by unfold isLower; decide)

theorem emitted_name_lower (d : String) (t : Task) (e : rrEntry)
    (hd : isLower d) (hs : isLower t.Service) (hdom : isLower t.Domain)
    (hp : ∀ p ∈ t.Ports, isLower p.Proto) (he : e ∈ taskEntries d t) : isLower e.domain := by
  obtain ⟨tl, htl, h⟩ := taskEntries_mem d t e he
  have hdot : isLower "." := by unfold isLower; decide
  have hus : isLower "_" := by unfold isLower; decide
  have hdu : isLower "._" := by unfold isLower; decide
  have htlow : isLower tl := by
    rw [htl]
    split
    · exact isLower_append (isLower_Fqdn hdom) (isLower_Fqdn hd)
    · exact isLower_Fqdn hd
  rcases h with h | ⟨p, hpm, h⟩
  · rw [h]
    exact isLower_append (isLower_append hs hdot) htlow
  · rw [h]
    exact isLower_append (isLower_append (isLower_append (isLower_append
      (isLower_append hus hs) hdu) (hp p hpm)) hdot) htlow

/-- C16, as the claim states it, fails: projection lowercases nothing. With the root
domain Swarm. and a task of service api, the table stores the name api.Swarm., which
is not its own lowercased form, and the handler answers the query A api.Swarm. with
NXDOMAIN; with the root domain swarm. and a port of proto TCP the table stores the
name _api._TCP.swarm. -/
theorem C16_counterexample :
    (¬ ∀ (d : String) (C : ClusterState) (tbl : RRs) (ty : Nat) (name : String)
        (a : List String),
      (∀ t ∈ C, strings.ToLower t.Service = t.Service ∧ strings.ToLower t.Domain = t.Domain) →
      rrgen.RRs d C = some tbl → lookup tbl ty name = some a →
      strings.ToLower name = name) ∧
    (server.handleDomain ⟨⟨[(dns.TypeA, [("api.Swarm.", ["10.0.0.1"])]),
        (dns.TypeSRV, [("_api._tcp.Swarm.", ["10.0.0.1:8000"])])]⟩, false, []⟩ (fun _ => 0)
        (query "api.Swarm." dns.TypeA)).map (fun x => x.1.Rcode) = some dns.RcodeNameError ∧
    (∃ tbl a, rrgen.RRs "swarm." [⟨"w1", [⟨net.IPv4 10 0 0 1, 8000, "TCP"⟩], "api", ""⟩]
        = some tbl ∧ lookup tbl dns.TypeSRV "_api._TCP.swarm." = some a ∧
      strings.ToLower "_api._TCP.swarm." ≠ "_api._TCP.swarm.") := by
  refine ⟨?_, by decide, ?_⟩
  · intro h
    have h1 := h "Swarm." [⟨"w1", [⟨net.IPv4 10 0 0 1, 8000, "tcp"⟩], "api", ""⟩]
      [(dns.TypeA, [("api.Swarm.", ["10.0.0.1"])]),
        (dns.TypeSRV, [("_api._tcp.Swarm.", ["10.0.0.1:8000"])])]
      dns.TypeA "api.Swarm." ["10.0.0.1"] (by decide) (by decide) (by decide)
    revert h1
    decide
  · exact ⟨[(dns.TypeA, [("api.swarm.", ["10.0.0.1"])]),
        (dns.TypeSRV, [("_api._TCP.swarm.", ["10.0.0.1:8000"])])], ["10.0.0.1:8000"],
      by decide, by decide, by decide⟩

/-- C16, amended: for every root domain that is lowercase and every cluster state
whose tasks carry lowercase service labels, domain labels and port protos, every name
stored in the projected table equals its own lowercased form. -/
theorem C16_names_lowercase (d : String) (C : ClusterState)
    (hd : strings.ToLower d = d)
    (hC : ∀ t ∈ C, strings.ToLower t.Service = t.Service ∧
      strings.ToLower t.Domain = t.Domain ∧
      ∀ p ∈ t.Ports, strings.ToLower p.Proto = p.Proto) :
    ∃ tbl, rrgen.RRs d C = some tbl ∧
      (∀ ty m name a, (ty, m) ∈ tbl → (name, a) ∈ m → strings.ToLower name = name) ∧
      (∀ ty name a, lookup tbl ty name = some a → strings.ToLower name = name) := by
  obtain ⟨tbl, h1, h2⟩ := RRs_names isLower d C
    (fun t ht _ e he =>
      emitted_name_lower d t e hd (hC t ht).1 (hC t ht).2.1 (hC t ht).2.2 he)
  refine ⟨tbl, h1, h2, ?_⟩
  intro ty name a hl
  unfold lookup at hl
  exact inner_names h2 ty name a (mapGet_mem hl)

/-- Witness of C16: root domain swarm. and a task of service dns, domain infra and a
port of proto udp. -/
theorem C16_names_lowercase_witness :
    ∃ tbl, rrgen.RRs "swarm." [⟨"b", [⟨net.IPv4 192 168 0 3, 53, "udp"⟩], "dns", "infra"⟩]
        = some tbl ∧
      (∀ ty m name a, (ty, m) ∈ tbl → (name, a) ∈ m → strings.ToLower name = name) ∧
      (∀ ty name a, lookup tbl ty name = some a → strings.ToLower name = name) :=
  C16_names_lowercase "swarm." [⟨"b", [⟨net.IPv4 192 168 0 3, 53, "udp"⟩], "dns", "infra"⟩]
    (by decide) (by decide)

end LowercaseNames

/-! ## Validation of the options -/

section Validation

open wagl spec

theorem nameserverLoop_cons (v : String) (vs : List String) :
    nameserverLoop (v :: vs) =
      if net.ParseIP (hostPart v) = [] then .error (.notAnIP (hostPart v))
      else
        match nameserverLoop vs with
        | .error e => .error e
        | .ok rest =>
          .ok ((match net.SplitHostPort v with
            | .error _ => v ++ ":53"
            | .ok _ => v) :: rest) := by
  rw [nameserverLoop]
  unfold hostPart
  cases h : net.SplitHostPort v with
  | error e => rfl
  | ok hp => rfl

theorem nameserverLoop_error_iff (ns : List String) :
    (∃ e, nameserverLoop ns = .error e) ↔ ∃ v ∈ ns, net.ParseIP (hostPart v) = [] := by
  induction ns with
  | nil => simp [nameserverLoop]
  | cons v vs ih =>
    rw [nameserverLoop_cons]
    by_cases hv : net.ParseIP (hostPart v) = []
    · simp [hv]
    · simp only [hv, if_false, List.mem_cons, exists_eq_or_imp, false_or]
      rw [← ih]
      cases nameserverLoop vs with
      | error e => simp
      | ok rest => simp

/-- C18: for every options value that does not need /etc/resolv.conf, recursion off
or a nameserver list that is not empty, `validate` returns an error if and only if
recursion is off with a non-empty nameserver list, or tlsVerify is set with an empty
tlsDir, or the host part of some nameserver is not an IP address, or refreshTimeout
is at least refreshInterval. -/
theorem C18_validate_rejects_exactly (localNameservers : Except String (List String))
    (opt : Options) (hpre : opt.recurse = false ∨ opt.nameservers ≠ []) :
    (∃ e, validate localNameservers opt = .error e) ↔
      ((opt.recurse = false ∧ opt.nameservers ≠ []) ∨
       (opt.tlsVerify = true ∧ opt.tlsDir = "") ∨
       (∃ v ∈ opt.nameservers, net.ParseIP (hostPart v) = []) ∨
       opt.refreshTimeout ≥ opt.refreshInterval) := by
  unfold validate
  by_cases ha : opt.recurse = false ∧ opt.nameservers ≠ []
  · have hlen : opt.nameservers.length > 0 := List.length_pos.mpr ha.2
    simp [ha.1, hlen, ha.2]
  · have hcond1 : (!opt.recurse && decide (opt.nameservers.length > 0)) = false := by
      by_cases hr : opt.recurse = true
      · simp [hr]
      · have hr2 : opt.recurse = false := by simpa using hr
        have hn : opt.nameservers = [] := by
          by_contra hne
          exact ha ⟨hr2, hne⟩
        simp [hr2, hn]
    have hnoload : (opt.recurse && decide (opt.nameservers.length = 0)) = false := by
      rcases hpre with hr | hn
      · simp [hr]
      · have : opt.nameservers.length ≠ 0 := fun e => hn (List.length_eq_zero.mp e)
        simp [this]
    simp only [hcond1, Bool.false_eq_true, if_false, hnoload, ha, false_or]
    by_cases hb : opt.tlsVerify = true ∧ opt.tlsDir = ""
    · simp [hb.1, hb.2]
    · have hcond2 : (opt.tlsVerify && decide (opt.tlsDir = "")) = false := by
        by_cases hv : opt.tlsVerify = true
        · have : ¬ opt.tlsDir = "" := fun e => hb ⟨hv, e⟩
          simp [this]
        · simp [hv]
      simp only [hcond2, Bool.false_eq_true, if_false, hb, false_or]
      rw [← nameserverLoop_error_iff]
      cases hl : nameserverLoop opt.nameservers with
      | error e => simp
      | ok ns =>
        by_cases hd : opt.refreshTimeout ≥ opt.refreshInterval
        · simp [hd]
        · simp [hd]

/-- Witness of C18: recursion on, nameservers 8.8.8.8 and 8.8.4.4:53, refresh every
15 s with a timeout of 10 s: no condition holds and the options are accepted; with a
timeout of 15 s they are rejected, and so they are with the nameserver ::00001, whose
group of five digits makes it no IP address. -/
theorem C18_validate_rejects_exactly_witness :
    ((∃ e, validate (.error "unread")
        ⟨"swarm.", ":53", "127.0.0.1:2376", "", false, true, ["8.8.8.8", "8.8.4.4:53"],
          15000000000, 10000000000, 60000000000⟩ = .error e) ↔
      ((true = false ∧ ["8.8.8.8", "8.8.4.4:53"] ≠ []) ∨
       (false = true ∧ "" = "") ∨
       (∃ v ∈ ["8.8.8.8", "8.8.4.4:53"], net.ParseIP (hostPart v) = []) ∨
       (10000000000 : Int) ≥ 15000000000)) ∧
    validate (.error "unread")
        ⟨"swarm.", ":53", "127.0.0.1:2376", "", false, true, ["8.8.8.8", "8.8.4.4:53"],
          15000000000, 10000000000, 60000000000⟩ =
      .ok ⟨"swarm.", ":53", "127.0.0.1:2376", "", false, true, ["8.8.8.8:53", "8.8.4.4:53"],
          15000000000, 10000000000, 60000000000⟩ ∧
    validate (.error "unread")
        ⟨"swarm.", ":53", "127.0.0.1:2376", "", false, true, ["8.8.8.8", "8.8.4.4:53"],
          15000000000, 15000000000, 60000000000⟩ =
      .error (.timeoutNotLess 15000000000 15000000000) ∧
    net.ParseIP "::00001" = [] ∧ net.ParseIP "::1" = net.ParseIP "::0001" ∧
    (∃ e, validate (.error "unread")
        ⟨"swarm.", ":53", "127.0.0.1:2376", "", false, true, ["::00001"],
          15000000000, 10000000000, 60000000000⟩ = .error e) ∧
    validate (.error "unread")
        ⟨"swarm.", ":53", "127.0.0.1:2376", "", false, true, ["::00001"],
          15000000000, 10000000000, 60000000000⟩ = .error (.notAnIP "::00001") :=
  ⟨C18_validate_rejects_exactly (.error "unread")
      ⟨"swarm.", ":53", "127.0.0.1:2376", "", false, true, ["8.8.8.8", "8.8.4.4:53"],
        15000000000, 10000000000, 60000000000⟩ (Or.inr (by decide)),
    by rfl, by rfl, by decide, by decide,
    (C18_validate_rejects_exactly (.error "unread")
      ⟨"swarm.", ":53", "127.0.0.1:2376", "", false, true, ["::00001"],
        15000000000, 10000000000, 60000000000⟩ (Or.inr (by decide))).mpr
      (Or.inr (Or.inr (Or.inl ⟨"::00001", by decide, by decide⟩))),
    by rfl⟩

end Validation

/-! ## Claims on the supported types, the filters and the refresh of the store -/

section SupportedFilterSyncClaims

open task rrgen rrstore spec

theorem ToRR_unsupported (t : Nat) (h : rrtype.IsSupported t = false) (name rec : String) :
    ∃ e, rrtype.ToRR t name rec = .error e := by
  unfold rrtype.IsSupported at h
  unfold rrtype.ToRR
  cases hm : mapGet rrtype.rrFormatters t with
  | none => exact ⟨_, rfl⟩
  | some f => simp [hm] at h

/-- C21: the supported record types are exactly A and SRV. `IsSupported` is true of
a type if and only if the type is A or SRV, so it is false of CNAME, NS and MX;
`ToRR` returns an error for every unsupported type, the one that tells the formatting
is not implemented; and `IsSupported` holds of a type exactly when `ToRR` has a
formatter for it: the table of formatters has an entry for the type and `ToRR` is
that formatter, `formatA` for A and `formatSRV` for SRV, which is exactly when `ToRR`
converts some answer of the type. -/
theorem C21_supported_types (t : Nat) :
    (rrtype.IsSupported t = true ↔ t = dns.TypeA ∨ t = dns.TypeSRV) ∧
    (rrtype.IsSupported t = false → ∀ name rec,
      rrtype.ToRR t name rec =
        .error ("Formatting RR to type " ++ toString t ++ " REC not implemented")) ∧
    (rrtype.IsSupported t = false → ∀ name rec, ∃ e, rrtype.ToRR t name rec = .error e) ∧
    (rrtype.IsSupported t = true ↔
      ∃ f, mapGet rrtype.rrFormatters t = some f ∧
        ∀ name rec, rrtype.ToRR t name rec = f name rec) ∧
    (rrtype.IsSupported t = true ↔ ∃ name rec rr, rrtype.ToRR t name rec = .ok rr) ∧
    (∀ name rec, rrtype.ToRR dns.TypeA name rec = rrtype.formatA name rec) ∧
    (∀ name rec, rrtype.ToRR dns.TypeSRV name rec = rrtype.formatSRV name rec) ∧
    (∀ name rec, rrtype.ToRR dns.TypeA name rec =
      .ok (dns.RR.A ⟨name, dns.TypeA, dns.ClassINET, 0⟩ (net.ParseIP rec))) ∧
    dns.TypeA = 1 ∧ dns.TypeSRV = 33 ∧
    rrtype.IsSupported 5 = false ∧ rrtype.IsSupported 2 = false ∧
    rrtype.IsSupported 15 = false := by
  have hno : rrtype.IsSupported t = false → ∀ name rec,
      rrtype.ToRR t name rec =
        .error ("Formatting RR to type " ++ toString t ++ " REC not implemented") := by
    intro h name rec
    unfold rrtype.IsSupported at h
    unfold rrtype.ToRR
    cases hm : mapGet rrtype.rrFormatters t with
    | none => rfl
    | some f => simp [hm] at h
  have hA : ∀ name : String, rrtype.ToRR dns.TypeA name "10.0.0.1" =
      .ok (dns.RR.A ⟨name, dns.TypeA, dns.ClassINET, 0⟩ (net.ParseIP "10.0.0.1")) :=
    fun _ => rfl
  refine ⟨IsSupported_iff t, hno, ToRR_unsupported t, ?_, ?_, fun _ _ => rfl, fun _ _ => rfl,
    fun _ _ => rfl, rfl, rfl, by decide, by decide, by decide⟩
  · unfold rrtype.IsSupported rrtype.ToRR
    cases hm : mapGet rrtype.rrFormatters t with
    | none => simp
    | some f => simp
  · constructor
    · intro h
      rcases (IsSupported_iff t).mp h with e | e
      · exact ⟨"a.domain.", "10.0.0.1", _, e ▸ hA "a.domain."⟩
      · subst e
        exact ok_of_formats (by decide :
          formats dns.TypeSRV "_a._tcp.domain." "10.0.0.1:80" = true) |>.elim
          fun rr hrr => ⟨"_a._tcp.domain.", "10.0.0.1:80", rr, hrr⟩
    · rintro ⟨name, rec, rr, hrr⟩
      by_contra hns
      have hf : rrtype.IsSupported t = false := by simpa using hns
      rw [hno hf name rec] at hrr
      cases hrr

/-- Witness of C21: the type MX, 15, is not supported and `ToRR` fails on it, while it
converts answers of the types A and SRV. -/
theorem C21_supported_types_witness :
    (∃ e, rrtype.ToRR 15 "mail.domain." "10.0.0.1" = .error e) ∧
    rrtype.ToRR dns.TypeA "api.domain." "10.0.0.1" =
      .ok (dns.RR.A ⟨"api.domain.", dns.TypeA, dns.ClassINET, 0⟩ (net.IPv4 10 0 0 1)) ∧
    (∃ name rec rr, rrtype.ToRR dns.TypeSRV name rec = .ok rr) :=
  ⟨(C21_supported_types 15).2.2.1 (by decide) "mail.domain." "10.0.0.1",
    (C21_supported_types 1).2.2.2.2.2.2.2.1 "api.domain." "10.0.0.1",
    (C21_supported_types 33).2.2.2.2.1.mp (by decide)⟩

theorem FilterTasks_foldl_bad (f : Filters) (ll : List Task) (acc : List Task × List BadTask) :
    (ll.foldl (fun acc t =>
      match firstFailure f t with
      | some reason => (acc.1, acc.2 ++ [⟨t, reason⟩])
      | none => (acc.1 ++ [t], acc.2)) acc).2
      = acc.2 ++ ll.filterMap (badOf f) := by
  induction ll generalizing acc with
  | nil => simp
  | cons t ts ih =>
    rw [List.foldl_cons, ih]
    cases h : firstFailure f t <;> simp [h, badOf, List.filterMap_cons]

theorem FilterTasks_bad (f : Filters) (ll : List Task) :
    (FilterTasks f ll).2 = ll.filterMap (badOf f) := by
  unfold FilterTasks
  rw [FilterTasks_foldl_bad]
  simp

theorem firstFailure_none_iff (f : Filters) (t : Task) :
    firstFailure f t = none ↔ ∀ ff ∈ f, (ff t).1 = true := by
  induction f with
  | nil => simp [firstFailure]
  | cons ff fs ih =>
    by_cases h : (ff t).1 = true
    · simp [firstFailure, h, ih]
    · simp [firstFailure, h]

theorem firstFailure_some_iff (f : Filters) (t : Task) (reason : String) :
    firstFailure f t = some reason ↔
      ∃ pre ff post, f = pre ++ ff :: post ∧ (∀ g ∈ pre, (g t).1 = true) ∧
        (ff t).1 = false ∧ reason = (ff t).2 := by
  induction f with
  | nil => simp [firstFailure]
  | cons ff fs ih =>
    by_cases h : (ff t).1 = true
    · simp only [firstFailure, h, if_true]
      rw [ih]
      constructor
      · rintro ⟨pre, g, post, h1, h2, h3, h4⟩
        refine ⟨ff :: pre, g, post, by simp [h1], ?_, h3, h4⟩
        intro x hx
        rcases List.mem_cons.mp hx with rfl | hx
        · exact h
        · exact h2 x hx
      · rintro ⟨pre, g, post, h1, h2, h3, h4⟩
        cases pre with
        | nil =>
          simp only [List.nil_append, List.cons.injEq] at h1
          rw [← h1.1, h] at h3
          cases h3
        | cons p pre =>
          simp only [List.cons_append, List.cons.injEq] at h1
          exact ⟨pre, g, post, h1.2, fun x hx => h2 x (List.mem_cons_of_mem _ hx), h3, h4⟩
    · have hf : (ff t).1 = false := by simpa using h
      simp only [firstFailure, hf, Bool.false_eq_true, if_false, Option.some.injEq]
      constructor
      · intro hr
        exact ⟨[], ff, fs, rfl, by simp, hf, hr.symm⟩
      · rintro ⟨pre, g, post, h1, h2, h3, h4⟩
        cases pre with
        | nil =>
          simp only [List.nil_append, List.cons.injEq] at h1
          rw [h4, ← h1.1]
        | cons p pre =>
          simp only [List.cons_append, List.cons.injEq] at h1
          have := h2 p (List.mem_cons_self _ _)
          rw [← h1.1, hf] at this
          cases this

theorem length_filter_add_filterMap (f : Filters) (ll : List Task) :
    (ll.filter fun t => decide (firstFailure f t = none)).length +
      (ll.filterMap (badOf f)).length = ll.length := by
  induction ll with
  | nil => rfl
  | cons t ts ih =>
    cases h : firstFailure f t with
    | none =>
      simp only [List.filter_cons, h, decide_True, if_true, List.filterMap_cons, badOf,
        Option.map_none', List.length_cons]
      simp only [badOf] at ih
      omega
    | some r =>
      simp only [List.filter_cons, h, List.filterMap_cons, badOf, Option.map_some',
        List.length_cons]
      simp only [badOf] at ih
      simp
      omega

/-- C22: `FilterTasks` partitions its input. For every filter list and task list, the
good list is the sub-sequence of the tasks that pass every filter, the bad list is
the sub-sequence of the tasks that fail some filter, each with the reason of the
first filter it fails: the filters before that one all pass; and the lengths of the
two lists add up to the length of the input. The DNS filters are, in order: the
service is not empty, there is a port, every port has a proto. -/
theorem C22_FilterTasks_partitions (F : Filters) (L : List Task) :
    (FilterTasks F L).1 = L.filter (fun t => decide (∀ ff ∈ F, (ff t).1 = true)) ∧
    (FilterTasks F L).2 = L.filterMap (fun t =>
      (firstFailure F t).map fun reason => ⟨t, reason⟩) ∧
    (FilterTasks F L).2.map (fun b => b.toTask) =
      L.filter (fun t => decide (∃ ff ∈ F, (ff t).1 = false)) ∧
    (∀ t reason, firstFailure F t = some reason ↔
      ∃ pre ff post, F = pre ++ ff :: post ∧ (∀ g ∈ pre, (g t).1 = true) ∧
        (ff t).1 = false ∧ reason = (ff t).2) ∧
    (FilterTasks F L).1.length + (FilterTasks F L).2.length = L.length ∧
    DnsFilters = [HasDnsName, HasPorts, PortsHaveProtos] ∧
    (∀ t, (HasDnsName t).1 = decide (t.Service ≠ "")) ∧
    (∀ t, (HasPorts t).1 = decide (t.Ports.length > 0)) ∧
    (∀ t, (PortsHaveProtos t).1 = t.Ports.all fun p => decide (p.Proto ≠ "")) := by
  refine ⟨?_, FilterTasks_bad F L, ?_, firstFailure_some_iff F, ?_, rfl, fun _ => rfl,
    fun _ => rfl, fun t => portsHaveProtosLoop_true t.Ports⟩
  · rw [FilterTasks_good]
    congr 1
    funext t
    rw [decide_eq_decide]
    exact firstFailure_none_iff F t
  · rw [FilterTasks_bad]
    induction L with
    | nil => rfl
    | cons t ts ih =>
      cases h : firstFailure F t with
      | none =>
        have hp : ¬ ∃ ff ∈ F, (ff t).1 = false := by
          rintro ⟨ff, hff, hf⟩
          rw [(firstFailure_none_iff F t).mp h ff hff] at hf
          cases hf
        simp only [List.filterMap_cons, badOf, h, Option.map_none', List.filter_cons, hp,
          decide_False, Bool.false_eq_true, if_false]
        exact ih
      | some r =>
        obtain ⟨pre, ff, post, h1, _, h3, _⟩ := (firstFailure_some_iff F t r).mp h
        have hp : ∃ ff ∈ F, (ff t).1 = false := ⟨ff, by simp [h1], h3⟩
        simp only [List.filterMap_cons, badOf, h, Option.map_some', List.map_cons,
          List.filter_cons, hp, decide_True, if_true, List.cons.injEq, true_and]
        exact ih
  · rw [FilterTasks_good, FilterTasks_bad]
    exact length_filter_add_filterMap F L

theorem SyncRecords_ok (c : clusterdns.ClusterDNS) (state : ClusterState) (tbl : RRs)
    (h : rrgen.RRs c.domain state = some tbl) :
    clusterdns.SyncRecords c (.ok state) = some (none, ⟨tbl⟩) := by
  simp [clusterdns.SyncRecords, h, rrStore.Set]

theorem Get_mk (tbl : RRs) (fqdn : String) (ty : Nat) :
    (rrStore.mk tbl).Get fqdn ty = getResult (lookup tbl ty fqdn) := by
  unfold rrStore.Get getResult
  cases lookup tbl ty fqdn <;> rfl

/-- C23: the round trip of projection and store. For every root domain, store and
cluster snapshot, `SyncRecords` on the snapshot succeeds and leaves a store whose
`Get`, for every name and type, returns found true with exactly the answers that the
projected table holds there, which are the answers that the eligible tasks of the
snapshot emit, and found false when there are none; the store left is the same
whatever the store held before. -/
theorem C23_sync_round_trip (c : clusterdns.ClusterDNS) (state : ClusterState) :
    ∃ st tbl, clusterdns.SyncRecords c (.ok state) = some (none, st) ∧
      rrgen.RRs c.domain state = some tbl ∧
      (∀ fqdn ty, st.Get fqdn ty = getResult (lookup tbl ty fqdn)) ∧
      (∀ fqdn ty, st.Get fqdn ty = getResult (stored ((state.filter eligible).flatMap fun t =>
        answersFor ty fqdn ((getTaskRRs c.domain t).getD [])))) ∧
      (∀ fqdn ty, (st.Get fqdn ty).2 = false ↔ lookup tbl ty fqdn = none) ∧
      (∀ before : rrStore,
        clusterdns.SyncRecords ⟨c.domain, before⟩ (.ok state) = some (none, st)) := by
  obtain ⟨tbl, h1, h2⟩ := RRs_lookup c.domain state
  refine ⟨⟨tbl⟩, tbl, SyncRecords_ok c state tbl h1, h1, Get_mk tbl, ?_, ?_, ?_⟩
  · intro fqdn ty
    rw [Get_mk, h2]
    rfl
  · intro fqdn ty
    rw [Get_mk]
    cases lookup tbl ty fqdn <;> simp [getResult]
  · intro before
    exact SyncRecords_ok ⟨c.domain, before⟩ state tbl h1

end SupportedFilterSyncClaims

/-! ## Claims on the Authoritative flag, the staleness scenario and the nameservers -/

section FlagStalenessNameserverClaims

open server rrstore spec wagl

/-- Every reply of the internal handler is authoritative. -/
theorem handleDomain_Authoritative (d : DnsServer) (g : Rand) (r m : dns.Msg) (st : rrStore)
    (g' : Rand) (h : handleDomain d g r = some (m, st, g')) : m.Authoritative = true := by
  cases hq : r.Question with
  | nil => simp [handleDomain, parseQuestion, hq] at h
  | cons q qs =>
    by_cases hs : rrtype.IsSupported q.Qtype = true
    · cases hl : lookup d.rr.rrs q.Qtype (strings.TrimSpace (strings.ToLower q.Name)) with
      | none =>
        rw [handleDomain_absent d g r q qs hq hs hl] at h
        simp only [Option.some.injEq, Prod.mk.injEq] at h
        rw [← h.1]
        rfl
      | some recs =>
        rw [handleDomain_found d g r q qs recs hq hs hl] at h
        simp only [Option.some.injEq, Prod.mk.injEq] at h
        rw [← h.1, answerLoop_Authoritative]
        rfl
    · have hs2 : rrtype.IsSupported q.Qtype = false := by simpa using hs
      rw [handleDomain_unsupported d g r q qs hq hs2] at h
      simp only [Option.some.injEq, Prod.mk.injEq] at h
      rw [← h.1]
      rfl

/-- The replies of the external handler: with recursion off, its own SERVFAIL reply
and no nameserver contacted; with recursion on, one nameserver of the list, and its
own SERVFAIL reply when the exchange fails, the response of the nameserver with
compression switched on when it succeeds. -/
theorem handleExternal_cases (d : DnsServer) (g : Rand) (exchange : Exchange)
    (r m : dns.Msg) (g' : Rand) (ns : List String)
    (h : handleExternal d g exchange r = some (m, g', ns)) :
    (d.recurse = false ∧ ns = [] ∧ m.Authoritative = false) ∨
    (d.recurse = true ∧ ∃ n, ns = [n] ∧ n ∈ d.nameservers ∧
      ((∃ err, exchange r n = .error err ∧ m.Authoritative = false ∧
          m.Rcode = dns.RcodeServerFailure) ∨
       (∃ resp, exchange r n = .ok resp ∧ m = { resp with Compress := true }))) := by
  cases hq : r.Question with
  | nil => simp [handleExternal, parseQuestion, hq] at h
  | cons q qs =>
    by_cases hrec : d.recurse = true
    · right
      refine ⟨hrec, ?_⟩
      simp only [handleExternal, parseQuestion, hq, hrec, Bool.not_true, Bool.false_eq_true,
        if_false] at h
      unfold queryExternal at h
      by_cases hlen : 0 < d.nameservers.length
      · simp only [hlen, dite_true] at h
        have hidx : (Intn g d.nameservers.length hlen).1 < d.nameservers.length :=
          Nat.mod_lt _ hlen
        have hmem : d.nameservers.getD (Intn g d.nameservers.length hlen).1 "" ∈
            d.nameservers := by
          rw [List.getD_eq_getElem _ _ hidx]
          exact List.getElem_mem hidx
        refine ⟨_, ?_, hmem, ?_⟩
        · cases hx : exchange r (d.nameservers.getD (Intn g d.nameservers.length hlen).1 "")
            with
          | error e =>
            simp only [hx, Option.some.injEq, Prod.mk.injEq] at h
            exact h.2.2.symm
          | ok resp =>
            simp only [hx, Option.some.injEq, Prod.mk.injEq] at h
            exact h.2.2.symm
        · cases hx : exchange r (d.nameservers.getD (Intn g d.nameservers.length hlen).1 "")
            with
          | error e =>
            simp only [hx, Option.some.injEq, Prod.mk.injEq] at h
            left
            refine ⟨e, rfl, ?_, ?_⟩
            · rw [← h.1]
              rfl
            · rw [← h.1]
              rfl
          | ok resp =>
            simp only [hx, Option.some.injEq, Prod.mk.injEq] at h
            right
            exact ⟨resp, rfl, h.1.symm⟩
      · simp [hlen] at h
    · have hoff : d.recurse = false := by simpa using hrec
      left
      rw [handleExternal_off d g exchange r q qs hq hoff] at h
      simp only [Option.some.injEq, Prod.mk.injEq] at h
      exact ⟨hoff, h.2.2.symm, by rw [← h.1]⟩

/-- C25, as the claim states it, fails: a response that the external handler forwards
keeps the Authoritative flag that the nameserver set. With recursion on and the one
nameserver 8.8.8.8:53 answering with Authoritative true, the reply to the query
A example.com has Authoritative true. -/
theorem C25_counterexample :
    ¬ ∀ (d : DnsServer) (g : Rand) (exchange : Exchange) (r m : dns.Msg) (g' : Rand)
      (ns : List String),
      handleExternal d g exchange r = some (m, g', ns) → m.Authoritative = false := by
  intro h
  have h1 := h ⟨rrstore.New, true, ["8.8.8.8:53"]⟩ (fun _ => 0)
    (fun req _ => .ok { dns.Msg.new.SetReply req with Authoritative := true })
    (query "example.com" dns.TypeA) _ _ _ rfl
  revert h1
  decide

/-- C25, amended: every reply that the internal handler builds, whatever its rcode,
has Authoritative true; every reply that the external handler builds itself, with
recursion disabled or after a failed exchange, has Authoritative false; a response
forwarded from a nameserver is sent as the nameserver returned it, with compression
switched on, so it carries the Authoritative flag of the nameserver. -/
theorem C25_authoritative_flag :
    (∀ (d : DnsServer) (g : Rand) (r m : dns.Msg) (st : rrStore) (g' : Rand),
      handleDomain d g r = some (m, st, g') → m.Authoritative = true) ∧
    (∀ (d : DnsServer) (g : Rand) (exchange : Exchange) (r m : dns.Msg) (g' : Rand)
      (ns : List String), handleExternal d g exchange r = some (m, g', ns) →
      (d.recurse = false ∧ ns = [] ∧ m.Authoritative = false) ∨
      (d.recurse = true ∧ ∃ n, ns = [n] ∧ n ∈ d.nameservers ∧
        ((∃ err, exchange r n = .error err ∧ m.Authoritative = false ∧
            m.Rcode = dns.RcodeServerFailure) ∨
         (∃ resp, exchange r n = .ok resp ∧ m = { resp with Compress := true } ∧
            m.Authoritative = resp.Authoritative)))) := by
  refine ⟨handleDomain_Authoritative, ?_⟩
  intro d g exchange r m g' ns h
  rcases handleExternal_cases d g exchange r m g' ns h with h1 | ⟨hrec, n, h2, h3, h4⟩
  · exact Or.inl h1
  · refine Or.inr ⟨hrec, n, h2, h3, ?_⟩
    rcases h4 with h4 | ⟨resp, h5, h6⟩
    · exact Or.inl h4
    · exact Or.inr ⟨resp, h5, h6, by rw [h6]⟩

/-- Witness of C25: the query A api.domain against a store that holds the name gets an
authoritative reply. -/
theorem C25_authoritative_flag_witness :
    ∃ m st g', handleDomain ⟨⟨[(dns.TypeA, [("api.domain.", ["10.0.0.1"])])]⟩, false, []⟩
        (fun _ => 0) (query "api.domain" dns.TypeA) = some (m, st, g') ∧
      m.Authoritative = true :=
  ⟨_, _, _, rfl, C25_authoritative_flag.1
    ⟨⟨[(dns.TypeA, [("api.domain.", ["10.0.0.1"])])]⟩, false, []⟩ (fun _ => 0)
    (query "api.domain" dns.TypeA) _ _ _ rfl⟩

/-- C26, as the claim states it, fails: the test is strict. With a staleness period of
60 s, no success and exactly 60 s elapsed since the start, the records are not yet
stale and the loop goes on to the event it receives. -/
theorem C26_counterexample :
    isStale 60000000000 (Supervisor.init 1000000000) 61000000000 = false ∧
    (61000000000 : Int) - (Supervisor.init 1000000000).start = 60000000000 ∧
    (Supervisor.init 1000000000).ok = 0 ∧
    iteration (fun _ => "t") 60000000000 (Supervisor.init 1000000000) 61000000000
        (.err "timeout") 61000000001 = .next ⟨0, 1000000000, 1, 0⟩ ∧
    ¬ ∃ last, iteration (fun _ => "t") 60000000000 (Supervisor.init 1000000000) 61000000000
        (.err "timeout") 61000000001 = .fatalStale last := by
  refine ⟨by decide, by decide, rfl, by decide, ?_⟩
  rintro ⟨last, h⟩
  have h2 : iteration (fun _ => "t") 60000000000 (Supervisor.init 1000000000) 61000000000
      (.err "timeout") 61000000001 = .next ⟨0, 1000000000, 1, 0⟩ := by decide
  rw [h2] at h
  cases h

/-- C26, amended: with a staleness period S, no success so far and more than S elapsed
since the start, the evaluation is fatal, and the diagnostic names the last success
as never. -/
theorem C26_stale_without_success (timeString : Time → String) (S : Duration)
    (s : Supervisor) (now : Time) (ev : Event) (later : Time)
    (hok : s.ok = 0) (hzero : s.lastSuccess = 0) (hlate : now - s.start > S) :
    iteration timeString S s now ev later = .fatalStale "never" := by
  have hs : isStale S s now = true := (isStale_iff S s now).mpr (Or.inr ⟨hok, hlate⟩)
  unfold iteration
  rw [hs]
  simp [hzero]

/-- Witness of C26 on scenario S6: staleness 60 s, no success, 60 s and one nanosecond
after the start. -/
theorem C26_stale_without_success_witness :
    iteration (fun _ => "t") 60000000000 (Supervisor.init 1000000000) 61000000001
      (.err "timeout") 61000000002 = .fatalStale "never" :=
  C26_stale_without_success (fun _ => "t") 60000000000 (Supervisor.init 1000000000)
    61000000001 (.err "timeout") 61000000002 rfl rfl (by decide)

/-- C27, on the code: the nameserver loop appends :53 to every entry that
`net.SplitHostPort` does not split and keeps every entry that it splits. The bare
IPv6 address ::1 is accepted and becomes ::1:53, which is not a host:port, as
`net.SplitHostPort` rejects it; the entry 1.2.3.4: is accepted and kept with its
empty port. A bare IPv4 address gets the port 53. -/
theorem C27_nameserver_normalisation_misses :
    validate (.error "unread")
        ⟨"swarm.", ":53", "127.0.0.1:2376", "", false, true, ["::1"],
          15000000000, 10000000000, 60000000000⟩ =
      .ok ⟨"swarm.", ":53", "127.0.0.1:2376", "", false, true, ["::1:53"],
          15000000000, 10000000000, 60000000000⟩ ∧
    (∃ why, net.SplitHostPort "::1:53" = .error why) ∧
    validate (.error "unread")
        ⟨"swarm.", ":53", "127.0.0.1:2376", "", false, true, ["1.2.3.4:"],
          15000000000, 10000000000, 60000000000⟩ =
      .ok ⟨"swarm.", ":53", "127.0.0.1:2376", "", false, true, ["1.2.3.4:"],
          15000000000, 10000000000, 60000000000⟩ ∧
    net.SplitHostPort "1.2.3.4:" = .ok ("1.2.3.4", "") ∧
    validate (.error "unread")
        ⟨"swarm.", ":53", "127.0.0.1:2376", "", false, true, ["8.8.8.8", "8.8.4.4:5353"],
          15000000000, 10000000000, 60000000000⟩ =
      .ok ⟨"swarm.", ":53", "127.0.0.1:2376", "", false, true, ["8.8.8.8:53", "8.8.4.4:5353"],
          15000000000, 10000000000, 60000000000⟩ :=
  ⟨by rfl, ⟨_, rfl⟩, by rfl, by rfl, by rfl⟩

end FlagStalenessNameserverClaims

/-! ## Claims on the orderings of the shuffle and on the entries of the table -/

section ShuffleOrderEntriesClaims

open server task rrgen rrstore spec

theorem swap_getElem?_ne (a : List String) (i r k : Nat) (hi : k ≠ i) (hr : k ≠ r) :
    (swap a i r)[k]? = a[k]? := by
  unfold swap
  rw [List.getElem?_set_ne (Ne.symm hr), List.getElem?_set_ne (Ne.symm hi)]

theorem shuffleLoop_getElem?_gt (i : Nat) (g : Rand) (a : List String) (k : Nat) (h : i < k) :
    (shuffleLoop i g a).1[k]? = a[k]? := by
  induction i generalizing g a with
  | zero => rfl
  | succ i ih =>
    rw [shuffleLoop, ih _ _ (by omega)]
    have hr : (Intn g (i + 1) (Nat.succ_pos i)).1 < i + 1 := Nat.mod_lt _ (Nat.succ_pos i)
    exact swap_getElem?_ne a _ _ k (by omega) (by omega)

theorem swap_getElem?_self (a : List String) (i r : Nat) (hi : i < a.length)
    (hr : r < a.length) (hne : r ≠ i) : (swap a i r)[i]? = a[r]? := by
  unfold swap
  rw [List.getElem?_set_ne hne, List.getElem?_set_self hi,
    List.getD_eq_getElem _ _ hr, List.getElem?_eq_getElem hr]

/-- The last position after the shuffle holds the element that the first draw picked. -/
theorem shuffle_last (g : Rand) (a : List String) (m : Nat) (hlen : a.length = m + 2) :
    (shuffle g a).1[m + 1]? = a[g 0 % (m + 1)]? := by
  have hr : g 0 % (m + 1) < m + 1 := Nat.mod_lt _ (Nat.succ_pos m)
  unfold shuffle
  have h1 : a.length - 1 = m + 1 := by omega
  rw [h1, shuffleLoop, shuffleLoop_getElem?_gt _ _ _ _ (Nat.lt_succ_self m)]
  exact swap_getElem?_self a (m + 1) _ (by omega) (by simp only [Intn]; omega)
    (by simp only [Intn]; omega)

/-- C28: the shuffle is not concentrated on one ordering. For every sequence of at
least three pairwise distinct answers there are two sequences of random draws for
which the shuffle yields two different orderings. -/
theorem C28_shuffle_not_concentrated (a : List String) (hd : a.Nodup) (hlen : 3 ≤ a.length) :
    ∃ g1 g2 : Rand, (shuffle g1 a).1 ≠ (shuffle g2 a).1 := by
  refine ⟨fun _ => 0, fun _ => 1, ?_⟩
  obtain ⟨m, hm⟩ : ∃ m, a.length = m + 3 := ⟨a.length - 3, by omega⟩
  intro heq
  have h1 := shuffle_last (fun _ => 0) a (m + 1) (by omega)
  have h2 := shuffle_last (fun _ => 1) a (m + 1) (by omega)
  rw [heq, h2] at h1
  have e0 : 0 % (m + 1 + 1) = 0 := Nat.zero_mod _
  have e1 : 1 % (m + 1 + 1) = 1 := Nat.mod_eq_of_lt (by omega)
  simp only [e0, e1] at h1
  have hl0 : 0 < a.length := by omega
  have hl1 : 1 < a.length := by omega
  rw [List.getElem?_eq_getElem hl0, List.getElem?_eq_getElem hl1, Option.some.injEq] at h1
  have := (List.Nodup.getElem_inj_iff hd).mp h1
  omega

/-- Witness of C28 on the three addresses of the shuffling test. -/
theorem C28_shuffle_not_concentrated_witness :
    ∃ g1 g2 : Rand, (shuffle g1 ["10.0.0.1", "10.0.0.2", "10.0.0.3"]).1 ≠
      (shuffle g2 ["10.0.0.1", "10.0.0.2", "10.0.0.3"]).1 :=
  C28_shuffle_not_concentrated ["10.0.0.1", "10.0.0.2", "10.0.0.3"] (by decide) (by decide)

theorem mapSet_ne_nil {κ ν : Type} [DecidableEq κ] (m : List (κ × ν)) (k : κ) (v : ν) :
    mapSet m k v ≠ [] := by
  cases m with
  | nil => simp [mapSet]
  | cons e m =>
    obtain ⟨k1, v1⟩ := e
    by_cases h : k1 = k <;> simp [mapSet, h]

theorem mapSet_absent {κ ν : Type} [DecidableEq κ] (m : List (κ × ν)) (k : κ) (v : ν)
    (h : mapGet m k = none) : mapSet m k v = m ++ [(k, v)] := by
  induction m with
  | nil => rfl
  | cons e m ih =>
    obtain ⟨k1, v1⟩ := e
    by_cases h1 : k1 = k
    · simp [mapGet, h1] at h
    · simp only [mapGet, h1, if_false] at h
      simp [mapSet, h1, ih h]

theorem mapSet_append_absent {κ ν : Type} [DecidableEq κ] (m : List (κ × ν)) (k : κ)
    (v v' : ν) (h : mapGet m k = none) : mapSet (m ++ [(k, v)]) k v' = m ++ [(k, v')] := by
  induction m with
  | nil => simp [mapSet]
  | cons e m ih =>
    obtain ⟨k1, v1⟩ := e
    by_cases h1 : k1 = k
    · simp [mapGet, h1] at h
    · simp only [mapGet, h1, if_false] at h
      simp [mapSet, h1, ih h]

theorem mapGet_append_absent {κ ν : Type} [DecidableEq κ] (m : List (κ × ν)) (k : κ)
    (v : ν) (h : mapGet m k = none) : mapGet (m ++ [(k, v)]) k = some v := by
  induction m with
  | nil => simp [mapGet]
  | cons e m ih =>
    obtain ⟨k1, v1⟩ := e
    by_cases h1 : k1 = k
    · simp [mapGet, h1] at h
    · simp only [mapGet, h1, if_false] at h
      simp [mapGet, h1, ih h]

/-- The function `insertRR` on a record type that the table does not have yet: the
type is added with the one name and the one answer. -/
theorem insertRR_absent (rr : RRs) (e : rrEntry) (h : mapGet rr e.rrType = none) :
    insertRR rr e = rr ++ [(e.rrType, [(e.domain, [e.record])])] := by
  unfold insertRR rrstore.inner
  simp only [h, if_true, mapSet_absent rr e.rrType _ h, mapGet_append_absent rr e.rrType _ h,
    Option.getD_some, mapSet_append_absent rr e.rrType _ _ h]
  rfl

/-- The function `insertRR` on a record type that the table has: the answer is
appended under the name in the map of the type. -/
theorem insertRR_present (rr : RRs) (e : rrEntry) (m0 : List (String × List String))
    (h : mapGet rr e.rrType = some m0) :
    insertRR rr e = mapSet rr e.rrType
      (mapSet m0 e.domain ((mapGet m0 e.domain).getD [] ++ [e.record])) := by
  unfold insertRR rrstore.inner
  simp [h]

theorem insertRR_noEmptyEntries (rr : RRs) (e : rrEntry) (h : noEmptyEntries rr) :
    noEmptyEntries (insertRR rr e) := by
  cases hg : mapGet rr e.rrType with
  | none =>
    rw [insertRR_absent rr e hg]
    intro ty m hm
    rcases List.mem_append.mp hm with hm | hm
    · exact h ty m hm
    · simp only [List.mem_singleton, Prod.mk.injEq] at hm
      rw [hm.2]
      refine ⟨by simp, ?_⟩
      intro name a ha
      simp only [List.mem_singleton, Prod.mk.injEq] at ha
      rw [ha.2]
      simp
  | some m0 =>
    rw [insertRR_present rr e m0 hg]
    intro ty m hm
    rcases mapSet_mem hm with ⟨_, hm⟩ | hm
    · rw [hm]
      refine ⟨mapSet_ne_nil _ _ _, ?_⟩
      intro name a ha
      rcases mapSet_mem ha with ⟨_, ha⟩ | ha
      · rw [ha]
        simp
      · exact (h e.rrType m0 (mapGet_mem hg)).2 name a ha
    · exact h ty m hm

theorem foldl_insertRR_noEmptyEntries (es : List rrEntry) (rr : RRs)
    (h : noEmptyEntries rr) : noEmptyEntries (es.foldl insertRR rr) := by
  induction es generalizing rr with
  | nil => exact h
  | cons e es ih =>
    rw [List.foldl_cons]
    exact ih _ (insertRR_noEmptyEntries rr e h)

/-- C29: no empty entries in a projected table. For every root domain and cluster
state the table exists, every record type present in it has at least one name, and
every name present under a type has a non-empty answer sequence; so a lookup that
finds a pair returns at least one answer. -/
theorem C29_no_empty_entries (d : String) (C : ClusterState) :
    ∃ tbl, rrgen.RRs d C = some tbl ∧
      (∀ ty m, (ty, m) ∈ tbl → m ≠ [] ∧ ∀ name a, (name, a) ∈ m → a ≠ []) ∧
      (∀ ty m, mapGet tbl ty = some m → m ≠ []) ∧
      (∀ ty name a, lookup tbl ty name = some a → a ≠ []) ∧
      (∀ ty name, (rrStore.mk tbl).Get name ty ≠ ([], true)) := by
  have hne : noEmptyEntries
      (((C.filter eligible).flatMap (taskEntries d)).foldl insertRR []) := by
    apply foldl_insertRR_noEmptyEntries
    intro ty m hm
    simp at hm
  have hl : ∀ ty name a,
      lookup (((C.filter eligible).flatMap (taskEntries d)).foldl insertRR []) ty name
        = some a → a ≠ [] := by
    intro ty name a h
    unfold lookup rrstore.inner at h
    cases hg : mapGet (((C.filter eligible).flatMap (taskEntries d)).foldl insertRR []) ty with
    | none => simp [hg, mapGet] at h
    | some m =>
      rw [hg] at h
      exact (hne ty m (mapGet_mem hg)).2 name a (mapGet_mem h)
  refine ⟨_, RRs_eq d C, hne, fun ty m h => (hne ty m (mapGet_mem h)).1, hl, ?_⟩
  intro ty name h
  rw [Get_mk] at h
  cases hk : lookup (((C.filter eligible).flatMap (taskEntries d)).foldl insertRR []) ty name
    with
  | none => simp [hk, getResult] at h
  | some a =>
    rw [hk] at h
    simp only [getResult, Prod.mk.injEq, and_true] at h
    exact hl ty name a hk h

end ShuffleOrderEntriesClaims

/-! ## The refresh engine -/

section RefreshEngine

open refresh spec

theorem setInv_getElem? (s : Engine) (j i : Nat) (w v : Invocation)
    (hv : s.invs[i]? = some v) :
    (s.setInv j w).invs[i]? = some (if j = i then w else v) := by
  have hi : i < s.invs.length := by
    by_contra h
    rw [List.getElem?_eq_none (by omega)] at hv
    cases hv
  unfold Engine.setInv
  simp only [List.getElem?_set]
  by_cases hji : j = i
  · subst hji
    simp [hi]
  · simp [hji, hv]

theorem setInv_errCh (s : Engine) (j : Nat) (w : Invocation) :
    (s.setInv j w).errCh = s.errCh := rfl

/-- A step other than a receive from `errCh` leaves a blocked invocation blocked. -/
theorem step_blockedAt (s s1 : Engine) (i : Nat) (a : Action) (hb : blockedAt s i)
    (ha : a ≠ .recvErr) (hstep : step s a = some s1) : blockedAt s1 i := by
  obtain ⟨hfull, v, hv, hph, hc⟩ := hb
  have hi : i < s.invs.length := by
    by_contra h
    rw [List.getElem?_eq_none (by omega)] at hv
    cases hv
  have hnot : ¬ s.errCh.length < 1 := by omega
  cases a with
  | tick =>
    simp only [step, Option.some.injEq] at hstep
    subst hstep
    exact ⟨hfull, v, by simp [List.getElem?_append_left hi, hv], hph, hc⟩
  | cancel =>
    simp only [step, Option.some.injEq] at hstep
    subst hstep
    exact ⟨hfull, v, hv, hph, hc⟩
  | timerFires j =>
    simp only [step] at hstep
    cases hj : s.invs[j]? with
    | none => simp [hj] at hstep
    | some w =>
      simp only [hj] at hstep
      by_cases ht : w.timer = true
      · simp [ht] at hstep
      · simp only [ht, Bool.false_eq_true, if_false, Option.some.injEq] at hstep
        subst hstep
        refine ⟨hfull, _, setInv_getElem? s j i _ v hv, ?_, ?_⟩
        · by_cases hji : j = i
          · subst hji
            rw [hv] at hj
            cases hj
            simp [hph]
          · simp [hji, hph]
        · by_cases hji : j = i
          · subst hji
            rw [hv] at hj
            cases hj
            simp [hc]
          · simp [hji, hc]
  | fReturns j err =>
    simp only [step] at hstep
    cases hj : s.invs[j]? with
    | none => simp [hj] at hstep
    | some w =>
      simp only [hj] at hstep
      cases hf : w.f with
      | returned e => simp [hf] at hstep
      | running =>
        simp only [hf, Option.some.injEq] at hstep
        subst hstep
        refine ⟨hfull, _, setInv_getElem? s j i _ v hv, ?_, ?_⟩
        · by_cases hji : j = i
          · subst hji
            rw [hv] at hj
            cases hj
            simp [hph]
          · simp [hji, hph]
        · by_cases hji : j = i
          · subst hji
            rw [hv] at hj
            cases hj
            simp [hc]
          · simp [hji, hc]
  | select j c =>
    simp only [step] at hstep
    cases hj : s.invs[j]? with
    | none => simp [hj] at hstep
    | some w =>
      simp only [hj] at hstep
      have hji : j ≠ i := by
        intro e
        subst e
        rw [hv] at hj
        cases hj
        simp [hph] at hstep
      cases hw : w.phase <;> simp only [hw] at hstep <;> try cases hstep
      cases hsel : selectCase s w c with
      | none => simp [hsel] at hstep
      | some w2 =>
        simp only [hsel, Option.map_some', Option.some.injEq] at hstep
        subst hstep
        exact ⟨hfull, _, setInv_getElem? s j i _ v hv, by simp [hji, hph], by simp [hji, hc]⟩
  | advance j =>
    simp only [step] at hstep
    cases hj : s.invs[j]? with
    | none => simp [hj] at hstep
    | some w =>
      simp only [hj] at hstep
      unfold advance at hstep
      cases hw : w.phase with
      | selecting => simp [hw] at hstep
      | ended => simp [hw] at hstep
      | timedOut => simp [hw, hnot] at hstep
      | gotErr e => simp [hw, hnot] at hstep
      | gotDone =>
        have hji : j ≠ i := by
          intro e
          subst e
          rw [hv] at hj
          cases hj
          rw [hph] at hw
          cases hw
        simp only [hw] at hstep
        by_cases hok : s.okCh < 1
        · simp only [hok, if_true, Option.some.injEq] at hstep
          subst hstep
          exact ⟨hfull, _, setInv_getElem? s j i _ v hv, by simp [hji, hph],
            by simp [hji, hc]⟩
        · simp [hok] at hstep
      | closing =>
        have hji : j ≠ i := by
          intro e
          subst e
          rw [hv] at hj
          cases hj
          rw [hph] at hw
          cases hw
        simp only [hw, Option.some.injEq] at hstep
        subst hstep
        exact ⟨hfull, _, setInv_getElem? s j i _ v hv, by simp [hji, hph], by simp [hji, hc]⟩
  | recvErr => exact absurd rfl ha
  | recvOk =>
    simp only [step] at hstep
    by_cases hok : s.okCh > 0
    · simp only [hok, if_true, Option.some.injEq] at hstep
      subst hstep
      exact ⟨hfull, v, hv, hph, hc⟩
    · simp [hok] at hstep

/-- A run without a receive from `errCh` leaves a blocked invocation blocked. -/
theorem run_blockedAt (as : List Action) (s s1 : Engine) (i : Nat) (hb : blockedAt s i)
    (hno : Action.recvErr ∉ as) (hrun : run s as = some s1) : blockedAt s1 i := by
  induction as generalizing s with
  | nil =>
    simp only [run, Option.some.injEq] at hrun
    exact hrun ▸ hb
  | cons a as ih =>
    rw [run] at hrun
    cases hs : step s a with
    | none => simp [hs] at hrun
    | some s2 =>
      simp only [hs] at hrun
      have ha : a ≠ .recvErr := fun e => hno (e ▸ List.mem_cons_self _ _)
      exact ih s2 (step_blockedAt s s2 i a hb ha hs)
        (fun e => hno (List.mem_cons_of_mem _ e)) hrun

/-- The send of a blocked invocation cannot happen. -/
theorem advance_blockedAt (s : Engine) (i : Nat) (hb : blockedAt s i) :
    step s (.advance i) = none := by
  obtain ⟨hfull, v, hv, hph, _⟩ := hb
  have hnot : ¬ s.errCh.length < 1 := by omega
  simp [step, hv, advance, hph, hnot]

end RefreshEngine

/-! ## Claims on the refresh engine and on the entries of the table -/

section RefreshEngineClaims

open refresh spec

/-- C24, as the claim states it, fails: the loop over the ticks does not look at the
cancel signal. After `cancelCh` has been closed, a tick still starts an invocation,
with its `f` running. -/
theorem C24_counterexample :
    (¬ ∀ (as : List Action) (s s1 : Engine), run New as = some s → s.cancelCh = true →
      step s .tick = some s1 → s1.invs.length = s.invs.length) ∧
    run New [.cancel, .tick] =
      some ⟨true, [], 0, [⟨.running, false, false, .selecting⟩]⟩ := by
  refine ⟨?_, by decide⟩
  intro h
  have h1 := h [.cancel] ⟨true, [], 0, []⟩ _ rfl rfl rfl
  revert h1
  decide

/-- C24, amended: closing the upstream cancel signal emits no event and changes no
invocation; once it is closed, every invocation that is still waiting in its select
can take the case of the cancellation and can do nothing else than a select, and the
case of the cancellation closes its `cancelF` and ends the invocation without an event
on the errors or the successes; for an invocation still in flight, its `f` running
and its timer not fired, the case of the cancellation is the only case its select can
take; a tick always starts an invocation of `f`, also after the cancel signal has
fired. -/
theorem C24_upstream_cancellation (s : Engine) :
    step s .cancel = some { s with cancelCh := true } ∧
    (s.cancelCh = true → ∀ i v, s.invs[i]? = some v → v.phase = .selecting →
      run s [.select i .cancel, .advance i] =
        some (s.setInv i { v with cancelF := true, phase := .ended }) ∧
      (s.setInv i { v with cancelF := true, phase := .ended }).errCh = s.errCh ∧
      (s.setInv i { v with cancelF := true, phase := .ended }).okCh = s.okCh ∧
      step s (.advance i) = none ∧
      (v.f = .running → v.timer = false →
        ∀ c, (step s (.select i c)).isSome = true ↔ c = .cancel)) ∧
    step s .tick = some { s with invs := s.invs ++ [⟨.running, false, false, .selecting⟩] } := by
  refine ⟨rfl, ?_, rfl⟩
  intro hc i v hv hph
  refine ⟨?_, rfl, rfl, ?_, ?_⟩
  · have h1 : step s (.select i .cancel) = some (s.setInv i { v with phase := .closing }) := by
      simp [step, hv, hph, selectCase, hc]
    have h2 : (s.setInv i { v with phase := .closing }).invs[i]? =
        some { v with phase := .closing } := by
      rw [setInv_getElem? s i i _ v hv]
      simp
    have h3 : step (s.setInv i { v with phase := .closing }) (.advance i) =
        some (s.setInv i { v with cancelF := true, phase := .ended }) := by
      simp only [step, h2, advance]
      simp [Engine.setInv]
    simp [run, h1, h3]
  · simp [step, hv, advance, hph]
  · intro hf ht c
    cases c <;> simp [step, hv, hph, selectCase, ht, hc, hf]

/-- Witness of C24: one invocation in flight when the cancel signal fires: the case of
the cancellation is the only one its select can take, it ends with its `cancelF`
closed, and no event is emitted. -/
theorem C24_upstream_cancellation_witness :
    run ⟨true, [], 0, [⟨.running, false, false, .selecting⟩]⟩ [.select 0 .cancel, .advance 0] =
      some (Engine.setInv ⟨true, [], 0, [⟨.running, false, false, .selecting⟩]⟩ 0
        ⟨.running, false, true, .ended⟩) ∧
    (Engine.setInv ⟨true, [], 0, [⟨.running, false, false, .selecting⟩]⟩ 0
        ⟨.running, false, true, .ended⟩).errCh = [] ∧
    (Engine.setInv ⟨true, [], 0, [⟨.running, false, false, .selecting⟩]⟩ 0
        ⟨.running, false, true, .ended⟩).okCh = 0 ∧
    step ⟨true, [], 0, [⟨.running, false, false, .selecting⟩]⟩ (.advance 0) = none ∧
    (∀ c, (step ⟨true, [], 0, [⟨.running, false, false, .selecting⟩]⟩
        (.select 0 c)).isSome = true ↔ c = .cancel) :=
  have h := (C24_upstream_cancellation
    ⟨true, [], 0, [⟨.running, false, false, .selecting⟩]⟩).2.1 rfl 0
    ⟨.running, false, false, .selecting⟩ rfl rfl
  ⟨h.1, h.2.1, h.2.2.1, h.2.2.2.1, h.2.2.2.2 rfl rfl⟩

/-- C30, as the claim states it, fails: the engine does not drop an event when the
buffer is full. After two ticks whose invocations both time out, with a consumer that
never receives, the first invocation has sent its error and closed its `cancelF`; the
second cannot send, and through every further run without a receive from the errors
it stays before its send, not ended, its `cancelF` not closed. -/
theorem C30_counterexample :
    (¬ ∀ (as : List Action) (s : Engine) (i : Nat) (v : Invocation),
      run New as = some s → Action.recvErr ∉ as → Action.recvOk ∉ as →
      s.invs[i]? = some v → v.phase = .timedOut → ∃ s1, step s (.advance i) = some s1) ∧
    run New [.tick, .tick, .timerFires 0, .timerFires 1, .select 0 .timeout,
        .select 1 .timeout, .advance 0, .advance 0] =
      some ⟨false, ["refreshing timed out"], 0,
        [⟨.running, true, true, .ended⟩, ⟨.running, true, false, .timedOut⟩]⟩ ∧
    step ⟨false, ["refreshing timed out"], 0,
        [⟨.running, true, true, .ended⟩, ⟨.running, true, false, .timedOut⟩]⟩ (.advance 1)
      = none ∧
    (∀ (as : List Action) (s1 : Engine), Action.recvErr ∉ as →
      run ⟨false, ["refreshing timed out"], 0,
        [⟨.running, true, true, .ended⟩, ⟨.running, true, false, .timedOut⟩]⟩ as = some s1 →
      ∃ v1, s1.invs[1]? = some v1 ∧ v1.phase = .timedOut ∧ v1.cancelF = false) := by
  refine ⟨?_, by decide, by decide, ?_⟩
  · intro h
    obtain ⟨s1, h1⟩ := h [.tick, .tick, .timerFires 0, .timerFires 1, .select 0 .timeout,
      .select 1 .timeout, .advance 0, .advance 0]
      ⟨false, ["refreshing timed out"], 0,
        [⟨.running, true, true, .ended⟩, ⟨.running, true, false, .timedOut⟩]⟩
      1 ⟨.running, true, false, .timedOut⟩ (by decide) (by decide) (by decide) rfl rfl
    have h2 : step ⟨false, ["refreshing timed out"], 0,
        [⟨.running, true, true, .ended⟩, ⟨.running, true, false, .timedOut⟩]⟩ (.advance 1)
        = none := by decide
    rw [h2] at h1
    cases h1
  · intro as s1 hno hrun
    exact (run_blockedAt as ⟨false, ["refreshing timed out"], 0,
      [⟨.running, true, true, .ended⟩, ⟨.running, true, false, .timedOut⟩]⟩ s1 1
      ⟨rfl, ⟨.running, true, false, .timedOut⟩, rfl, rfl, rfl⟩ hno hrun).2

/-- C30, amended: the sends on the errors and on the successes wait when the buffer is
full, they do not drop. An invocation in the case of the timeout finds room in an
empty buffer and sends at once. When the buffer is full it cannot send, and through
every run in which the consumer does not receive from the errors it stays before its
send, its `cancelF` not closed; once the consumer receives, it sends its error and
then closes its `cancelF`. The sends of the cases of `errF` and `doneF` cannot happen
either while their buffer is full. -/
theorem C30_send_waits_on_full_buffer (s s1 : Engine) (i : Nat) (v : Invocation)
    (as : List Action) (hfull : s.errCh.length = 1) (hv : s.invs[i]? = some v)
    (hph : v.phase = .timedOut) (hc : v.cancelF = false)
    (hno : Action.recvErr ∉ as) (hrun : run s as = some s1) :
    step s (.advance i) = none ∧ s1.errCh.length = 1 ∧
    (∃ v1, s1.invs[i]? = some v1 ∧ v1.phase = .timedOut ∧ v1.cancelF = false ∧
      run s1 [.recvErr, .advance i, .advance i] =
        some { s1.setInv i { v1 with cancelF := true, phase := .ended } with
          errCh := ["refreshing timed out"] }) ∧
    (∀ (s0 : Engine) (j : Nat) (w : Invocation), s0.errCh = [] → s0.invs[j]? = some w →
      w.phase = .timedOut →
      step s0 (.advance j) = some { s0.setInv j { w with phase := .closing } with
        errCh := ["refreshing timed out"] }) ∧
    (∀ (s0 : Engine) (j : Nat) (w : Invocation), s0.invs[j]? = some w →
      (w.phase = .gotDone → s0.okCh = 1 → step s0 (.advance j) = none) ∧
      (∀ e, w.phase = .gotErr e → s0.errCh.length = 1 → step s0 (.advance j) = none)) := by
  obtain ⟨g1, v1, g2, g3, g4⟩ := run_blockedAt as s s1 i ⟨hfull, v, hv, hph, hc⟩ hno hrun
  refine ⟨advance_blockedAt s i ⟨hfull, v, hv, hph, hc⟩, g1, ⟨v1, g2, g3, g4, ?_⟩, ?_, ?_⟩
  rotate_left
  · intro s0 j w h0 hw hp
    simp [step, hw, advance, hp, h0, Engine.setInv]
  · intro s0 j w hw
    refine ⟨fun hp hfull0 => ?_, fun e hp hfull0 => ?_⟩
    · simp [step, hw, advance, hp, hfull0]
    · simp [step, hw, advance, hp, hfull0]
  · obtain ⟨x, hx⟩ : ∃ x, s1.errCh = [x] := List.length_eq_one.mp g1
    have hi : i < s1.invs.length := by
      by_contra h
      rw [List.getElem?_eq_none (by omega)] at g2
      cases g2
    have h1 : step s1 .recvErr = some { s1 with errCh := [] } := by
      simp [step, hx]
    have h2 : step ({ s1 with errCh := [] } : Engine) (.advance i) =
        some { s1.setInv i { v1 with phase := .closing } with
          errCh := ["refreshing timed out"] } := by
      simp [step, g2, advance, g3, Engine.setInv]
    have h3 : ({ s1.setInv i { v1 with phase := .closing } with
          errCh := ["refreshing timed out"] } : Engine).invs[i]? =
        some { v1 with phase := .closing } := by
      simp [Engine.setInv, hi]
    have h4 : step ({ s1.setInv i { v1 with phase := .closing } with
          errCh := ["refreshing timed out"] } : Engine) (.advance i) =
        some { s1.setInv i { v1 with cancelF := true, phase := .ended } with
          errCh := ["refreshing timed out"] } := by
      simp only [step, h3, advance]
      simp [Engine.setInv]
    simp [run, h1, h2, h4]

/-- Witness of C30: two ticks, both invocations time out, and the consumer does not
receive. The first invocation sends its timeout error and closes its `cancelF`; the
second one waits on its send, also after `f` has returned, further ticks and the
cancel signal; when the consumer receives, it sends its error and closes its
`cancelF`. -/
theorem C30_send_waits_on_full_buffer_witness :
    run New [.tick, .tick, .timerFires 0, .timerFires 1, .select 0 .timeout,
        .select 1 .timeout, .advance 0, .advance 0] =
      some ⟨false, ["refreshing timed out"], 0,
        [⟨.running, true, true, .ended⟩, ⟨.running, true, false, .timedOut⟩]⟩ ∧
    step ⟨false, ["refreshing timed out"], 0,
        [⟨.running, true, true, .ended⟩, ⟨.running, true, false, .timedOut⟩]⟩ (.advance 1)
      = none ∧
    (⟨true, ["refreshing timed out"], 0,
        [⟨.returned none, true, true, .ended⟩, ⟨.returned none, true, false, .timedOut⟩,
          ⟨.running, false, false, .selecting⟩]⟩ : Engine).errCh.length = 1 ∧
    run ⟨true, ["refreshing timed out"], 0,
        [⟨.returned none, true, true, .ended⟩, ⟨.returned none, true, false, .timedOut⟩,
          ⟨.running, false, false, .selecting⟩]⟩ [.recvErr, .advance 1, .advance 1] =
      some ⟨true, ["refreshing timed out"], 0,
        [⟨.returned none, true, true, .ended⟩, ⟨.returned none, true, true, .ended⟩,
          ⟨.running, false, false, .selecting⟩]⟩ := by
  have h := C30_send_waits_on_full_buffer
    ⟨false, ["refreshing timed out"], 0,
      [⟨.running, true, true, .ended⟩, ⟨.running, true, false, .timedOut⟩]⟩
    ⟨true, ["refreshing timed out"], 0,
      [⟨.returned none, true, true, .ended⟩, ⟨.returned none, true, false, .timedOut⟩,
        ⟨.running, false, false, .selecting⟩]⟩
    1 ⟨.running, true, false, .timedOut⟩
    [.fReturns 0 none, .fReturns 1 none, .tick, .cancel]
    rfl rfl rfl rfl (by decide) (by decide)
  exact ⟨by decide, h.1, h.2.1, by decide⟩

end RefreshEngineClaims

/-! ## The account of the events of the refresh engine -/

section EventAccounting

open refresh spec

theorem countP_set (p : Invocation → Bool) (l : List Invocation) (i : Nat) (v w : Invocation)
    (h : l[i]? = some v) :
    (l.set i w).countP p + (if p v then 1 else 0) = l.countP p + (if p w then 1 else 0) := by
  induction l generalizing i with
  | nil => simp at h
  | cons x xs ih =>
    cases i with
    | zero =>
      simp only [List.getElem?_cons_zero, Option.some.injEq] at h
      subst h
      simp only [List.set_cons_zero, List.countP_cons]
      omega
    | succ i =>
      simp only [List.getElem?_cons_succ] at h
      have := ih i h
      simp only [List.set_cons_succ, List.countP_cons]
      omega

theorem forall_mem_set (P : Invocation → Prop) (l : List Invocation) (i : Nat) (w : Invocation)
    (h : ∀ x ∈ l, P x) (hw : P w) : ∀ x ∈ l.set i w, P x := by
  intro x hx
  rcases List.mem_or_eq_of_mem_set hx with hx | hx
  · exact h x hx
  · exact hx ▸ hw

/-- Replacing an invocation by one that is well formed and has sent the same events
keeps the account. -/
theorem account_set (s : Engine) (i : Nat) (v w : Invocation) (hv : s.invs[i]? = some v)
    (hw : ∀ x ∈ s.invs, wellFormed x = true) (hw1 : wellFormed w = true) :
    (∀ x ∈ (s.setInv i w).invs, wellFormed x = true) ∧
    (s.setInv i w).invs.length = s.invs.length ∧
    (s.setInv i w).invs.countP errSent + (if errSent v then 1 else 0) =
      s.invs.countP errSent + (if errSent w then 1 else 0) ∧
    (s.setInv i w).invs.countP okSent + (if okSent v then 1 else 0) =
      s.invs.countP okSent + (if okSent w then 1 else 0) :=
  ⟨forall_mem_set _ _ _ _ hw hw1, by simp [Engine.setInv], countP_set _ _ _ _ _ hv,
    countP_set _ _ _ _ _ hv⟩

/-- One step without upstream cancellation keeps the account: a tick adds one
invocation, and the events in the buffers and received so far are the events of the
invocations that have sent. -/
theorem step_account (s s1 : Engine) (a : Action) (hstep : step s a = some s1)
    (hc : s.cancelCh = false) (ha : a ≠ .cancel)
    (hw : ∀ v ∈ s.invs, wellFormed v = true) :
    s1.cancelCh = false ∧ (∀ v ∈ s1.invs, wellFormed v = true) ∧
    s1.invs.length = s.invs.length + (if a = .tick then 1 else 0) ∧
    s1.errCh.length + (if a = .recvErr then 1 else 0) + s.invs.countP errSent =
      s.errCh.length + s1.invs.countP errSent ∧
    s1.okCh + (if a = .recvOk then 1 else 0) + s.invs.countP okSent =
      s.okCh + s1.invs.countP okSent := by
  cases a with
  | tick =>
    simp only [step, Option.some.injEq] at hstep
    subst hstep
    refine ⟨hc, ?_, by simp, ?_, ?_⟩
    · intro v hv
      rcases List.mem_append.mp hv with hv | hv
      · exact hw v hv
      · rw [List.mem_singleton.mp hv]
        rfl
    · simp [List.countP_append, errSent]
    · simp [List.countP_append, okSent]
  | cancel => exact absurd rfl ha
  | timerFires j =>
    simp only [step] at hstep
    cases hj : s.invs[j]? with
    | none => simp [hj] at hstep
    | some v =>
      simp only [hj] at hstep
      by_cases ht : v.timer = true
      · simp [ht] at hstep
      · simp only [ht, Bool.false_eq_true, if_false, Option.some.injEq] at hstep
        subst hstep
        have hwv := hw v (List.mem_iff_getElem?.mpr ⟨_, hj⟩)
        have hw1 : wellFormed { v with timer := true } = true := by
          unfold wellFormed at hwv ⊢
          cases hp : v.phase <;> simp_all
        obtain ⟨h1, h2, h3, h4⟩ := account_set s j v _ hj hw hw1
        have e1 : errSent { v with timer := true } = errSent v := rfl
        have e2 : okSent { v with timer := true } = okSent v := rfl
        rw [e1] at h3
        rw [e2] at h4
        refine ⟨hc, h1, by simpa using h2, ?_, ?_⟩
        · simp only [setInv_errCh, reduceCtorEq, if_false]
          omega
        · have : (s.setInv j { v with timer := true }).okCh = s.okCh := rfl
          simp only [this, reduceCtorEq, if_false]
          omega
  | fReturns j err =>
    simp only [step] at hstep
    cases hj : s.invs[j]? with
    | none => simp [hj] at hstep
    | some v =>
      simp only [hj] at hstep
      cases hf : v.f with
      | returned e => simp [hf] at hstep
      | running =>
        simp only [hf, Option.some.injEq] at hstep
        subst hstep
        have hwv := hw v (List.mem_iff_getElem?.mpr ⟨_, hj⟩)
        have hw1 : wellFormed { v with f := .returned err } = true := by
          unfold wellFormed at hwv ⊢
          cases hp : v.phase <;> simp_all
        obtain ⟨h1, h2, h3, h4⟩ := account_set s j v _ hj hw hw1
        have e1 : errSent { v with f := .returned err } = errSent v := by
          unfold wellFormed at hwv
          unfold errSent
          cases hp : v.phase <;> simp_all [isErr]
        have e2 : okSent { v with f := .returned err } = okSent v := by
          unfold wellFormed at hwv
          unfold okSent
          cases hp : v.phase <;> simp_all
        rw [e1] at h3
        rw [e2] at h4
        refine ⟨hc, h1, by simpa using h2, ?_, ?_⟩
        · simp only [setInv_errCh, reduceCtorEq, if_false]
          omega
        · have : (s.setInv j { v with f := .returned err }).okCh = s.okCh := rfl
          simp only [this, reduceCtorEq, if_false]
          omega
  | select j c =>
    simp only [step] at hstep
    cases hj : s.invs[j]? with
    | none => simp [hj] at hstep
    | some v =>
      simp only [hj] at hstep
      cases hp : v.phase <;> simp only [hp] at hstep <;> try cases hstep
      cases hsel : selectCase s v c with
      | none => simp [hsel] at hstep
      | some w =>
        simp only [hsel, Option.map_some', Option.some.injEq] at hstep
        subst hstep
        have hwv := hw v (List.mem_iff_getElem?.mpr ⟨_, hj⟩)
        have hfacts : wellFormed w = true ∧ errSent w = false ∧ okSent w = false := by
          unfold wellFormed at hwv
          rw [hp] at hwv
          cases c with
          | timeout =>
            simp only [selectCase] at hsel
            by_cases ht : v.timer = true
            · simp only [ht, if_true, Option.some.injEq] at hsel
              subst hsel
              simp_all [wellFormed, errSent, okSent]
            · simp [ht] at hsel
          | cancel => simp [selectCase, hc] at hsel
          | err =>
            simp only [selectCase] at hsel
            cases hf : v.f with
            | running => simp [hf] at hsel
            | returned r =>
              cases r with
              | none => simp [hf] at hsel
              | some e =>
                simp only [hf, Option.some.injEq] at hsel
                subst hsel
                simp_all [wellFormed, errSent, okSent]
          | done =>
            simp only [selectCase] at hsel
            cases hf : v.f with
            | running => simp [hf] at hsel
            | returned r =>
              cases r with
              | some e => simp [hf] at hsel
              | none =>
                simp only [hf, Option.some.injEq] at hsel
                subst hsel
                simp_all [wellFormed, errSent, okSent]
        obtain ⟨hw1, e1, e2⟩ := hfacts
        obtain ⟨h1, h2, h3, h4⟩ := account_set s j v w hj hw hw1
        have e3 : errSent v = false := by simp [errSent, hp]
        have e4 : okSent v = false := by simp [okSent, hp]
        rw [e1, e3] at h3
        rw [e2, e4] at h4
        refine ⟨hc, h1, by simpa using h2, ?_, ?_⟩
        · simp only [setInv_errCh, reduceCtorEq, if_false]
          simp only [Bool.false_eq_true, if_false] at h3
          omega
        · have : (s.setInv j w).okCh = s.okCh := rfl
          simp only [this, reduceCtorEq, if_false]
          simp only [Bool.false_eq_true, if_false] at h4
          omega
  | advance j =>
    simp only [step] at hstep
    cases hj : s.invs[j]? with
    | none => simp [hj] at hstep
    | some v =>
      simp only [hj] at hstep
      have hwv := hw v (List.mem_iff_getElem?.mpr ⟨_, hj⟩)
      unfold wellFormed at hwv
      unfold advance at hstep
      cases hp : v.phase with
      | selecting => simp [hp] at hstep
      | ended => simp [hp] at hstep
      | timedOut =>
        simp only [hp] at hstep hwv
        by_cases hroom : s.errCh.length < 1
        · simp only [hroom, if_true, Option.some.injEq] at hstep
          subst hstep
          have hw1 : wellFormed { v with phase := .closing } = true := by
            simp_all [wellFormed]
          obtain ⟨h1, h2, h3, h4⟩ := account_set s j v _ hj hw hw1
          have e1 : errSent { v with phase := .closing } = true := rfl
          have e2 : okSent { v with phase := .closing } = false := rfl
          have e3 : errSent v = false := by simp [errSent, hp]
          have e4 : okSent v = false := by simp [okSent, hp]
          rw [e1, e3] at h3
          rw [e2, e4] at h4
          simp only [Bool.false_eq_true, if_false, if_true] at h3 h4
          refine ⟨hc, h1, by simpa using h2, ?_, ?_⟩
          · simp only [List.length_append, List.length_singleton, reduceCtorEq, if_false]
            have : (s.setInv j { v with phase := .closing }).errCh = s.errCh := rfl
            omega
          · simp only [reduceCtorEq, if_false]
            have : (s.setInv j { v with phase := .closing }).okCh = s.okCh := rfl
            omega
        · simp [hroom] at hstep
      | gotErr e =>
        simp only [hp] at hstep hwv
        by_cases hroom : s.errCh.length < 1
        · simp only [hroom, if_true, Option.some.injEq] at hstep
          subst hstep
          simp only [Bool.and_eq_true, Bool.not_eq_true', decide_eq_true_eq] at hwv
          have hw1 : wellFormed { v with phase := .ended } = true := by
            simp [wellFormed, hwv.1, hwv.2]
          obtain ⟨h1, h2, h3, h4⟩ := account_set s j v _ hj hw hw1
          have e1 : errSent { v with phase := .ended } = true := by
            simp [errSent, hwv.2, isErr]
          have e2 : okSent { v with phase := .ended } = false := by
            simp [okSent, hwv.2]
          have e3 : errSent v = false := by simp [errSent, hp]
          have e4 : okSent v = false := by simp [okSent, hp]
          rw [e1, e3] at h3
          rw [e2, e4] at h4
          simp only [Bool.false_eq_true, if_false, if_true] at h3 h4
          refine ⟨hc, h1, by simpa using h2, ?_, ?_⟩
          · simp only [List.length_append, List.length_singleton, reduceCtorEq, if_false]
            have : (s.setInv j { v with phase := .ended }).errCh = s.errCh := rfl
            omega
          · simp only [reduceCtorEq, if_false]
            have : (s.setInv j { v with phase := .ended }).okCh = s.okCh := rfl
            omega
        · simp [hroom] at hstep
      | gotDone =>
        simp only [hp] at hstep hwv
        by_cases hroom : s.okCh < 1
        · simp only [hroom, if_true, Option.some.injEq] at hstep
          subst hstep
          simp only [Bool.and_eq_true, Bool.not_eq_true', decide_eq_true_eq] at hwv
          have hw1 : wellFormed { v with phase := .ended } = true := by
            simp [wellFormed, hwv.1, hwv.2]
          obtain ⟨h1, h2, h3, h4⟩ := account_set s j v _ hj hw hw1
          have e1 : errSent { v with phase := .ended } = false := by
            simp [errSent, hwv.1, hwv.2, isErr]
          have e2 : okSent { v with phase := .ended } = true := by
            simp [okSent, hwv.1, hwv.2]
          have e3 : errSent v = false := by simp [errSent, hp]
          have e4 : okSent v = false := by simp [okSent, hp]
          rw [e1, e3] at h3
          rw [e2, e4] at h4
          simp only [Bool.false_eq_true, if_false, if_true] at h3 h4
          refine ⟨hc, h1, by simpa using h2, ?_, ?_⟩
          · simp only [reduceCtorEq, if_false]
            have : (s.setInv j { v with phase := .ended }).errCh = s.errCh := rfl
            rw [this]
            omega
          · simp only [reduceCtorEq, if_false]
            have : (s.setInv j { v with phase := .ended }).okCh = s.okCh := rfl
            omega
        · simp [hroom] at hstep
      | closing =>
        simp only [hp, Option.some.injEq] at hstep hwv
        subst hstep
        simp only [Bool.and_eq_true, Bool.not_eq_true'] at hwv
        have hw1 : wellFormed { v with cancelF := true, phase := .ended } = true := by
          simp [wellFormed, hwv.2]
        obtain ⟨h1, h2, h3, h4⟩ := account_set s j v _ hj hw hw1
        have e1 : errSent { v with cancelF := true, phase := .ended } = true := by
          simp [errSent]
        have e2 : okSent { v with cancelF := true, phase := .ended } = false := by
          simp [okSent]
        have e3 : errSent v = true := by simp [errSent, hp]
        have e4 : okSent v = false := by simp [okSent, hp]
        rw [e1, e3] at h3
        rw [e2, e4] at h4
        simp only [Bool.false_eq_true, if_false, if_true] at h3 h4
        refine ⟨hc, h1, by simpa using h2, ?_, ?_⟩
        · simp only [reduceCtorEq, if_false, setInv_errCh]
          omega
        · simp only [reduceCtorEq, if_false]
          have : (s.setInv j { v with cancelF := true, phase := .ended }).okCh = s.okCh := rfl
          omega
  | recvErr =>
    simp only [step] at hstep
    cases he : s.errCh with
    | nil => simp [he] at hstep
    | cons x rest =>
      simp only [he, Option.some.injEq] at hstep
      subst hstep
      refine ⟨hc, hw, by simp, ?_, ?_⟩
      · simp only [if_true, List.length_cons]
      · simp
  | recvOk =>
    simp only [step] at hstep
    by_cases hok : s.okCh > 0
    · simp only [hok, if_true, Option.some.injEq] at hstep
      subst hstep
      refine ⟨hc, hw, by simp, ?_, ?_⟩
      · simp
      · simp only [if_true]
        omega
    · simp [hok] at hstep

/-- A run without upstream cancellation keeps the account. -/
theorem run_account (as : List Action) (s s1 : Engine) (hrun : run s as = some s1)
    (hc : s.cancelCh = false) (hnc : Action.cancel ∉ as)
    (hw : ∀ v ∈ s.invs, wellFormed v = true) :
    s1.cancelCh = false ∧ (∀ v ∈ s1.invs, wellFormed v = true) ∧
    s1.invs.length = s.invs.length + as.count .tick ∧
    s1.errCh.length + as.count .recvErr + s.invs.countP errSent =
      s.errCh.length + s1.invs.countP errSent ∧
    s1.okCh + as.count .recvOk + s.invs.countP okSent =
      s.okCh + s1.invs.countP okSent := by
  induction as generalizing s with
  | nil =>
    simp only [run, Option.some.injEq] at hrun
    subst hrun
    exact ⟨hc, hw, by simp, by simp, by simp⟩
  | cons a as ih =>
    rw [run] at hrun
    cases hs : step s a with
    | none => simp [hs] at hrun
    | some s2 =>
      simp only [hs] at hrun
      have ha : a ≠ .cancel := fun e => hnc (e ▸ List.mem_cons_self _ _)
      obtain ⟨h1, h2, h3, h4, h5⟩ := step_account s s2 a hs hc ha hw
      obtain ⟨g1, g2, g3, g4, g5⟩ :=
        ih s2 hrun h1 (fun e => hnc (List.mem_cons_of_mem _ e)) h2
      refine ⟨g1, g2, ?_, ?_, ?_⟩
      · rw [g3, h3, List.count_cons]
        simp only [beq_iff_eq]
        by_cases e : a = .tick
        · simp only [e, if_true]
          omega
        · have e1 : ¬ Action.tick = a := fun h => e h.symm
          simp only [e, e1, if_false]
          omega
      · rw [List.count_cons]
        simp only [beq_iff_eq]
        by_cases e : a = .recvErr
        · simp only [e, if_true] at h4 ⊢
          omega
        · have e1 : ¬ Action.recvErr = a := fun h => e h.symm
          simp only [e, e1, if_false] at h4 ⊢
          omega
      · rw [List.count_cons]
        simp only [beq_iff_eq]
        by_cases e : a = .recvOk
        · simp only [e, if_true] at h5 ⊢
          omega
        · have e1 : ¬ Action.recvOk = a := fun h => e h.symm
          simp only [e, e1, if_false] at h5 ⊢
          omega

/-- A well-formed invocation has sent an event exactly when it is past its send, and
never both an error and a success. -/
theorem sent_iff (v : Invocation) (hw : wellFormed v = true) :
    ((errSent v = true ∨ okSent v = true) ↔ (v.phase = .closing ∨ v.phase = .ended)) ∧
    ¬ (errSent v = true ∧ okSent v = true) := by
  unfold wellFormed at hw
  unfold errSent okSent
  cases hp : v.phase <;> simp only [hp] at hw ⊢
  all_goals
    cases hf : v.f with
    | running => cases hcf : v.cancelF <;> simp_all [isErr]
    | returned r => cases r <;> cases hcf : v.cancelF <;> simp_all [isErr]

theorem countP_all_ended (l : List Invocation)
    (h : ∀ v ∈ l, wellFormed v = true ∧ v.phase = .ended) :
    l.countP errSent + l.countP okSent = l.length := by
  induction l with
  | nil => rfl
  | cons x xs ih =>
    have hx := h x (List.mem_cons_self _ _)
    have ih1 := ih (fun v hv => h v (List.mem_cons_of_mem _ hv))
    obtain ⟨h1, h2⟩ := sent_iff x hx.1
    have h3 := h1.mpr (Or.inr hx.2)
    simp only [List.countP_cons, List.length_cons]
    cases he : errSent x <;> cases ho : okSent x <;> simp_all <;> omega

theorem step_quiet (s s1 : Engine) (a : Action) (hstep : step s a = some s1)
    (hq : quiet a = true) (h : ∀ v ∈ s.invs, v.timer = false ∧ isErr v.f = false) :
    ∀ v ∈ s1.invs, v.timer = false ∧ isErr v.f = false := by
  cases a with
  | tick =>
    simp only [step, Option.some.injEq] at hstep
    subst hstep
    intro v hv
    rcases List.mem_append.mp hv with hv | hv
    · exact h v hv
    · rw [List.mem_singleton.mp hv]
      exact ⟨rfl, rfl⟩
  | cancel =>
    simp only [step, Option.some.injEq] at hstep
    subst hstep
    exact h
  | timerFires j => cases hq
  | fReturns j err =>
    cases err with
    | some e => cases hq
    | none =>
      simp only [step] at hstep
      cases hj : s.invs[j]? with
      | none => simp [hj] at hstep
      | some v =>
        simp only [hj] at hstep
        cases hf : v.f with
        | returned e => simp [hf] at hstep
        | running =>
          simp only [hf, Option.some.injEq] at hstep
          subst hstep
          have hv := h v (List.mem_iff_getElem?.mpr ⟨_, hj⟩)
          exact forall_mem_set _ _ _ _ h ⟨hv.1, rfl⟩
  | select j c =>
    simp only [step] at hstep
    cases hj : s.invs[j]? with
    | none => simp [hj] at hstep
    | some v =>
      simp only [hj] at hstep
      have hv := h v (List.mem_iff_getElem?.mpr ⟨_, hj⟩)
      cases hp : v.phase <;> simp only [hp] at hstep <;> try cases hstep
      cases hsel : selectCase s v c with
      | none => simp [hsel] at hstep
      | some w =>
        simp only [hsel, Option.map_some', Option.some.injEq] at hstep
        subst hstep
        have hw : w.timer = v.timer ∧ w.f = v.f := by
          cases c <;> simp only [selectCase] at hsel
          · split at hsel
            · cases hsel
              exact ⟨rfl, rfl⟩
            · cases hsel
          · split at hsel
            · cases hsel
              exact ⟨rfl, rfl⟩
            · cases hsel
          · split at hsel
            · cases hsel
              exact ⟨rfl, rfl⟩
            · cases hsel
          · split at hsel
            · cases hsel
              exact ⟨rfl, rfl⟩
            · cases hsel
        exact forall_mem_set _ _ _ _ h ⟨hw.1 ▸ hv.1, hw.2 ▸ hv.2⟩
  | advance j =>
    simp only [step] at hstep
    cases hj : s.invs[j]? with
    | none => simp [hj] at hstep
    | some v =>
      simp only [hj] at hstep
      have hv := h v (List.mem_iff_getElem?.mpr ⟨_, hj⟩)
      unfold advance at hstep
      cases hp : v.phase with
      | selecting => simp [hp] at hstep
      | ended => simp [hp] at hstep
      | timedOut =>
        simp only [hp] at hstep
        by_cases hroom : s.errCh.length < 1
        · simp only [hroom, if_true, Option.some.injEq] at hstep
          subst hstep
          exact forall_mem_set _ _ _ _ h hv
        · simp [hroom] at hstep
      | gotErr e =>
        simp only [hp] at hstep
        by_cases hroom : s.errCh.length < 1
        · simp only [hroom, if_true, Option.some.injEq] at hstep
          subst hstep
          exact forall_mem_set _ _ _ _ h hv
        · simp [hroom] at hstep
      | gotDone =>
        simp only [hp] at hstep
        by_cases hroom : s.okCh < 1
        · simp only [hroom, if_true, Option.some.injEq] at hstep
          subst hstep
          exact forall_mem_set _ _ _ _ h hv
        · simp [hroom] at hstep
      | closing =>
        simp only [hp, Option.some.injEq] at hstep
        subst hstep
        exact forall_mem_set _ _ _ _ h hv
  | recvErr =>
    simp only [step] at hstep
    cases he : s.errCh with
    | nil => simp [he] at hstep
    | cons x rest =>
      simp only [he, Option.some.injEq] at hstep
      subst hstep
      exact h
  | recvOk =>
    simp only [step] at hstep
    by_cases hok : s.okCh > 0
    · simp only [hok, if_true, Option.some.injEq] at hstep
      subst hstep
      exact h
    · simp [hok] at hstep

theorem run_quiet (as : List Action) (s s1 : Engine) (hrun : run s as = some s1)
    (hq : ∀ a ∈ as, quiet a = true) (h : ∀ v ∈ s.invs, v.timer = false ∧ isErr v.f = false) :
    ∀ v ∈ s1.invs, v.timer = false ∧ isErr v.f = false := by
  induction as generalizing s with
  | nil =>
    simp only [run, Option.some.injEq] at hrun
    exact hrun ▸ h
  | cons a as ih =>
    rw [run] at hrun
    cases hs : step s a with
    | none => simp [hs] at hrun
    | some s2 =>
      simp only [hs] at hrun
      exact ih s2 hrun (fun b hb => hq b (List.mem_cons_of_mem _ hb))
        (step_quiet s s2 a hs (hq a (List.mem_cons_self _ _)) h)

/-- A well-formed invocation whose timer has not fired and whose `f` has not failed has
sent no error. -/
theorem errSent_quiet (v : Invocation) (hw : wellFormed v = true)
    (hq : v.timer = false ∧ isErr v.f = false) : errSent v = false := by
  unfold wellFormed at hw
  unfold errSent
  cases hp : v.phase <;> simp only [hp] at hw ⊢ <;> simp_all

/-- The select of an invocation whose `f` has returned nil, before the timeout and
without cancellation, takes the case of `doneF` and no other. -/
theorem select_done_first (s : Engine) (i : Nat) (v : Invocation) (hc : s.cancelCh = false)
    (hv : s.invs[i]? = some v) (hp : v.phase = .selecting) (ht : v.timer = false)
    (hf : v.f = .returned none) :
    (∀ c, (step s (.select i c)).isSome = true ↔ c = .done) ∧
    (s.okCh = 0 → run s [.select i .done, .advance i] =
      some { s.setInv i { v with phase := .ended } with okCh := 1 }) := by
  constructor
  · intro c
    cases c <;> simp [step, hv, hp, selectCase, ht, hc, hf]
  · intro hroom
    have h1 : step s (.select i .done) = some (s.setInv i { v with phase := .gotDone }) := by
      simp [step, hv, hp, selectCase, hf]
    have h2 : (s.setInv i { v with phase := .gotDone }).invs[i]? =
        some { v with phase := .gotDone } := by
      rw [setInv_getElem? s i i _ v hv]
      simp
    have h3 : step (s.setInv i { v with phase := .gotDone }) (.advance i) =
        some { s.setInv i { v with phase := .ended } with okCh := 1 } := by
      simp only [step, h2, advance]
      have : (s.setInv i { v with phase := .gotDone }).okCh = 0 := hroom
      simp [this, Engine.setInv, hroom]
    simp [run, h1, h3]

/-- The select of an invocation whose `f` has returned an error, before the timeout and
without cancellation, takes the case of `errF` and no other. -/
theorem select_err_first (s : Engine) (i : Nat) (v : Invocation) (e : String)
    (hc : s.cancelCh = false) (hv : s.invs[i]? = some v) (hp : v.phase = .selecting)
    (ht : v.timer = false) (hf : v.f = .returned (some e)) :
    (∀ c, (step s (.select i c)).isSome = true ↔ c = .err) ∧
    (s.errCh = [] → run s [.select i .err, .advance i] =
      some { s.setInv i { v with phase := .ended } with errCh := [e] }) := by
  constructor
  · intro c
    cases c <;> simp [step, hv, hp, selectCase, ht, hc, hf]
  · intro hroom
    have h1 : step s (.select i .err) = some (s.setInv i { v with phase := .gotErr e }) := by
      simp [step, hv, hp, selectCase, hf]
    have h2 : (s.setInv i { v with phase := .gotErr e }).invs[i]? =
        some { v with phase := .gotErr e } := by
      rw [setInv_getElem? s i i _ v hv]
      simp
    have h3 : step (s.setInv i { v with phase := .gotErr e }) (.advance i) =
        some { s.setInv i { v with phase := .ended } with errCh := [e] } := by
      simp only [step, h2, advance]
      have : (s.setInv i { v with phase := .gotErr e }).errCh = [] := hroom
      simp [this, Engine.setInv, hroom]
    simp [run, h1, h3]

/-- The select of an invocation whose timer has fired while `f` is running, without
cancellation, takes the case of the timeout and no other. -/
theorem select_timeout_first (s : Engine) (i : Nat) (v : Invocation)
    (hc : s.cancelCh = false) (hv : s.invs[i]? = some v) (hp : v.phase = .selecting)
    (ht : v.timer = true) (hf : v.f = .running) :
    (∀ c, (step s (.select i c)).isSome = true ↔ c = .timeout) ∧
    (s.errCh = [] → run s [.select i .timeout, .advance i, .advance i] =
      some { s.setInv i { v with cancelF := true, phase := .ended } with
        errCh := ["refreshing timed out"] }) := by
  constructor
  · intro c
    cases c <;> simp [step, hv, hp, selectCase, ht, hc, hf]
  · intro hroom
    have h1 : step s (.select i .timeout) = some (s.setInv i { v with phase := .timedOut }) := by
      simp [step, hv, hp, selectCase, ht]
    have h2 : (s.setInv i { v with phase := .timedOut }).invs[i]? =
        some { v with phase := .timedOut } := by
      rw [setInv_getElem? s i i _ v hv]
      simp
    have h3 : step (s.setInv i { v with phase := .timedOut }) (.advance i) =
        some { s.setInv i { v with phase := .closing } with
          errCh := ["refreshing timed out"] } := by
      simp only [step, h2, advance]
      have : (s.setInv i { v with phase := .timedOut }).errCh = [] := hroom
      simp [this, Engine.setInv, hroom]
    have hi : i < s.invs.length := by
      by_contra h
      rw [List.getElem?_eq_none (by omega)] at hv
      cases hv
    have h4 : ({ s.setInv i { v with phase := .closing } with
          errCh := ["refreshing timed out"] } : Engine).invs[i]? =
        some { v with phase := .closing } := by
      simp [Engine.setInv, hi]
    have h5 : step ({ s.setInv i { v with phase := .closing } with
          errCh := ["refreshing timed out"] } : Engine) (.advance i) =
        some { s.setInv i { v with cancelF := true, phase := .ended } with
          errCh := ["refreshing timed out"] } := by
      simp only [step, h4, advance]
      simp [Engine.setInv]
    simp [run, h1, h3, h5]

theorem run_append (s : Engine) (as bs : List Action) :
    run s (as ++ bs) = (run s as).bind fun s1 => run s1 bs := by
  induction as generalizing s with
  | nil => rfl
  | cons a as ih =>
    simp only [List.cons_append, run]
    cases step s a with
    | none => rfl
    | some s2 => exact ih s2

/-- A consumer that receives empties the buffer of the errors. -/
theorem run_drainErr (s : Engine) :
    run s (List.replicate s.errCh.length .recvErr) = some { s with errCh := [] } := by
  obtain ⟨c, e, o, l⟩ := s
  induction e with
  | nil => rfl
  | cons x xs ih =>
    simp only [List.length_cons, List.replicate_succ, run, step]
    exact ih

/-- A consumer that receives empties the buffer of the successes. -/
theorem run_drainOk (s : Engine) :
    run s (List.replicate s.okCh .recvOk) = some { s with okCh := 0 } := by
  obtain ⟨c, e, o, l⟩ := s
  induction o with
  | zero => rfl
  | succ n ih =>
    simp only [List.replicate_succ, run, step]
    simp only [gt_iff_lt, Nat.zero_lt_succ, if_true, Nat.add_sub_cancel]
    exact ih

theorem getElem?_lt {l : List Invocation} {i : Nat} {v : Invocation} (h : l[i]? = some v) :
    i < l.length := by
  by_contra hn
  rw [List.getElem?_eq_none (by omega)] at h
  cases h

/-- An invocation past its select comes to its end when the consumer receives: the
consumer makes room, the invocation sends, and after the case of the timeout it closes
`cancelF`. -/
theorem completes_after_select (s : Engine) (i : Nat) (v : Invocation)
    (hv : s.invs[i]? = some v) (hp : v.phase ≠ .selecting) (he : v.phase ≠ .ended) :
    ∃ as1 s1 v1, run s as1 = some s1 ∧ Action.cancel ∉ as1 ∧ s1.invs[i]? = some v1 ∧
      v1.phase = .ended := by
  have hi := getElem?_lt hv
  cases hph : v.phase with
  | selecting => exact absurd hph hp
  | ended => exact absurd hph he
  | closing =>
    refine ⟨[.advance i], s.setInv i { v with cancelF := true, phase := .ended }, _, ?_,
      by simp, setInv_getElem? s i i _ v hv, by simp⟩
    simp [run, step, hv, advance, hph]
  | timedOut =>
    refine ⟨List.replicate s.errCh.length .recvErr ++ [.advance i, .advance i],
      { s.setInv i { v with cancelF := true, phase := .ended } with
        errCh := ["refreshing timed out"] },
      { v with cancelF := true, phase := .ended }, ?_, ?_, ?_, rfl⟩
    · rw [run_append, run_drainErr]
      simp only [Option.some_bind]
      have h1 : step ({ s with errCh := [] } : Engine) (.advance i) =
          some { s.setInv i { v with phase := .closing } with
            errCh := ["refreshing timed out"] } := by
        simp [step, hv, advance, hph, Engine.setInv]
      have h2 : ({ s.setInv i { v with phase := .closing } with
            errCh := ["refreshing timed out"] } : Engine).invs[i]? =
          some { v with phase := .closing } := by
        simp [Engine.setInv, hi]
      have h3 : step ({ s.setInv i { v with phase := .closing } with
            errCh := ["refreshing timed out"] } : Engine) (.advance i) =
          some { s.setInv i { v with cancelF := true, phase := .ended } with
            errCh := ["refreshing timed out"] } := by
        simp only [step, h2, advance]
        simp [Engine.setInv]
      simp [run, h1, h3]
    · simp [List.mem_replicate]
    · simp [Engine.setInv, hi]
  | gotErr e =>
    refine ⟨List.replicate s.errCh.length .recvErr ++ [.advance i],
      { s.setInv i { v with phase := .ended } with errCh := [e] },
      { v with phase := .ended }, ?_, ?_, ?_, rfl⟩
    · rw [run_append, run_drainErr]
      simp only [Option.some_bind]
      have h1 : step ({ s with errCh := [] } : Engine) (.advance i) =
          some { s.setInv i { v with phase := .ended } with errCh := [e] } := by
        simp [step, hv, advance, hph, Engine.setInv]
      simp [run, h1]
    · simp [List.mem_replicate]
    · simp [Engine.setInv, hi]
  | gotDone =>
    refine ⟨List.replicate s.okCh .recvOk ++ [.advance i],
      { s.setInv i { v with phase := .ended } with okCh := 1 },
      { v with phase := .ended }, ?_, ?_, ?_, rfl⟩
    · rw [run_append, run_drainOk]
      simp only [Option.some_bind]
      have h1 : step ({ s with okCh := 0 } : Engine) (.advance i) =
          some { s.setInv i { v with phase := .ended } with okCh := 1 } := by
        simp [step, hv, advance, hph, Engine.setInv]
      simp [run, h1]
    · simp [List.mem_replicate]
    · simp [Engine.setInv, hi]

/-- An invocation that is not at its end, and for which the timer has fired or `f` has
returned when it still waits in its select, comes to its end when the consumer
receives. -/
theorem completes (s : Engine) (i : Nat) (v : Invocation) (hv : s.invs[i]? = some v)
    (he : v.phase ≠ .ended) (hready : v.phase = .selecting → v.timer = true ∨ v.f ≠ .running) :
    ∃ as1 s1 v1, run s as1 = some s1 ∧ Action.cancel ∉ as1 ∧ s1.invs[i]? = some v1 ∧
      v1.phase = .ended := by
  by_cases hp : v.phase = .selecting
  · have hsel : ∃ c w, step s (.select i c) = some (s.setInv i w) ∧ w.phase ≠ .selecting ∧
        w.phase ≠ .ended := by
      rcases hready hp with ht | hf
      · exact ⟨.timeout, { v with phase := .timedOut },
          by simp [step, hv, hp, selectCase, ht], by simp, by simp⟩
      · cases hfv : v.f with
        | running => exact absurd hfv hf
        | returned r =>
          cases r with
          | none =>
            exact ⟨.done, { v with phase := .gotDone },
              by simp [step, hv, hp, selectCase, hfv], by simp, by simp⟩
          | some e =>
            exact ⟨.err, { v with phase := .gotErr e },
              by simp [step, hv, hp, selectCase, hfv], by simp, by simp⟩
    obtain ⟨c, w, h1, h2, h3⟩ := hsel
    have hw : (s.setInv i w).invs[i]? = some w := by
      rw [setInv_getElem? s i i _ v hv]
      simp
    obtain ⟨as1, s1, v1, g1, g2, g3, g4⟩ := completes_after_select (s.setInv i w) i w hw h2 h3
    refine ⟨.select i c :: as1, s1, v1, ?_, ?_, g3, g4⟩
    · simp [run, h1, g1]
    · simp [g2]
  · exact completes_after_select s i v hv hp he

end EventAccounting

section EventAccountingClaim

open refresh spec

/-- C19: in a run of the refresh engine without upstream cancellation, each tick starts
exactly one invocation; the errors in the buffer and received so far are as many as the
invocations that have sent an error, and likewise the successes; an invocation has sent
an event exactly when it is past its send, and never both an error and a success, so
that when all invocations have ended the events are as many as the ticks. Which event
it is is decided by what happens first: the select of an invocation whose `f` has
returned nil before the timeout takes the case of `doneF` and no other, and sends a
success; when `f` has returned an error before the timeout it takes the case of `errF`
and sends that error; when the timer has fired while `f` runs it takes the case of
the timeout and sends the error refreshing timed out, no success, and closes
`cancelF`. Hence in a run where no timer fires and `f` never fails no error is sent,
and when all invocations have ended the successes are as many as the ticks. And every
invocation for which the timer has fired or `f` has returned comes to its end, having
sent exactly one event, in a continuation of the run in which the consumer receives. -/
theorem C19_event_accounting (as : List Action) (s : Engine) (hrun : run New as = some s)
    (hnc : Action.cancel ∉ as) :
    s.invs.length = as.count .tick ∧
    s.errCh.length + as.count .recvErr = s.invs.countP errSent ∧
    s.okCh + as.count .recvOk = s.invs.countP okSent ∧
    (∀ v ∈ s.invs,
      ((errSent v = true ∨ okSent v = true) ↔ (v.phase = .closing ∨ v.phase = .ended)) ∧
      ¬ (errSent v = true ∧ okSent v = true)) ∧
    ((∀ v ∈ s.invs, v.phase = .ended) →
      s.errCh.length + as.count .recvErr + (s.okCh + as.count .recvOk) = as.count .tick) ∧
    (∀ i v, s.invs[i]? = some v → v.phase = .selecting →
      (v.timer = false → v.f = .returned none →
        (∀ c, (step s (.select i c)).isSome = true ↔ c = .done) ∧
        (s.okCh = 0 → run s [.select i .done, .advance i] =
          some { s.setInv i { v with phase := .ended } with okCh := 1 })) ∧
      (∀ e, v.timer = false → v.f = .returned (some e) →
        (∀ c, (step s (.select i c)).isSome = true ↔ c = .err) ∧
        (s.errCh = [] → run s [.select i .err, .advance i] =
          some { s.setInv i { v with phase := .ended } with errCh := [e] })) ∧
      (v.timer = true → v.f = .running →
        (∀ c, (step s (.select i c)).isSome = true ↔ c = .timeout) ∧
        (s.errCh = [] → run s [.select i .timeout, .advance i, .advance i] =
          some { s.setInv i { v with cancelF := true, phase := .ended } with
            errCh := ["refreshing timed out"] }))) ∧
    ((∀ a ∈ as, quiet a = true) →
      s.errCh = [] ∧ as.count .recvErr = 0 ∧
      ((∀ v ∈ s.invs, v.phase = .ended) → s.okCh + as.count .recvOk = as.count .tick)) ∧
    (∀ (i : Nat) (v : Invocation), s.invs[i]? = some v → v.phase ≠ .ended →
      (v.phase = .selecting → v.timer = true ∨ v.f ≠ .running) →
      ∃ as1 s1 v1, run New (as ++ as1) = some s1 ∧ Action.cancel ∉ as1 ∧
        s1.invs[i]? = some v1 ∧ v1.phase = .ended ∧
        (errSent v1 = true ∨ okSent v1 = true) ∧ ¬ (errSent v1 = true ∧ okSent v1 = true)) := by
  obtain ⟨hc, hw, h3, h4, h5⟩ := run_account as New s hrun rfl hnc (by intro v hv; cases hv)
  have hlen : s.invs.length = as.count .tick := by simpa [New] using h3
  have herr : s.errCh.length + as.count .recvErr = s.invs.countP errSent := by
    simpa [New] using h4
  have hok : s.okCh + as.count .recvOk = s.invs.countP okSent := by simpa [New] using h5
  have hall : (∀ v ∈ s.invs, v.phase = .ended) →
      s.invs.countP errSent + s.invs.countP okSent = s.invs.length :=
    fun he => countP_all_ended s.invs fun v hv => ⟨hw v hv, he v hv⟩
  refine ⟨hlen, herr, hok, fun v hv => sent_iff v (hw v hv), ?_, ?_, ?_, ?_⟩
  · intro he
    have := hall he
    omega
  · intro i v hv hp
    exact ⟨fun ht hf => select_done_first s i v hc hv hp ht hf,
      fun e ht hf => select_err_first s i v e hc hv hp ht hf,
      fun ht hf => select_timeout_first s i v hc hv hp ht hf⟩
  · intro hq
    have hqs := run_quiet as New s hrun hq (by intro v hv; cases hv)
    have h0 : s.invs.countP errSent = 0 := by
      rw [List.countP_eq_zero]
      intro v hv
      rw [errSent_quiet v (hw v hv) (hqs v hv)]
      simp
    refine ⟨List.length_eq_zero.mp (by omega), by omega, ?_⟩
    intro he
    have := hall he
    omega
  · intro i v hv he hready
    obtain ⟨as1, s1, v1, g1, g2, g3, g4⟩ := completes s i v hv he hready
    have hrun1 : run New (as ++ as1) = some s1 := by
      rw [run_append, hrun]
      exact g1
    have hnc1 : Action.cancel ∉ as ++ as1 := by
      intro h
      rcases List.mem_append.mp h with h | h
      · exact hnc h
      · exact g2 h
    obtain ⟨_, hw1, _⟩ := run_account (as ++ as1) New s1 hrun1 rfl hnc1
      (by intro v hv; cases hv)
    obtain ⟨k1, k2⟩ := sent_iff v1 (hw1 v1 (List.mem_iff_getElem?.mpr ⟨_, g3⟩))
    exact ⟨as1, s1, v1, hrun1, g2, g3, g4, k1.mpr (Or.inr g4), k2⟩

/-- Witness of C19 on the run of the test with the durations 1, 5, 15, 20, 25, 2, 3, 2
ms and the timeout 10 ms: eight invocations, all ended, the consumer has received three
errors refreshing timed out and five successes, and nothing is left in the buffers. -/
theorem C19_event_accounting_witness :
    run New timeoutScenario = some ⟨false, [], 0,
      [⟨.returned none, false, false, .ended⟩, ⟨.returned none, false, false, .ended⟩,
       ⟨.returned none, true, true, .ended⟩, ⟨.returned none, true, true, .ended⟩,
       ⟨.returned none, true, true, .ended⟩, ⟨.returned none, false, false, .ended⟩,
       ⟨.returned none, false, false, .ended⟩, ⟨.returned none, false, false, .ended⟩]⟩ ∧
    received New timeoutScenario =
      [some "refreshing timed out", some "refreshing timed out", some "refreshing timed out",
        none, none, none, none, none] ∧
    timeoutScenario.count .tick = 8 ∧ timeoutScenario.count .recvErr = 3 ∧
    timeoutScenario.count .recvOk = 5 ∧
    (0 + timeoutScenario.count .recvErr + (0 + timeoutScenario.count .recvOk) =
      timeoutScenario.count .tick) :=
  ⟨by decide, by decide, by decide, by decide, by decide,
    (C19_event_accounting timeoutScenario ⟨false, [], 0,
      [⟨.returned none, false, false, .ended⟩, ⟨.returned none, false, false, .ended⟩,
       ⟨.returned none, true, true, .ended⟩, ⟨.returned none, true, true, .ended⟩,
       ⟨.returned none, true, true, .ended⟩, ⟨.returned none, false, false, .ended⟩,
       ⟨.returned none, false, false, .ended⟩, ⟨.returned none, false, false, .ended⟩]⟩
      (by decide) (by decide)).2.2.2.2.1 (by decide)⟩

end EventAccountingClaim

section EntriesWitness

open task rrgen rrstore spec

/-- Witness of C29 on scenario S2: the task of service dns in domain infra; the table
has the types A and SRV, each with one name, each name with one answer. -/
theorem C29_no_empty_entries_witness :
    ∃ tbl, rrgen.RRs "swarm." [⟨"b", [⟨net.IPv4 192 168 0 3, 53, "udp"⟩], "dns", "infra"⟩]
        = some tbl ∧
      tbl = [(dns.TypeA, [("dns.infra.swarm.", ["192.168.0.3"])]),
        (dns.TypeSRV, [("_dns._udp.infra.swarm.", ["192.168.0.3:53"])])] ∧
      (∀ ty m, (ty, m) ∈ tbl → m ≠ [] ∧ ∀ name a, (name, a) ∈ m → a ≠ []) ∧
      (∀ ty name a, lookup tbl ty name = some a → a ≠ []) := by
  obtain ⟨tbl, h1, h2, _, h4, _⟩ := C29_no_empty_entries "swarm."
    [⟨"b", [⟨net.IPv4 192 168 0 3, 53, "udp"⟩], "dns", "infra"⟩]
  have h5 : rrgen.RRs "swarm." [⟨"b", [⟨net.IPv4 192 168 0 3, 53, "udp"⟩], "dns", "infra"⟩] =
      some [(dns.TypeA, [("dns.infra.swarm.", ["192.168.0.3"])]),
        (dns.TypeSRV, [("_dns._udp.infra.swarm.", ["192.168.0.3:53"])])] := by decide
  have h6 : tbl = [(dns.TypeA, [("dns.infra.swarm.", ["192.168.0.3"])]),
      (dns.TypeSRV, [("_dns._udp.infra.swarm.", ["192.168.0.3:53"])])] := by
    rw [h5] at h1
    exact (Option.some.inj h1).symm
  exact ⟨tbl, h1, h6, h2, h4⟩

end EntriesWitness

/-! ## Claims on the cluster source -/

section Swarm

open swarm spec task

theorem ToLower_ToLower (s : String) : strings.ToLower (strings.ToLower s) = strings.ToLower s := by
  unfold strings.ToLower
  simp only [List.map_map]
  congr 1
  apply List.map_congr_left
  intro c _
  exact ToLower_idem c

theorem ToLower_eq_empty (s : String) : strings.ToLower s = "" ↔ s = "" := by
  unfold strings.ToLower
  constructor
  · intro h
    have h1 : s.data.map unicode.ToLower = [] := congrArg String.data h
    have h2 : s.data = [] := List.map_eq_nil_iff.mp h1
    exact String.ext h2
  · intro h
    subst h
    rfl

theorem dnsPartsFromLabels_eq (labels : List (String × String)) :
    dnsPartsFromLabels labels =
      if label labels dnsLabel = "" then ("", "")
      else (strings.ToLower (label labels dnsLabel), strings.ToLower (label labels dnsDomain)) := by
  unfold dnsPartsFromLabels
  by_cases h : label labels dnsLabel = ""
  · have h1 : strings.ToLower (label labels dnsLabel) = "" := (ToLower_eq_empty _).mpr h
    rw [h1, h]
    rfl
  · have h1 : strings.ToLower (label labels dnsLabel) ≠ "" := fun e => h ((ToLower_eq_empty _).mp e)
    simp only [h1, h, if_false]

theorem dnsPartsFromLabels_lower (labels : List (String × String)) :
    isLower (dnsPartsFromLabels labels).1 ∧ isLower (dnsPartsFromLabels labels).2 ∧
      ((dnsPartsFromLabels labels).2 ≠ "" → (dnsPartsFromLabels labels).1 ≠ "") := by
  rw [dnsPartsFromLabels_eq]
  by_cases h : label labels dnsLabel = ""
  · simp only [h, if_true]
    exact ⟨rfl, rfl, fun h => h⟩
  · simp only [h, if_false]
    exact ⟨ToLower_ToLower _, ToLower_ToLower _, fun _ e => h ((ToLower_eq_empty _).mp e)⟩

theorem containersToTasks_mem (ll : List container) (out : List Task)
    (h : containersToTasks ll = .ok out) (t : Task) (ht : t ∈ out) :
    ∃ c ∈ ll, t.Id = c.Id ∧ mappedPorts c.Ports = .ok t.Ports ∧
      (t.Service, t.Domain) = dnsPartsFromLabels c.Labels := by
  induction ll generalizing out with
  | nil =>
    simp only [containersToTasks, Except.ok.injEq] at h
    subst h
    cases ht
  | cons c ll ih =>
    unfold containersToTasks at h
    cases hp : mappedPorts c.Ports with
    | error e => rw [hp] at h; cases h
    | ok ports =>
      rw [hp] at h
      cases hr : containersToTasks ll with
      | error e => rw [hr] at h; cases h
      | ok rest =>
        rw [hr] at h
        simp only [Except.ok.injEq] at h
        subst h
        rcases List.mem_cons.mp ht with e | e
        · subst e
          exact ⟨c, List.mem_cons_self _ _, rfl, hp, rfl⟩
        · obtain ⟨c', hc', h3⟩ := ih rest hr e
          exact ⟨c', List.mem_cons_of_mem _ hc', h3⟩

/-- C31: the service is the lowercased label dns.service and the domain the lowercased
label dns.domain when the service label is there and not empty; both are empty when
it is missing or empty, whatever the domain label; so the service and the domain of
every task made from a container are lowercase and a non-empty domain comes with a
non-empty service. -/
theorem C31_dns_parts_from_labels (labels : List (String × String)) :
    (label labels dnsLabel ≠ "" →
      dnsPartsFromLabels labels =
        (strings.ToLower (label labels dnsLabel), strings.ToLower (label labels dnsDomain))) ∧
    (label labels dnsLabel = "" → dnsPartsFromLabels labels = ("", "")) ∧
    (mapGet labels dnsLabel = none → dnsPartsFromLabels labels = ("", "")) ∧
    isLower (dnsPartsFromLabels labels).1 ∧ isLower (dnsPartsFromLabels labels).2 ∧
    ((dnsPartsFromLabels labels).2 ≠ "" → (dnsPartsFromLabels labels).1 ≠ "") ∧
    ∀ (ll : List container) (out : List Task), containersToTasks ll = .ok out →
      ∀ t ∈ out, isLower t.Service ∧ isLower t.Domain ∧ (t.Domain ≠ "" → t.Service ≠ "") := by
  refine ⟨fun h => ?_, fun h => ?_, fun h => ?_, (dnsPartsFromLabels_lower labels).1,
    (dnsPartsFromLabels_lower labels).2.1, (dnsPartsFromLabels_lower labels).2.2, ?_⟩
  · rw [dnsPartsFromLabels_eq, if_neg h]
  · rw [dnsPartsFromLabels_eq, if_pos h]
  · have h1 : label labels dnsLabel = "" := by
      unfold label
      rw [h]
      rfl
    rw [dnsPartsFromLabels_eq, if_pos h1]
  · intro ll out h t ht
    obtain ⟨c, _, _, _, h3⟩ := containersToTasks_mem ll out h t ht
    have h4 := dnsPartsFromLabels_lower c.Labels
    rw [← h3] at h4
    exact h4

/-- Witness of C31 on the labels of the tests, and on labels with capitals outside
ASCII. -/
theorem C31_dns_parts_from_labels_witness :
    dnsPartsFromLabels [("dns.service", "API"), ("dns.domain", "Billing")] = ("api", "billing") ∧
    dnsPartsFromLabels [("dns.domain", "billing")] = ("", "") ∧
    dnsPartsFromLabels [("dns.service", ""), ("dns.domain", "billing")] = ("", "") ∧
    dnsPartsFromLabels [("dns.service", "API")] = ("api", "") ∧
    dnsPartsFromLabels [("dns.service", "École"), ("dns.domain", "ÑandÚ")] =
      ("école", "ñandú") ∧
    isLower "école" ∧ ¬ isLower "École" := by
  refine ⟨(C31_dns_parts_from_labels _).1 (by decide), (C31_dns_parts_from_labels _).2.2.1 (by decide),
    (C31_dns_parts_from_labels _).2.1 (by decide), (C31_dns_parts_from_labels _).1 (by decide),
    (C31_dns_parts_from_labels _).1 (by decide), ?_, ?_⟩
  · unfold isLower
    decide
  · unfold isLower
    decide

end Swarm

section SwarmPorts

open swarm spec task

theorem toPort_eq (v : containerPort) :
    toPort v = if net.ParseIP v.IP = [] then .error ("cannot parse IP \x27" ++ v.IP ++ "\x27")
      else .ok (convertPort v) := rfl

theorem mappedPorts_unmapped (v : containerPort) (l : List containerPort)
    (h : isMapped v = false) : mappedPorts (v :: l) = mappedPorts l := by
  have h1 : isMappedPort v = false := h
  rw [mappedPorts, h1]
  rfl

theorem mappedPorts_mapped (v : containerPort) (l : List containerPort)
    (h : isMapped v = true) :
    mappedPorts (v :: l) =
      match toPort v with
      | .error err => .error err
      | .ok p =>
        match mappedPorts l with
        | .error err => .error err
        | .ok out => .ok (p :: out) := by
  have h1 : isMappedPort v = true := h
  rw [mappedPorts, if_pos h1]

theorem mappedPorts_ok (l : List containerPort)
    (h : ∀ v ∈ l, isMapped v = true → net.ParseIP v.IP ≠ []) :
    mappedPorts l = .ok ((l.filter isMapped).map convertPort) := by
  induction l with
  | nil => rfl
  | cons v l ih =>
    have ih1 := ih (fun w hw => h w (List.mem_cons_of_mem _ hw))
    by_cases hm : isMapped v = true
    · have h2 := h v (List.mem_cons_self _ _) hm
      rw [mappedPorts_mapped v l hm, toPort_eq, if_neg h2, ih1, List.filter_cons_of_pos hm]
      rfl
    · have hm1 : isMapped v = false := by simpa using hm
      rw [mappedPorts_unmapped v l hm1, ih1, List.filter_cons_of_neg hm]

theorem mappedPorts_error_iff (l : List containerPort) :
    (∃ e, mappedPorts l = .error e) ↔ ∃ v ∈ l, isMapped v = true ∧ net.ParseIP v.IP = [] := by
  constructor
  · rintro ⟨e, he⟩
    by_contra hc
    push_neg at hc
    rw [mappedPorts_ok l hc] at he
    cases he
  · rintro ⟨v, hv, hm, hp⟩
    induction l with
    | nil => cases hv
    | cons w l ih =>
      by_cases hw : isMapped w = true
      · by_cases hq : net.ParseIP w.IP = []
        · rw [mappedPorts_mapped w l hw, toPort_eq, if_pos hq]
          exact ⟨_, rfl⟩
        · have hl : ∃ e, mappedPorts l = .error e := by
            rcases List.mem_cons.mp hv with e | e
            · subst e
              exact absurd hp hq
            · exact ih e
          obtain ⟨e, he⟩ := hl
          rw [mappedPorts_mapped w l hw, toPort_eq, if_neg hq, he]
          exact ⟨e, rfl⟩
      · have hw1 : isMapped w = false := by simpa using hw
        rw [mappedPorts_unmapped w l hw1]
        rcases List.mem_cons.mp hv with e | e
        · subst e
          exact absurd hm hw
        · exact ih e

theorem mappedPorts_insert (l1 l2 : List containerPort) (v : containerPort)
    (h : isMapped v = false) : mappedPorts (l1 ++ v :: l2) = mappedPorts (l1 ++ l2) := by
  induction l1 with
  | nil => exact mappedPorts_unmapped v l2 h
  | cons w l1 ih =>
    simp only [List.cons_append]
    rw [mappedPorts, mappedPorts, ih]

/-- C32: for every list of container ports, when the IP of every mapped port (non-empty
IP, non-zero public port) parses, `mappedPorts` returns, in the order of the list,
exactly the mapped ports, each as the parsed IP, the public port and the type; it
fails, with no ports, if and only if the IP of some mapped port does not parse; and
an unmapped port changes nothing to the result, whatever its IP string is. -/
theorem C32_mapped_ports (l : List containerPort) :
    ((∀ v ∈ l, isMapped v = true → net.ParseIP v.IP ≠ []) →
      mappedPorts l = .ok ((l.filter isMapped).map convertPort)) ∧
    ((∃ e, mappedPorts l = .error e) ↔ ∃ v ∈ l, isMapped v = true ∧ net.ParseIP v.IP = []) ∧
    (∀ out, mappedPorts l = .ok out → out = (l.filter isMapped).map convertPort) ∧
    (∀ l1 l2 v, l = l1 ++ v :: l2 → isMapped v = false →
      mappedPorts l = mappedPorts (l1 ++ l2)) ∧
    ((∀ v ∈ l, isMapped v = false) → mappedPorts l = .ok []) := by
  refine ⟨mappedPorts_ok l, mappedPorts_error_iff l, ?_, ?_, ?_⟩
  · intro out h
    have h1 : ∀ v ∈ l, isMapped v = true → net.ParseIP v.IP ≠ [] := by
      intro v hv hm hp
      obtain ⟨e, he⟩ := (mappedPorts_error_iff l).mpr ⟨v, hv, hm, hp⟩
      rw [he] at h
      cases h
    rw [mappedPorts_ok l h1] at h
    exact (Except.ok.inj h).symm
  · intro l1 l2 v hl hv
    rw [hl]
    exact mappedPorts_insert l1 l2 v hv
  · intro h
    rw [mappedPorts_ok l (fun v hv hm => by rw [h v hv] at hm; cases hm)]
    have h2 : l.filter isMapped = [] := List.filter_eq_nil_iff.mpr (fun v hv => by simp [h v hv])
    rw [h2]
    rfl

/-- Witness of C32 on the ports of the tests: the mapped port is kept, the port without
IP and public port is dropped, and a mapped port whose IP does not parse fails; the
same string on an unmapped port does not. -/
theorem C32_mapped_ports_witness :
    mappedPorts [⟨"192.168.99.103", 80, 8000, "tcp"⟩, ⟨"", 3000, 0, "tcp"⟩] =
      .ok [⟨net.IPv4 192 168 99 103, 8000, "tcp"⟩] ∧
    (∃ e, mappedPorts [⟨"192.168.99.103", 80, 8000, "tcp"⟩, ⟨"not-an-ip", 80, 8000, "tcp"⟩]
      = .error e) ∧
    mappedPorts [⟨"not-an-ip", 80, 0, "tcp"⟩, ⟨"192.168.99.103", 80, 8000, "tcp"⟩] =
      .ok [⟨net.IPv4 192 168 99 103, 8000, "tcp"⟩] :=
  ⟨(C32_mapped_ports _).1 (by decide),
    (C32_mapped_ports _).2.1.mpr ⟨⟨"not-an-ip", 80, 8000, "tcp"⟩, by decide, by decide, by decide⟩,
    (C32_mapped_ports _).1 (by decide)⟩

end SwarmPorts

/-! ## Claims on the totality of the projection and on the SRV answers -/

section ProjectionTotal

open task rrgen rrstore spec

theorem getTaskRRs_none_iff (d : String) (t : Task) :
    getTaskRRs d t = none ↔ t.Ports = [] := by
  unfold getTaskRRs
  cases t.Ports with
  | nil => simp
  | cons p ps => simp

/-- C33: for every root domain and every cluster state, tasks with an empty port list
included, `RRs` returns a table: the read of the first port in `getTaskRRs`, out of
range exactly on an empty port list, is only made on tasks that passed `HasPorts`,
which have a port. -/
theorem C33_projection_is_total (d : String) (C : ClusterState) :
    (∃ tbl, rrgen.RRs d C = some tbl) ∧
    (∀ t, getTaskRRs d t = none ↔ t.Ports = []) ∧
    (∀ t ∈ (FilterTasks DnsFilters C).1,
      (HasPorts t).1 = true ∧ t.Ports ≠ [] ∧ ∃ rs, getTaskRRs d t = some rs) ∧
    rrgen.RRs d C = getRRsLoop d (FilterTasks DnsFilters C).1 [] := by
  refine ⟨⟨_, RRs_eq d C⟩, getTaskRRs_none_iff d, ?_, rfl⟩
  intro t ht
  rw [FilterTasks_DnsFilters] at ht
  have h1 : t.Ports ≠ [] := eligible_ports_ne_nil (List.mem_filter.mp ht).2
  refine ⟨?_, h1, _, getTaskRRs_isSome d h1⟩
  unfold HasPorts
  simpa using List.length_pos.mpr h1

/-- Witness of C33: a state whose first task has no port; the table has the records of
the second task only, and `getRRs` on the unfiltered tasks would read out of range. -/
theorem C33_projection_is_total_witness :
    rrgen.RRs "swarm." [⟨"a", [], "api", ""⟩, ⟨"b", [⟨net.IPv4 192 168 0 3, 53, "udp"⟩], "dns", "infra"⟩]
      = some [(dns.TypeA, [("dns.infra.swarm.", ["192.168.0.3"])]),
        (dns.TypeSRV, [("_dns._udp.infra.swarm.", ["192.168.0.3:53"])])] ∧
    (∃ tbl, rrgen.RRs "swarm."
      [⟨"a", [], "api", ""⟩, ⟨"b", [⟨net.IPv4 192 168 0 3, 53, "udp"⟩], "dns", "infra"⟩] = some tbl) ∧
    getRRs "swarm." [⟨"a", [], "api", ""⟩, ⟨"b", [⟨net.IPv4 192 168 0 3, 53, "udp"⟩], "dns", "infra"⟩]
      = none :=
  ⟨by decide,
    (C33_projection_is_total "swarm."
      [⟨"a", [], "api", ""⟩, ⟨"b", [⟨net.IPv4 192 168 0 3, 53, "udp"⟩], "dns", "infra"⟩]).1,
    by decide⟩

end ProjectionTotal

section Decimal

open spec

theorem digitChar_lt_ten (k : Nat) (h : k < 10) :
    (Nat.digitChar k).isDigit = true ∧ (Nat.digitChar k).toNat - '0'.toNat = k := by
  interval_cases k <;> exact ⟨by decide, by decide⟩

theorem decValue_append_singleton (l : List Char) (c : Char) :
    net.decValue (l ++ [c]) = net.decValue l * 10 + (c.toNat - '0'.toNat) := by
  unfold net.decValue
  rw [List.foldl_append]
  rfl

theorem toDigitsCore_ten (fuel n : Nat) (ds : List Char) (h : n < fuel) :
    ∃ l, Nat.toDigitsCore 10 fuel n ds = l ++ ds ∧ l ≠ [] ∧ (∀ c ∈ l, c.isDigit = true) ∧
      net.decValue l = n := by
  induction fuel generalizing n ds with
  | zero => omega
  | succ fuel ih =>
    obtain ⟨hd1, hd2⟩ := digitChar_lt_ten (n % 10) (Nat.mod_lt _ (by decide))
    rw [Nat.toDigitsCore]
    by_cases h0 : n / 10 = 0
    · simp only [h0, if_true]
      refine ⟨[Nat.digitChar (n % 10)], rfl, by simp, ?_, ?_⟩
      · intro c hc
        rw [List.mem_singleton.mp hc]
        exact hd1
      · have := decValue_append_singleton [] (Nat.digitChar (n % 10))
        simp only [List.nil_append] at this
        rw [this, hd2]
        have : net.decValue [] = 0 := rfl
        rw [this]
        omega
    · simp only [h0, if_false]
      obtain ⟨l, hl, hne, hdig, hval⟩ := ih (n / 10) (Nat.digitChar (n % 10) :: ds) (by omega)
      refine ⟨l ++ [Nat.digitChar (n % 10)], ?_, by simp, ?_, ?_⟩
      · rw [hl]
        simp
      · intro c hc
        rcases List.mem_append.mp hc with hc | hc
        · exact hdig c hc
        · rw [List.mem_singleton.mp hc]
          exact hd1
      · rw [decValue_append_singleton, hval, hd2]
        omega

theorem toDigits_ten (n : Nat) :
    Nat.toDigits 10 n ≠ [] ∧ (∀ c ∈ Nat.toDigits 10 n, c.isDigit = true) ∧
      net.decValue (Nat.toDigits 10 n) = n := by
  obtain ⟨l, hl, hne, hdig, hval⟩ := toDigitsCore_ten (n + 1) n [] (Nat.lt_succ_self n)
  rw [List.append_nil] at hl
  unfold Nat.toDigits
  rw [hl]
  exact ⟨hne, hdig, hval⟩

theorem Itoa_data (k : Nat) : (strconv.Itoa (k : Int)).data = Nat.toDigits 10 k := rfl

theorem plainHost_append (a b : String) :
    plainHost (a ++ b) = (plainHost a && plainHost b) := by
  simp only [plainHost, String.data_append, List.all_append]

theorem plainHost_Itoa (k : Nat) : plainHost (strconv.Itoa (k : Int)) = true := by
  unfold plainHost
  rw [Itoa_data, List.all_eq_true]
  intro c hc
  have := digit_ne_special ((toDigits_ten k).2.1 c hc)
  simpa using this

theorem isPort16_Itoa (k : Nat) (h : k ≤ 65535) :
    isPort16 (strconv.Itoa (k : Int)) = true ∧
      net.decValue (strconv.Itoa (k : Int)).data = k := by
  obtain ⟨h1, h2, h3⟩ := toDigits_ten k
  unfold isPort16
  rw [Itoa_data, h3]
  refine ⟨?_, rfl⟩
  simp only [Bool.and_eq_true, decide_eq_true_eq, List.all_eq_true]
  exact ⟨⟨h1, h2⟩, h⟩

theorem length_four (l : List Nat) (h : l.length = 4) : ∃ a b c d, l = [a, b, c, d] := by
  rcases l with _ | ⟨a, _ | ⟨b, _ | ⟨c, _ | ⟨d, _ | ⟨e, l⟩⟩⟩⟩⟩ <;> simp at h
  exact ⟨a, b, c, d, rfl⟩

theorem To4_of_isIPv4 (ip : net.IP) (h : isIPv4 ip = true) :
    ip.length ≠ 0 ∧ ∃ a b c d, net.To4 ip = some [a, b, c, d] := by
  unfold isIPv4 net.To4 at h
  unfold net.To4
  by_cases h4 : ip.length = 4
  · rw [if_pos h4]
    obtain ⟨a, b, c, d, e⟩ := length_four ip h4
    exact ⟨by omega, a, b, c, d, by rw [e]⟩
  · rw [if_neg h4] at h ⊢
    by_cases h16 : ip.length = 16 ∧ ip.take 10 = List.replicate 10 0 ∧
        (ip.drop 10).take 2 = [0xff, 0xff]
    · rw [if_pos h16]
      obtain ⟨a, b, c, d, e⟩ := length_four (ip.drop 12) (by rw [List.length_drop]; omega)
      exact ⟨by omega, a, b, c, d, by rw [e]⟩
    · rw [if_neg h16] at h
      cases h

theorem String_of_To4 (ip : net.IP) (a b c d : Nat) (h0 : ip.length ≠ 0)
    (h : net.To4 ip = some [a, b, c, d]) :
    net.IP.String ip = strconv.Itoa a ++ "." ++ strconv.Itoa b ++ "." ++ strconv.Itoa c ++ "." ++
      strconv.Itoa d := by
  unfold net.IP.String
  rw [if_neg h0, h]

theorem Fqdn_append_Itoa (pre : String) (k : Nat) :
    dns.Fqdn (pre ++ strconv.Itoa (k : Int)) = pre ++ strconv.Itoa (k : Int) ++ "." := by
  unfold dns.Fqdn
  rw [if_neg]
  intro hl
  obtain ⟨h1, h2, _⟩ := toDigits_ten k
  rw [String.data_append, Itoa_data, List.getLast?_append_of_ne_nil _ h1] at hl
  have := h2 '.' (List.mem_of_getLast?_eq_some hl)
  revert this
  decide

/-- The SRV answer of a port with an IPv4 address and a port number up to 65535 is
accepted by the formatter, which gives back the port number and the address text
with a dot. -/
theorem srvAnswer_formats (p : task.Port) (name : String) (hip : isIPv4 p.HostIP = true)
    (hlo : 0 ≤ p.HostPort) (hhi : p.HostPort ≤ 65535) :
    rrtype.ToRR dns.TypeSRV name (srvAnswer p) =
      .ok (dns.RR.SRV ⟨name, dns.TypeSRV, dns.ClassINET, 0⟩ 1 1 p.HostPort.toNat
        (p.HostIP.String ++ ".")) := by
  obtain ⟨h0, a, b, c, d, h4⟩ := To4_of_isIPv4 p.HostIP hip
  have hs := String_of_To4 p.HostIP a b c d h0 h4
  obtain ⟨k, hk⟩ : ∃ k : Nat, p.HostPort = (k : Int) := ⟨p.HostPort.toNat, by omega⟩
  have hk1 : k ≤ 65535 := by omega
  obtain ⟨hp1, hp2⟩ := isPort16_Itoa k hk1
  have hplain : plainHost p.HostIP.String = true := by
    rw [hs]
    simp only [plainHost_append, plainHost_Itoa, Bool.and_true, Bool.true_and]
    decide
  have hd : ∀ c ∈ (strconv.Itoa (k : Int)).data, c.isDigit = true := by
    rw [Itoa_data]
    exact (toDigits_ten k).2.1
  have hsplit := SplitHostPort_plain p.HostIP.String (strconv.Itoa (k : Int)) hplain hd
  have hfq : dns.Fqdn p.HostIP.String = p.HostIP.String ++ "." := by
    rw [hs]
    exact Fqdn_append_Itoa _ d
  unfold srvAnswer
  rw [hk, formatSRV_ok name _ _ _ hsplit hp1, hp2, hfq]
  rfl

end Decimal

section SrvAgreement

open task rrgen rrstore spec server

theorem taskEntries_srv (d : String) (t : Task) (e : rrEntry) (he : e ∈ taskEntries d t)
    (hty : e.rrType = dns.TypeSRV) : ∃ p ∈ t.Ports, e.record = srvAnswer p := by
  unfold taskEntries getTaskRRs at he
  cases hp : t.Ports with
  | nil => simp [hp] at he
  | cons p0 ps =>
    simp only [hp, Option.getD_some, srvEntries_eq_map] at he
    rcases List.mem_cons.mp he with he | he
    · rw [he] at hty
      exact absurd hty (by decide : dns.TypeA ≠ dns.TypeSRV)
    · obtain ⟨p, hp1, hp2⟩ := List.mem_map.mp he
      exact ⟨p, hp1, by rw [← hp2]⟩

theorem srv_of_ports (d : String) (t : Task) (p : Port) (hp : p ∈ t.Ports) :
    ∃ e ∈ taskEntries d t, e.rrType = dns.TypeSRV ∧ e.record = srvAnswer p := by
  unfold taskEntries getTaskRRs
  cases hps : t.Ports with
  | nil => rw [hps] at hp; cases hp
  | cons p0 ps =>
    simp only [Option.getD_some, srvEntries_eq_map]
    rw [hps] at hp
    exact ⟨_, List.mem_cons_of_mem _ (List.mem_map.mpr ⟨p, hp, rfl⟩), rfl, rfl⟩

/-- Every SRV answer stored in the table of a cluster state is the SRV answer of a port
of an eligible task. -/
theorem RRs_srv_records (d : String) (C : ClusterState) (tbl : rrstore.RRs)
    (htbl : rrgen.RRs d C = some tbl) (name : String) (recs : List String)
    (hl : lookup tbl dns.TypeSRV name = some recs) (rec : String) (hrec : rec ∈ recs) :
    ∃ t ∈ C, eligible t = true ∧ ∃ p ∈ t.Ports, rec = srvAnswer p := by
  obtain ⟨tbl1, h1, h2⟩ := RRs_lookup d C
  rw [htbl] at h1
  cases h1
  rw [h2] at hl
  unfold stored at hl
  split at hl
  · cases hl
  cases hl
  obtain ⟨t, ht, hin⟩ := List.mem_flatMap.mp hrec
  obtain ⟨htC, hel⟩ := List.mem_filter.mp ht
  unfold answersFor at hin
  obtain ⟨e, he1, he2⟩ := List.mem_map.mp hin
  obtain ⟨he3, he4⟩ := List.mem_filter.mp he1
  simp only [decide_eq_true_eq] at he4
  obtain ⟨p, hp, hr⟩ := taskEntries_srv d t e he3 he4.1
  exact ⟨t, htC, hel, p, hp, by rw [← he2, hr]⟩

/-- A cluster state whose eligible tasks have IPv4 addresses and port numbers up to
65535 gives a table on which no SRV query is answered SERVFAIL. -/
theorem handleDomain_srv_ipv4 (d : String) (C : ClusterState)
    (hC : ∀ t ∈ C, eligible t = true → ∀ p ∈ t.Ports,
      isIPv4 p.HostIP = true ∧ 1 ≤ p.HostPort ∧ p.HostPort ≤ 65535)
    (g : Rand) (r : dns.Msg) (q : dns.Question) (qs : List dns.Question)
    (hq : r.Question = q :: qs) (hty : q.Qtype = dns.TypeSRV) :
    ∃ tbl, rrgen.RRs d C = some tbl ∧
      ∃ m st g', handleDomain ⟨⟨tbl⟩, false, []⟩ g r = some (m, st, g') ∧
        m.Rcode ≠ dns.RcodeServerFailure := by
  refine ⟨_, RRs_eq d C, ?_⟩
  have hsup : rrtype.IsSupported q.Qtype = true := (IsSupported_iff _).mpr (Or.inr hty)
  cases hl : lookup (((C.filter eligible).flatMap (taskEntries d)).foldl insertRR []) q.Qtype
      (canonical q.Name) with
  | none =>
    rw [← TrimSpace_ToLower] at hl
    refine ⟨_, _, _, handleDomain_absent _ g r q qs hq hsup hl, ?_⟩
    exact (by decide : dns.RcodeNameError ≠ dns.RcodeServerFailure)
  | some recs =>
    have hf : ∀ rec ∈ recs, ∃ rr, rrtype.ToRR q.Qtype (canonical q.Name) rec = .ok rr := by
      intro rec hrec
      rw [hty] at hl ⊢
      obtain ⟨t, ht, hel, p, hp, e⟩ := RRs_srv_records d C _ (RRs_eq d C) _ recs hl rec hrec
      obtain ⟨h1, h2, h3⟩ := hC t ht hel p hp
      rw [e]
      exact ⟨_, srvAnswer_formats p _ h1 (by omega) h3⟩
    obtain ⟨m, st, g', h1, h2, _⟩ :=
      handleDomain_all_format ⟨⟨_⟩, false, []⟩ g r q qs recs hq (Or.inr hty) hl hf
    refine ⟨m, st, g', h1, ?_⟩
    rw [h2]
    decide

end SrvAgreement

section SrvAgreementClaim

open task rrgen rrstore spec server

/-- C34: the projection and the formatter do not agree on the SRV answer of a port with
an IPv6 address. The container with the port ::1 8000 tcp and the service api becomes an
eligible task, its SRV answer is stored as ::1:8000, `ToRR` of type SRV rejects it, and
the handler answers the SRV query SERVFAIL with no answer. On IPv4 addresses they
agree: for every eligible task and every port of it with an IPv4 address and a port
number in 1..65535, the stored SRV answer is converted to the record with that port
number and with the address text and a dot as target, and a table whose eligible
tasks have only such ports never gives SERVFAIL on an SRV query. -/
theorem C34_ipv6_srv_answer_is_rejected :
    swarm.containersToTasks
        [⟨"c1", [⟨"::1", 80, 8000, "tcp"⟩], ["/web"], [("dns.service", "api")]⟩] =
      .ok [⟨"c1", [⟨[0, 0, 0, 0, 0, 0, 0, 0, 0, 0, 0, 0, 0, 0, 0, 1], 8000, "tcp"⟩], "api", ""⟩] ∧
    eligible ⟨"c1", [⟨[0, 0, 0, 0, 0, 0, 0, 0, 0, 0, 0, 0, 0, 0, 0, 1], 8000, "tcp"⟩], "api", ""⟩
      = true ∧
    isIPv6 [0, 0, 0, 0, 0, 0, 0, 0, 0, 0, 0, 0, 0, 0, 0, 1] = true ∧
    rrgen.RRs "swarm."
        [⟨"c1", [⟨[0, 0, 0, 0, 0, 0, 0, 0, 0, 0, 0, 0, 0, 0, 0, 1], 8000, "tcp"⟩], "api", ""⟩] =
      some [(dns.TypeA, [("api.swarm.", ["::1"])]),
        (dns.TypeSRV, [("_api._tcp.swarm.", ["::1:8000"])])] ∧
    (∃ e, rrtype.ToRR dns.TypeSRV "_api._tcp.swarm." "::1:8000" = .error e) ∧
    (∀ g : Rand, ∃ m st g',
      handleDomain ⟨⟨[(dns.TypeA, [("api.swarm.", ["::1"])]),
          (dns.TypeSRV, [("_api._tcp.swarm.", ["::1:8000"])])]⟩, false, []⟩ g
        (query "_api._tcp.swarm" dns.TypeSRV) = some (m, st, g') ∧
      m.Rcode = dns.RcodeServerFailure ∧ m.Answer = []) ∧
    (∀ (d : String) (t : Task) (p : Port) (name : String), eligible t = true → p ∈ t.Ports →
      isIPv4 p.HostIP = true → 1 ≤ p.HostPort → p.HostPort ≤ 65535 →
      (∃ e ∈ taskEntries d t, e.rrType = dns.TypeSRV ∧ e.record = srvAnswer p) ∧
      rrtype.ToRR dns.TypeSRV name (srvAnswer p) =
        .ok (dns.RR.SRV ⟨name, dns.TypeSRV, dns.ClassINET, 0⟩ 1 1 p.HostPort.toNat
          (p.HostIP.String ++ "."))) ∧
    (∀ (d : String) (C : ClusterState),
      (∀ t ∈ C, eligible t = true → ∀ p ∈ t.Ports,
        isIPv4 p.HostIP = true ∧ 1 ≤ p.HostPort ∧ p.HostPort ≤ 65535) →
      ∀ (g : Rand) (r : dns.Msg) (q : dns.Question) (qs : List dns.Question),
        r.Question = q :: qs → q.Qtype = dns.TypeSRV →
        ∃ tbl, rrgen.RRs d C = some tbl ∧
          ∃ m st g', handleDomain ⟨⟨tbl⟩, false, []⟩ g r = some (m, st, g') ∧
            m.Rcode ≠ dns.RcodeServerFailure) := by
  refine ⟨rfl, by decide, by decide, by decide, error_of_not_formats (by decide), ?_, ?_,
    handleDomain_srv_ipv4⟩
  · intro g
    obtain ⟨m, h1, _, h3, h4⟩ := handleDomain_reply
      ⟨⟨[(dns.TypeA, [("api.swarm.", ["::1"])]),
        (dns.TypeSRV, [("_api._tcp.swarm.", ["::1:8000"])])]⟩, false, []⟩ g
      (query "_api._tcp.swarm" dns.TypeSRV)
      ⟨dns.Fqdn "_api._tcp.swarm", dns.TypeSRV, dns.ClassINET⟩ [] ["::1:8000"] rfl
      (by decide) (by decide)
    refine ⟨m, _, _, h1, ?_, ?_⟩
    · rw [h3]
      decide
    · rw [h4]
      have hs : (shuffle g ["::1:8000"]).1 = ["::1:8000"] := rfl
      rw [hs]
      decide
  · intro d t p name _ hp hip hlo hhi
    exact ⟨srv_of_ports d t p hp, srvAnswer_formats p name hip (by omega) hhi⟩

end SrvAgreementClaim

/-! ## Claims on the cycle of the shuffle and on the upstream pick -/

section ShuffleCycle

open server spec

theorem swap_getElem?_other (a : List String) (i r : Nat) (hi : i < a.length)
    (hr : r < a.length) : (swap a i r)[r]? = a[i]? := by
  unfold swap
  have h1 : r < (a.set i (a.getD r "")).length := by simpa using hr
  rw [List.getElem?_set_self h1, List.getD_eq_getElem _ _ hi, List.getElem?_eq_getElem hi]

theorem Intn_lt (g : Rand) (n : Nat) (h : 0 < n) : (Intn g n h).1 < n :=
  Nat.mod_lt _ h

theorem getElem?_ne_of_nodup (a : List String) (hd : a.Nodup) (j k : Nat) (hj : j < a.length)
    (hk : k < a.length) (hne : j ≠ k) : a[j]? ≠ a[k]? := by
  rw [List.getElem?_eq_getElem hj, List.getElem?_eq_getElem hk]
  intro h
  exact hne ((List.Nodup.getElem_inj_iff hd).mp (Option.some.inj h))

/-- The loop from index `i` fills the positions up to `i` from the positions up to `i`. -/
theorem shuffleLoop_index (i : Nat) (g : Rand) (a : List String) (hi : i < a.length)
    (k : Nat) (hk : k ≤ i) : ∃ j ≤ i, (shuffleLoop i g a).1[k]? = a[j]? := by
  induction i generalizing g a k with
  | zero => exact ⟨k, hk, rfl⟩
  | succ i ih =>
    have hr := Intn_lt g (i + 1) (Nat.succ_pos i)
    rw [shuffleLoop]
    rcases Nat.lt_or_ge i k with hik | hik
    · have hk1 : k = i + 1 := by omega
      subst hk1
      rw [shuffleLoop_getElem?_gt _ _ _ _ hik,
        swap_getElem?_self a (i + 1) _ hi (by omega) (by omega)]
      exact ⟨_, by omega, rfl⟩
    · obtain ⟨j, hj, e⟩ := ih (Intn g (i + 1) (Nat.succ_pos i)).2
        (swap a (i + 1) (Intn g (i + 1) (Nat.succ_pos i)).1) (by rw [swap_length]; omega) k hik
      rw [e]
      by_cases hjr : j = (Intn g (i + 1) (Nat.succ_pos i)).1
      · rw [hjr, swap_getElem?_other a (i + 1) _ hi (by omega)]
        exact ⟨i + 1, le_refl _, rfl⟩
      · rw [swap_getElem?_ne a _ _ j (by omega) hjr]
        exact ⟨j, by omega, rfl⟩

/-- The loop from an index `i` of at least 1 leaves no element of a slice of distinct
elements at its position, among the positions up to `i`. -/
theorem shuffleLoop_moves (i : Nat) (g : Rand) (a : List String) (hd : a.Nodup)
    (hi : i < a.length) (h1 : 1 ≤ i) (k : Nat) (hk : k ≤ i) :
    (shuffleLoop i g a).1[k]? ≠ a[k]? := by
  induction i generalizing g a k with
  | zero => omega
  | succ i ih =>
    have hr := Intn_lt g (i + 1) (Nat.succ_pos i)
    have hlen : (swap a (i + 1) (Intn g (i + 1) (Nat.succ_pos i)).1).length = a.length :=
      swap_length _ _ _
    have hd1 : (swap a (i + 1) (Intn g (i + 1) (Nat.succ_pos i)).1).Nodup :=
      (swap_perm a _ _ hi (by omega)).nodup_iff.mpr hd
    rw [shuffleLoop]
    rcases Nat.lt_or_ge i k with hik | hik
    · have hk1 : k = i + 1 := by omega
      subst hk1
      rw [shuffleLoop_getElem?_gt _ _ _ _ hik,
        swap_getElem?_self a (i + 1) _ hi (by omega) (by omega)]
      exact getElem?_ne_of_nodup a hd _ _ (by omega) hi (by omega)
    · by_cases hkr : k = (Intn g (i + 1) (Nat.succ_pos i)).1
      · obtain ⟨j, hj, e⟩ := shuffleLoop_index i (Intn g (i + 1) (Nat.succ_pos i)).2
          (swap a (i + 1) (Intn g (i + 1) (Nat.succ_pos i)).1) (by omega) k hik
        rw [e]
        by_cases hjr : j = (Intn g (i + 1) (Nat.succ_pos i)).1
        · rw [hjr, swap_getElem?_other a (i + 1) _ hi (by omega)]
          exact getElem?_ne_of_nodup a hd _ _ hi (by omega) (by omega)
        · rw [swap_getElem?_ne a _ _ j (by omega) hjr]
          exact getElem?_ne_of_nodup a hd _ _ (by omega) (by omega) (by omega)
      · have hi1 : 1 ≤ i := by omega
        have h2 := ih (Intn g (i + 1) (Nat.succ_pos i)).2
          (swap a (i + 1) (Intn g (i + 1) (Nat.succ_pos i)).1) hd1 (by omega) hi1 k hik
        rw [swap_getElem?_ne a _ _ k (by omega) hkr] at h2
        exact h2

theorem insertAfter_reach (f : Nat → Nat) (r n : Nat) (hrn : r ≠ n) (m : Nat)
    (hf : ∀ j ≤ m, f^[j] 0 ≠ n) :
    ∃ m1, (insertAfter f r n)^[m1] 0 = f^[m] 0 := by
  induction m with
  | zero => exact ⟨0, rfl⟩
  | succ m ih =>
    obtain ⟨m1, e⟩ := ih (fun j hj => hf j (by omega))
    have hn : f^[m] 0 ≠ n := hf m (by omega)
    rw [Function.iterate_succ_apply']
    by_cases hx : f^[m] 0 = r
    · refine ⟨m1 + 2, ?_⟩
      rw [Function.iterate_succ_apply', Function.iterate_succ_apply', e, hx]
      simp only [insertAfter, if_true, if_neg hrn.symm]
    · refine ⟨m1 + 1, ?_⟩
      rw [Function.iterate_succ_apply', e]
      simp only [insertAfter, if_neg hx, if_neg hn]

theorem iterate_le (f : Nat → Nat) (i : Nat) (hf : ∀ k ≤ i, f k ≤ i) (m : Nat) :
    f^[m] 0 ≤ i := by
  induction m with
  | zero => exact Nat.zero_le _
  | succ m ih =>
    rw [Function.iterate_succ_apply']
    exact hf _ ih

/-- The loop from index `i` applies a single cycle to the positions up to `i`. -/
theorem shuffleLoop_cycle (i : Nat) (g : Rand) (a : List String) (hi : i < a.length) :
    ∃ f : Nat → Nat, (∀ k ≤ i, f k ≤ i ∧ (shuffleLoop i g a).1[f k]? = a[k]?) ∧
      ∀ k ≤ i, ∃ m, f^[m] 0 = k := by
  induction i generalizing g a with
  | zero =>
    refine ⟨id, fun k hk => ⟨hk, rfl⟩, fun k hk => ⟨0, ?_⟩⟩
    simp only [Function.iterate_zero, id]
    omega
  | succ i ih =>
    have hr := Intn_lt g (i + 1) (Nat.succ_pos i)
    obtain ⟨f, hf1, hf2⟩ := ih (Intn g (i + 1) (Nat.succ_pos i)).2
      (swap a (i + 1) (Intn g (i + 1) (Nat.succ_pos i)).1) (by rw [swap_length]; omega)
    have hle : ∀ m, f^[m] 0 ≤ i := iterate_le f i (fun k hk => (hf1 k hk).1)
    have hreach : ∀ m, ∃ m1,
        (insertAfter f (Intn g (i + 1) (Nat.succ_pos i)).1 (i + 1))^[m1] 0 = f^[m] 0 :=
      fun m => insertAfter_reach f _ _ (by omega) m (fun j _ => by have := hle j; omega)
    rw [shuffleLoop]
    refine ⟨insertAfter f (Intn g (i + 1) (Nat.succ_pos i)).1 (i + 1), ?_, ?_⟩
    · intro k hk
      unfold insertAfter
      by_cases hkr : k = (Intn g (i + 1) (Nat.succ_pos i)).1
      · rw [if_pos hkr, hkr]
        refine ⟨le_refl _, ?_⟩
        rw [shuffleLoop_getElem?_gt _ _ _ _ (Nat.lt_succ_self i),
          swap_getElem?_self a (i + 1) _ hi (by omega) (by omega)]
      · rw [if_neg hkr]
        by_cases hkn : k = i + 1
        · rw [if_pos hkn, hkn]
          obtain ⟨h1, h2⟩ := hf1 (Intn g (i + 1) (Nat.succ_pos i)).1 (by omega)
          refine ⟨by omega, ?_⟩
          rw [h2, swap_getElem?_other a (i + 1) _ hi (by omega)]
        · rw [if_neg hkn]
          obtain ⟨h1, h2⟩ := hf1 k (by omega)
          refine ⟨by omega, ?_⟩
          rw [h2, swap_getElem?_ne a _ _ k hkn hkr]
    · intro k hk
      by_cases hkn : k = i + 1
      · obtain ⟨m, hm⟩ := hf2 (Intn g (i + 1) (Nat.succ_pos i)).1 (by omega)
        obtain ⟨m1, e⟩ := hreach m
        refine ⟨m1 + 1, ?_⟩
        rw [Function.iterate_succ_apply', e, hm, hkn]
        simp only [insertAfter, if_true]
      · obtain ⟨m, hm⟩ := hf2 k (by omega)
        obtain ⟨m1, e⟩ := hreach m
        exact ⟨m1, e.trans hm⟩

/-- C35: for every list of at least two pairwise distinct answers and every sequence of
random draws, the draw at index i reduced below i, the shuffle leaves no element at its
index, and the permutation it applies is a single cycle through all the positions; so
its result is never the input order, and a list of two answers comes out exchanged. -/
theorem C35_shuffle_moves_every_element (g : Rand) (a : List String) (hd : a.Nodup)
    (hlen : 2 ≤ a.length) :
    (∀ k < a.length, (shuffle g a).1[k]? ≠ a[k]?) ∧
    isSingleCycle a (shuffle g a).1 ∧
    (shuffle g a).1 ≠ a ∧
    (∀ x y, a = [x, y] → (shuffle g a).1 = [y, x]) := by
  have hmove : ∀ k < a.length, (shuffle g a).1[k]? ≠ a[k]? := fun k hk =>
    shuffleLoop_moves (a.length - 1) g a hd (by omega) (by omega) k (by omega)
  refine ⟨hmove, ?_, ?_, ?_⟩
  · obtain ⟨f, hf1, hf2⟩ := shuffleLoop_cycle (a.length - 1) g a (by omega)
    refine ⟨f, fun k hk => ?_, fun k hk => hf2 k (by omega)⟩
    obtain ⟨h1, h2⟩ := hf1 k (by omega)
    exact ⟨by omega, h2⟩
  · intro e
    exact hmove 0 (by omega) (by rw [e])
  · intro x y e
    subst e
    exact shuffle_two g x y

/-- Witness of C35 on three answers with every draw 0: the elements go round. -/
theorem C35_shuffle_moves_every_element_witness :
    (shuffle (fun _ => 0) ["a", "b", "c"]).1 = ["b", "c", "a"] ∧
    (∀ k < 3, (shuffle (fun _ => 0) ["a", "b", "c"]).1[k]? ≠ ["a", "b", "c"][k]?) ∧
    isSingleCycle ["a", "b", "c"] (shuffle (fun _ => 0) ["a", "b", "c"]).1 ∧
    (shuffle (fun _ => 0) ["a", "b", "c"]).1 ≠ ["a", "b", "c"] :=
  ⟨by decide,
    (C35_shuffle_moves_every_element (fun _ => 0) ["a", "b", "c"] (by decide) (by decide)).1,
    (C35_shuffle_moves_every_element (fun _ => 0) ["a", "b", "c"] (by decide) (by decide)).2.1,
    (C35_shuffle_moves_every_element (fun _ => 0) ["a", "b", "c"] (by decide) (by decide)).2.2.1⟩

end ShuffleCycle

section UpstreamPick

open server wagl spec

theorem nameserverLoop_length (ns out : List String) (h : nameserverLoop ns = .ok out) :
    out.length = ns.length := by
  induction ns generalizing out with
  | nil =>
    simp only [nameserverLoop, Except.ok.injEq] at h
    subst h
    rfl
  | cons v vs ih =>
    rw [nameserverLoop_cons] at h
    by_cases hv : net.ParseIP (hostPart v) = []
    · rw [if_pos hv] at h
      cases h
    · rw [if_neg hv] at h
      cases hr : nameserverLoop vs with
      | error e => rw [hr] at h; cases h
      | ok rest =>
        rw [hr] at h
        simp only [Except.ok.injEq] at h
        subst h
        simp [ih rest hr]

theorem validate_loaded (localNameservers : Except String (List String)) (opt opt1 : Options)
    (h : (if opt.recurse && decide (opt.nameservers.length = 0) then
        match localNameservers with
        | .error err => (.error (.loadNameservers err) : Except ValidateError Options)
        | .ok ns =>
          if ns.length = 0 then .error .noNameserversFound
          else .ok { opt with nameservers := ns }
      else .ok opt) = .ok opt1) :
    opt1.recurse = opt.recurse ∧ (opt.recurse = true → opt1.nameservers ≠ []) ∧
      (opt.recurse = false → opt1.nameservers = opt.nameservers) := by
  by_cases hc : (opt.recurse && decide (opt.nameservers.length = 0)) = true
  · rw [if_pos hc] at h
    have hrec : opt.recurse = true := by
      simp only [Bool.and_eq_true] at hc
      exact hc.1
    cases localNameservers with
    | error e => cases h
    | ok l =>
      simp only at h
      by_cases hl : l.length = 0
      · rw [if_pos hl] at h
        cases h
      · rw [if_neg hl] at h
        simp only [Except.ok.injEq] at h
        subst h
        refine ⟨rfl, fun _ e => hl ?_, fun e => ?_⟩
        · simp only at e
          rw [e]
          rfl
        · rw [hrec] at e
          cases e
  · rw [if_neg hc] at h
    simp only [Except.ok.injEq] at h
    subst h
    refine ⟨rfl, fun hrec e => hc ?_, fun _ => rfl⟩
    rw [hrec, e]
    rfl

theorem validate_ok (localNameservers : Except String (List String)) (opt out : Options)
    (h : validate localNameservers opt = .ok out) :
    out.recurse = opt.recurse ∧ (out.nameservers = [] ↔ opt.recurse = false) := by
  unfold validate at h
  by_cases c1 : (!opt.recurse && decide (opt.nameservers.length > 0)) = true
  · rw [if_pos c1] at h
    cases h
  rw [if_neg c1] at h
  by_cases c2 : (opt.tlsVerify && decide (opt.tlsDir = "")) = true
  · rw [if_pos c2] at h
    cases h
  rw [if_neg c2] at h
  simp only at h
  generalize hL : (ite ((opt.recurse && decide (opt.nameservers.length = 0)) = true) _ _ :
    Except ValidateError Options) = loaded at h
  cases loaded with
  | error e => cases h
  | ok opt1 =>
    obtain ⟨h1, h2, h3⟩ := validate_loaded localNameservers opt opt1 hL
    simp only at h
    cases hns : nameserverLoop opt1.nameservers with
    | error e => rw [hns] at h; cases h
    | ok ns =>
      rw [hns] at h
      simp only at h
      split at h
      · cases h
      simp only [Except.ok.injEq] at h
      subst h
      have hlen := nameserverLoop_length _ _ hns
      refine ⟨h1, ?_⟩
      simp only
      constructor
      · intro e
        by_contra hrec
        have hrec1 : opt.recurse = true := by simpa using hrec
        apply h2 hrec1
        rw [e] at hlen
        exact List.length_eq_zero.mp hlen.symm
      · intro hrec
        have h4 := h3 hrec
        simp only [hrec, Bool.not_false, Bool.true_and, decide_eq_true_eq] at c1
        have h0 : opt1.nameservers.length = 0 := by
          rw [h4]
          omega
        rw [h0] at hlen
        exact List.length_eq_zero.mp hlen

theorem queryExternal_pick (d : DnsServer) (g : Rand) (exchange : Exchange) (req : dns.Msg)
    (h : d.nameservers ≠ []) :
    ∃ res, queryExternal d g exchange req = some res ∧
      g 0 % d.nameservers.length < d.nameservers.length ∧
      d.nameservers[g 0 % d.nameservers.length]? = some res.ns ∧
      res.response = exchange req res.ns := by
  have hpos : 0 < d.nameservers.length := List.length_pos.mpr h
  have hlt : g 0 % d.nameservers.length < d.nameservers.length := Nat.mod_lt _ hpos
  refine ⟨⟨exchange req (d.nameservers.getD (g 0 % d.nameservers.length) ""),
    d.nameservers.getD (g 0 % d.nameservers.length) "", fun k => g (k + 1)⟩, ?_, hlt, ?_, rfl⟩
  · unfold queryExternal
    rw [dif_pos hpos]
    rfl
  · rw [List.getD_eq_getElem?_getD, List.getElem?_eq_getElem hlt]
    rfl

/-- C36: whenever `validate` succeeds with recursion enabled, whatever reading
/etc/resolv.conf gives, the nameserver list it leaves is not empty, so that
`queryExternal` of a server built from the validated options draws an index below the
length of the list and picks the nameserver at that index; and with recursion
disabled the list is empty, `queryExternal` would panic, and `handleExternal` replies
without reaching it. -/
theorem C36_upstream_pick_defined (localNameservers : Except String (List String))
    (opt out : Options) (h : validate localNameservers opt = .ok out) :
    out.recurse = opt.recurse ∧
    (opt.recurse = true → out.nameservers ≠ [] ∧
      ∀ (rr : rrstore.rrStore) (g : Rand) (exchange : Exchange) (req : dns.Msg),
        ∃ res, queryExternal ⟨rr, out.recurse, out.nameservers⟩ g exchange req = some res ∧
          g 0 % out.nameservers.length < out.nameservers.length ∧
          out.nameservers[g 0 % out.nameservers.length]? = some res.ns ∧
          res.ns ∈ out.nameservers) ∧
    (opt.recurse = false →
      ∀ (rr : rrstore.rrStore) (g : Rand) (exchange : Exchange) (r : dns.Msg)
        (q : dns.Question) (qs : List dns.Question), r.Question = q :: qs →
        queryExternal ⟨rr, out.recurse, out.nameservers⟩ g exchange r = none ∧
        ∃ m, handleExternal ⟨rr, out.recurse, out.nameservers⟩ g exchange r =
          some (m, g, [])) := by
  obtain ⟨h1, h2⟩ := validate_ok localNameservers opt out h
  refine ⟨h1, ?_, ?_⟩
  · intro hrec
    have hne : out.nameservers ≠ [] := fun e => by
      have := h2.mp e
      rw [hrec] at this
      cases this
    refine ⟨hne, ?_⟩
    intro rr g exchange req
    obtain ⟨res, h3, h4, h5, _⟩ :=
      queryExternal_pick ⟨rr, out.recurse, out.nameservers⟩ g exchange req hne
    exact ⟨res, h3, h4, h5, List.mem_iff_getElem?.mpr ⟨_, h5⟩⟩
  · intro hrec rr g exchange r q qs hq
    have he : out.nameservers = [] := h2.mpr hrec
    refine ⟨?_, _, handleExternal_off ⟨rr, out.recurse, out.nameservers⟩ g exchange r q qs hq
      (h1.trans hrec)⟩
    unfold queryExternal
    rw [dif_neg]
    simp [he]

/-- Witness of C36: recursion on and no nameserver given, /etc/resolv.conf giving
10.0.0.2; the validated list is 10.0.0.2:53 and the pick is that entry. -/
theorem C36_upstream_pick_defined_witness :
    validate (.ok ["10.0.0.2"])
        ⟨"swarm.", ":53", "127.0.0.1:2376", "", false, true, [],
          15000000000, 10000000000, 60000000000⟩ =
      .ok ⟨"swarm.", ":53", "127.0.0.1:2376", "", false, true, ["10.0.0.2:53"],
          15000000000, 10000000000, 60000000000⟩ ∧
    ∃ res, queryExternal ⟨rrstore.New, true, ["10.0.0.2:53"]⟩ (fun _ => 0)
        (fun _ _ => .error "unreachable") (query "example.com" dns.TypeA) = some res ∧
      res.ns ∈ ["10.0.0.2:53"] := by
  refine ⟨rfl, ?_⟩
  obtain ⟨res, h1, _, _, h4⟩ := ((C36_upstream_pick_defined (.ok ["10.0.0.2"])
    ⟨"swarm.", ":53", "127.0.0.1:2376", "", false, true, [],
      15000000000, 10000000000, 60000000000⟩
    ⟨"swarm.", ":53", "127.0.0.1:2376", "", false, true, ["10.0.0.2:53"],
      15000000000, 10000000000, 60000000000⟩ rfl).2.1 rfl).2 rrstore.New (fun _ => 0)
    (fun _ _ => .error "unreachable") (query "example.com" dns.TypeA)
  exact ⟨res, h1, h4⟩

end UpstreamPick
